import Mathlib

/-!
# The basic FT2 shaping engine, the layout deserializer and the items

A shallow embedding of `modules/basic/basic-ft2.c` (`find_char`, `set_glyph`,
`swap_range`, `basic_engine_shape` and the module interface), of
`pango_layout_deserialize` of `pango/serializer.c` and of the items of
`pango/pango-item-private.h`, followed by theorems about them.

Conventions of the embedding:

* A glyph string is the pair of C arrays `glyphs[]` and `log_clusters[]` together
  with `num_glyphs`.  The arrays are total maps from an index to a slot, so a
  slot that the code never writes keeps whatever the memory held before.
* Widths, offsets and kerning are C `int`s; they are embedded as integers, and the
  sum `width += kerning` of `set_glyph` and the difference `width - ink_rect.width` of
  the overstrike heuristic are reduced to 32 bits in two's complement (`int_wrap`).
* `text` is a NUL-terminated UTF-8 string.  It is given by the sequence of code
  points it encodes; a pointer into it is the byte offset from `text`.
* What the engine asks of the font (FreeType char index, glyph count, glyph extents,
  kerning, unknown glyph) and of the Unicode tables (mirroring, general category)
  is a parameter.
-/

/-! # The basic FT2 shaping engine (`modules/basic/basic-ft2.c`) -/

namespace BasicFT2

/-! ## Data model -/

/-- The C struct `PangoRectangle`. -/
structure PangoRectangle where
  x : Int
  y : Int
  width : Int
  height : Int
  deriving DecidableEq, Repr

/-- The C struct `PangoGlyphGeometry`. -/
structure PangoGlyphGeometry where
  width : Int
  x_offset : Int
  y_offset : Int
  deriving DecidableEq, Repr

/-- The C struct `PangoGlyphInfo`; `attr` stands for `PangoGlyphVisAttr`
(`is_cluster_start`), which the engine never writes but moves along with the slot. -/
structure PangoGlyphInfo where
  glyph : Nat
  geometry : PangoGlyphGeometry
  attr : Bool
  deriving DecidableEq, Repr

/-- The C struct `PangoGlyphString`: `num_glyphs`, `glyphs[]` and `log_clusters[]`. -/
structure PangoGlyphString where
  num_glyphs : Nat
  glyphs : Nat → PangoGlyphInfo
  log_clusters : Nat → Int

/-- The C struct `PangoAnalysis`, of which the engine reads the bidi level only. -/
structure PangoAnalysis where
  level : Nat
  deriving DecidableEq, Repr

/-- What the engine asks of a `PangoFont`: `FT_Get_Char_Index` on its face, the
face's `num_glyphs`, `pango_font_get_glyph_extents` (ink rectangle, logical
rectangle), `pango_ft2_font_get_kerning`, and the unknown-glyph placeholder. -/
structure PangoFont where
  char_index : Nat → Nat
  num_glyphs : Nat
  ink_rect : Nat → PangoRectangle
  logical_rect : Nat → PangoRectangle
  kerning : Nat → Nat → Int
  unknown_glyph : Nat
  unknown_glyph_ne_zero : unknown_glyph ≠ 0

/-- The Unicode tables the engine consults: `pango_get_mirror_char` (the mirrored
counterpart, when the character has one) and the test
`g_unichar_type (wc) == G_UNICODE_NON_SPACING_MARK`. -/
structure UnicodeTables where
  pango_get_mirror_char : Nat → Option Nat
  is_non_spacing_mark : Nat → Bool

/-- Modelled from the spec: `pango_ft2_get_unknown_glyph` is declared in `pangoft2.h`,
which is not among the sources.  The spec calls it the backend's designated unknown
glyph placeholder, a glyph index guaranteed renderable and never glyph id 0; the
font record carries that index together with the fact that it is not 0. -/
def pango_ft2_get_unknown_glyph (font : PangoFont) : Nat :=
  font.unknown_glyph

/-- Modelled from the spec: `pango_glyph_string_set_size` is defined in
`glyphstring.c`, which is not among the sources.  The spec has the glyph string
resized in place by a single call; slots keep their memory contents. -/
def pango_glyph_string_set_size (glyphs : PangoGlyphString) (new_len : Nat) :
    PangoGlyphString :=
  { glyphs with num_glyphs := new_len }

/-- Array store `a[i] = v`. -/
def store {α : Type} (a : Nat → α) (i : Nat) (v : α) : Nat → α :=
  fun j => if j = i then v else a j

/-! ## UTF-8 text (GLib primitives on a valid string) -/

/-- Number of bytes of the UTF-8 encoding of a code point (GLib `UTF8_LENGTH`);
on a valid string this is what `g_utf8_skip` gives for the lead byte. -/
def utf8_length (c : Nat) : Nat :=
  if c < 0x80 then 1
  else if c < 0x800 then 2
  else if c < 0x10000 then 3
  else if c < 0x200000 then 4
  else if c < 0x4000000 then 5
  else 6

/-- Byte length of the encoding of a sequence of code points. -/
def utf8_byte_length : List Nat → Nat
  | [] => 0
  | c :: cs => utf8_length c + utf8_byte_length cs

/-- GLib `g_utf8_strlen (text, max)`: the number of characters before the
terminating NUL that lie completely within the first `max` bytes (all of them
when `max` is negative). -/
def g_utf8_strlen : List Nat → Int → Nat
  | [], _ => 0
  | c :: cs, max =>
    if c = 0 then 0
    else if max < 0 then 1 + g_utf8_strlen cs max
    else if max < utf8_length c then 0
    else 1 + g_utf8_strlen cs (max - utf8_length c)

/-- GLib `g_utf8_get_char (text + p)`: the code point whose encoding starts at
byte offset `p`; reading the terminating NUL gives 0 and a pointer into the middle
of a character gives `(gunichar) -1`. -/
def g_utf8_get_char : List Nat → Nat → Nat
  | [], _ => 0
  | c :: cs, p =>
    if p = 0 then c
    else if p < utf8_length c then 0xFFFFFFFF
    else g_utf8_get_char cs (p - utf8_length c)

/-- The entry `g_utf8_skip[*(guchar *)(text + p)]`: the encoded length of the
character starting at `p`, and 1 on the NUL or on a continuation byte. -/
def g_utf8_skip_at : List Nat → Nat → Nat
  | [], _ => 1
  | c :: cs, p =>
    if p = 0 then utf8_length c
    else if p < utf8_length c then 1
    else g_utf8_skip_at cs (p - utf8_length c)

/-- GLib `g_utf8_next_char (text + p)`, as a byte offset. -/
def g_utf8_next_char (text : List Nat) (p : Nat) : Nat :=
  p + g_utf8_skip_at text p

/-! ## The engine -/

/-- The C type `int` (`gint`) of the geometry fields, of the rectangles and of the
kerning: the value that an `int` holds when the arithmetic gives `n`, which is `n`
modulo 2^32 in two's complement (`n` itself when it lies in the range of `int`). -/
def int_wrap (n : Int) : Int :=
  (n + 2147483648) % 4294967296 - 2147483648

/-- Whether `n` lies in the range of a C `int`, `G_MININT` to `G_MAXINT`. -/
def fits_int (n : Int) : Bool :=
  decide (-2147483648 ≤ n) && decide (n ≤ 2147483647)

/-- The macro `ZERO_WIDTH_CHAR`. -/
def ZERO_WIDTH_CHAR (wc : Nat) : Bool :=
  (decide (wc ≥ 0x200B) && decide (wc ≤ 0x200F)) ||
    (decide (wc ≥ 0x202A) && decide (wc ≤ 0x202E))

/-- The function `find_char`. -/
def find_char (font : PangoFont) (wc : Nat) : Nat :=
  let index := font.char_index wc
  if index ≠ 0 ∧ index ≤ font.num_glyphs then index else 0

/-- The function `set_glyph`. -/
def set_glyph (font : PangoFont) (glyphs : PangoGlyphString) (i : Nat) (offset : Int)
    (glyph : Nat) : PangoGlyphString :=
  -- glyphs->glyphs[i].glyph = glyph; x_offset = 0; y_offset = 0
  let gi := glyphs.glyphs i
  let gi := { gi with glyph := glyph }
  let gi := { gi with geometry := { gi.geometry with x_offset := 0 } }
  let gi := { gi with geometry := { gi.geometry with y_offset := 0 } }
  -- glyphs->log_clusters[i] = offset
  let lc := store glyphs.log_clusters i offset
  -- glyphs->glyphs[i].geometry.width = logical_rect.width
  let logical_rect := font.logical_rect gi.glyph
  let gi := { gi with geometry := { gi.geometry with width := logical_rect.width } }
  let gs := store glyphs.glyphs i gi
  if i > 0 then
    let prev := gs (i - 1)
    let prev := { prev with geometry := { prev.geometry with
      width := int_wrap
        (prev.geometry.width + font.kerning (gs (i - 1)).glyph (gs i).glyph) } }
    { glyphs with glyphs := store gs (i - 1) prev, log_clusters := lc }
  else
    { glyphs with glyphs := gs, log_clusters := lc }

/-- One swap of the loop body of `swap_range`: slots `i` and `j` of both arrays. -/
def swap_slots (glyphs : PangoGlyphString) (i j : Nat) : PangoGlyphString :=
  let glyph_info := glyphs.glyphs i
  let gs := store glyphs.glyphs i (glyphs.glyphs j)
  let gs := store gs j glyph_info
  let log_cluster := glyphs.log_clusters i
  let lc := store glyphs.log_clusters i (glyphs.log_clusters j)
  let lc := store lc j log_cluster
  { glyphs with glyphs := gs, log_clusters := lc }

/-- The loop `for (...; i < j; i++, j--)` of `swap_range`, run for at most `fuel`
iterations. -/
def swap_range_loop : Nat → PangoGlyphString → Nat → Nat → PangoGlyphString
  | 0, glyphs, _, _ => glyphs
  | fuel + 1, glyphs, i, j =>
    if i < j then swap_range_loop fuel (swap_slots glyphs i j) (i + 1) (j - 1)
    else glyphs

/-- The function `swap_range`.  `j` starts at `end - 1`; for `end = 0` the C value
is -1 and the loop body is not entered, as with the truncated 0 here.  The loop
makes fewer than `end` iterations, so `end` is enough fuel. -/
def swap_range (glyphs : PangoGlyphString) (start e : Nat) : PangoGlyphString :=
  swap_range_loop e glyphs start (e - 1)

/-- The inner loop
`while (end < n_chars && log_clusters[end] == log_clusters[start]) end++;`
run for at most `fuel` iterations; it returns the final `end`. -/
def cluster_end : Nat → PangoGlyphString → Nat → Nat → Nat → Nat
  | 0, _, _, _, e => e
  | fuel + 1, glyphs, n_chars, start, e =>
    if e < n_chars ∧ glyphs.log_clusters e = glyphs.log_clusters start then
      cluster_end fuel glyphs n_chars start (e + 1)
    else e

/-- The loop `for (start = 0; start < n_chars;)` that reorders the glyphs within
each cluster, run for at most `fuel` iterations. -/
def cluster_loop : Nat → PangoGlyphString → Nat → Nat → PangoGlyphString
  | 0, glyphs, _, _ => glyphs
  | fuel + 1, glyphs, n_chars, start =>
    if start < n_chars then
      let e := cluster_end n_chars glyphs n_chars start start
      cluster_loop fuel (swap_range glyphs start e) n_chars e
    else glyphs

/-- The bidi pass of `basic_engine_shape` (the body of the final
`if (analysis->level % 2)`): swap all glyphs, then reorder the glyphs within each
cluster back.  Every iteration of either loop advances by at least one slot, so
`n_chars` is enough fuel. -/
def bidi_reorder (glyphs : PangoGlyphString) (n_chars : Nat) : PangoGlyphString :=
  cluster_loop n_chars (swap_range glyphs 0 n_chars) n_chars 0

/-- The body of the per-character loop of `basic_engine_shape`, for index `i` and
pointer `text + p`. -/
def shape_char (u : UnicodeTables) (font : PangoFont) (text : List Nat) (level : Nat)
    (i p : Nat) (glyphs : PangoGlyphString) : PangoGlyphString :=
  let wc := g_utf8_get_char text p
  let wc :=
    if level % 2 ≠ 0 then
      match u.pango_get_mirror_char wc with
      | some mirrored_ch => mirrored_ch
      | none => wc
    else wc
  let wc := if wc = 0xa0 then 0x20 else wc
  if ZERO_WIDTH_CHAR wc then
    set_glyph font glyphs i p 0
  else
    let index := find_char font wc
    if index ≠ 0 then
      let glyphs := set_glyph font glyphs i p index
      if u.is_non_spacing_mark wc then
        if i > 0 then
          let gi := glyphs.glyphs i
          let prev := glyphs.glyphs (i - 1)
          let gi := { gi with geometry := { gi.geometry with
            width := max prev.geometry.width gi.geometry.width } }
          let prev := { prev with geometry := { prev.geometry with width := 0 } }
          let gs := store (store glyphs.glyphs i gi) (i - 1) prev
          let lc := store glyphs.log_clusters i (glyphs.log_clusters (i - 1))
          let ink_rect := font.ink_rect (gs i).glyph
          let logical_rect := font.logical_rect (gs i).glyph
          if logical_rect.width = 0 ∧ ink_rect.x = 0 then
            let gi := gs i
            let gi := { gi with geometry := { gi.geometry with
              x_offset := Int.tdiv (int_wrap (gi.geometry.width - ink_rect.width)) 2 } }
            { glyphs with glyphs := store gs i gi, log_clusters := lc }
          else
            { glyphs with glyphs := gs, log_clusters := lc }
        else glyphs
      else glyphs
    else
      set_glyph font glyphs i p (pango_ft2_get_unknown_glyph font)

/-- The state `(p - text, glyphs)` after the first `i` iterations of the
per-character loop. -/
def shape_loop (u : UnicodeTables) (font : PangoFont) (text : List Nat) (level : Nat)
    (glyphs : PangoGlyphString) : Nat → Nat × PangoGlyphString
  | 0 => (0, glyphs)
  | i + 1 =>
    let s := shape_loop u font text level glyphs i
    (g_utf8_next_char text s.1, shape_char u font text level i s.1 s.2)

/-- The glyph string in logical order: `basic_engine_shape` up to, and without,
the bidi pass. -/
def shape_logical (u : UnicodeTables) (font : PangoFont) (text : List Nat) (length : Int)
    (level : Nat) (glyphs : PangoGlyphString) : PangoGlyphString :=
  let n_chars := g_utf8_strlen text length
  let glyphs := pango_glyph_string_set_size glyphs n_chars
  (shape_loop u font text level glyphs n_chars).2

/-- The function `basic_engine_shape`.  A null `font`, `text` or `analysis` is
`none`; each `g_return_if_fail` returns with the glyph string as it was. -/
def basic_engine_shape (u : UnicodeTables) (font : Option PangoFont)
    (text : Option (List Nat)) (length : Int) (analysis : Option PangoAnalysis)
    (glyphs : PangoGlyphString) : PangoGlyphString :=
  match font with
  | none => glyphs
  | some font =>
    match text with
    | none => glyphs
    | some text =>
      if ¬ (length ≥ 0) then glyphs
      else
        match analysis with
        | none => glyphs
        | some analysis =>
          let n_chars := g_utf8_strlen text length
          let glyphs := shape_logical u font text length analysis.level glyphs
          if analysis.level % 2 ≠ 0 then bidi_reorder glyphs n_chars
          else glyphs

/-! ## Vocabulary for the statements -/

/-- The code point `wc` after the mirroring step of the loop body. -/
def mirror_wc (u : UnicodeTables) (level : Nat) (wc : Nat) : Nat :=
  if level % 2 ≠ 0 then
    match u.pango_get_mirror_char wc with
    | some mirrored_ch => mirrored_ch
    | none => wc
  else wc

/-- The code point `wc` that the loop body tests and looks up for the character `c`:
after mirroring and after the replacement of the no-break space. -/
def lookup_wc (u : UnicodeTables) (level : Nat) (c : Nat) : Nat :=
  if mirror_wc u level c = 0xa0 then 0x20 else mirror_wc u level c

/-- The glyph that the loop body passes to `set_glyph` for the character `c`. -/
def char_glyph (u : UnicodeTables) (font : PangoFont) (level : Nat) (c : Nat) : Nat :=
  if ZERO_WIDTH_CHAR (lookup_wc u level c) then 0
  else if find_char font (lookup_wc u level c) ≠ 0 then find_char font (lookup_wc u level c)
  else pango_ft2_get_unknown_glyph font

/-- The test under which the loop body takes the non-spacing-mark branch for the
character `c` at index `i`. -/
def is_merged (u : UnicodeTables) (font : PangoFont) (level : Nat) (c : Nat) (i : Nat) :
    Bool :=
  !ZERO_WIDTH_CHAR (lookup_wc u level c) && decide (find_char font (lookup_wc u level c) ≠ 0)
    && u.is_non_spacing_mark (lookup_wc u level c) && decide (i > 0)

/-- The non-spacing-mark block of the loop body (the statements under `if (i > 0)`). -/
def merge_mark (font : PangoFont) (glyphs : PangoGlyphString) (i : Nat) : PangoGlyphString :=
  let gi := glyphs.glyphs i
  let prev := glyphs.glyphs (i - 1)
  let gi := { gi with geometry := { gi.geometry with
    width := max prev.geometry.width gi.geometry.width } }
  let prev := { prev with geometry := { prev.geometry with width := 0 } }
  let gs := store (store glyphs.glyphs i gi) (i - 1) prev
  let lc := store glyphs.log_clusters i (glyphs.log_clusters (i - 1))
  let ink_rect := font.ink_rect (gs i).glyph
  let logical_rect := font.logical_rect (gs i).glyph
  if logical_rect.width = 0 ∧ ink_rect.x = 0 then
    let gi := gs i
    let gi := { gi with geometry := { gi.geometry with
      x_offset := Int.tdiv (int_wrap (gi.geometry.width - ink_rect.width)) 2 } }
    { glyphs with glyphs := store gs i gi, log_clusters := lc }
  else
    { glyphs with glyphs := gs, log_clusters := lc }

/-- Byte offset from `text` of the character with index `i`. -/
def char_offset (text : List Nat) (i : Nat) : Nat :=
  utf8_byte_length (text.take i)

/-- The character with index `i` of the text (the terminating NUL past the end). -/
def char_at (text : List Nat) (i : Nat) : Nat :=
  text.getD i 0

/-- The glyph chosen for the character with index `k`. -/
def logical_glyph (u : UnicodeTables) (font : PangoFont) (level : Nat) (text : List Nat)
    (k : Nat) : Nat :=
  char_glyph u font level (char_at text k)

/-- Whether the character with index `k` takes the non-spacing-mark branch. -/
def merged_at (u : UnicodeTables) (font : PangoFont) (level : Nat) (text : List Nat)
    (k : Nat) : Bool :=
  is_merged u font level (char_at text k) k

/-- The `log_clusters` entry of slot `k` in logical order: the byte offset of
character `k`, or the entry of slot `k - 1` when character `k` is merged. -/
def logical_cluster (u : UnicodeTables) (font : PangoFont) (level : Nat) (text : List Nat) :
    Nat → Int
  | 0 => (char_offset text 0 : Nat)
  | k + 1 =>
    if merged_at u font level text (k + 1) then logical_cluster u font level text k
    else (char_offset text (k + 1) : Nat)

/-- The width that slot `k` holds when iteration `k` of the loop is over (before
iteration `k + 1` adds kerning to it or zeroes it). -/
def cluster_width (u : UnicodeTables) (font : PangoFont) (level : Nat) (text : List Nat) :
    Nat → Int
  | 0 => (font.logical_rect (logical_glyph u font level text 0)).width
  | k + 1 =>
    if merged_at u font level text (k + 1) then
      max (int_wrap (cluster_width u font level text k
            + font.kerning (logical_glyph u font level text k)
                (logical_glyph u font level text (k + 1))))
          (font.logical_rect (logical_glyph u font level text (k + 1))).width
    else (font.logical_rect (logical_glyph u font level text (k + 1))).width

/-! ## Reading a glyph string -/

/-- The first `n` slots of a glyph string, each with its `log_clusters` entry. -/
def slots (glyphs : PangoGlyphString) (n : Nat) : List (PangoGlyphInfo × Int) :=
  (List.range n).map (fun k => (glyphs.glyphs k, glyphs.log_clusters k))

/-- The slots with index in `[a, b)`, each with its `log_clusters` entry. -/
def slots_between (glyphs : PangoGlyphString) (a b : Nat) : List (PangoGlyphInfo × Int) :=
  (List.range' a (b - a)).map (fun k => (glyphs.glyphs k, glyphs.log_clusters k))

/-- Puts `x` in front of the first run. -/
def cons_run {β : Type} (x : β) : List (List β) → List (List β)
  | [] => [[x]]
  | r :: rs => (x :: r) :: rs

/-- The maximal sub-runs of slots that share the same `log_clusters` value, in the
order of the list. -/
def cluster_runs {β : Type} : List (β × Int) → List (List (β × Int))
  | [] => []
  | x :: xs =>
    match xs with
    | [] => [[x]]
    | y :: _ => if x.2 = y.2 then cons_run x (cluster_runs xs) else [x] :: cluster_runs xs

/-- The reorder as the spec words it: the list of maximal sub-runs of equal
`log_clusters` value is reversed, each sub-run keeping its internal order. -/
def reorder_by_clusters {β : Type} (l : List (β × Int)) : List (β × Int) :=
  (cluster_runs l).reverse.flatten

/-- Appends `x` to the last run when `same` holds, and as a run of its own otherwise. -/
def snoc_run {β : Type} (same : Bool) (x : β) : List (List β) → List (List β)
  | [] => [[x]]
  | [r] => if same then [r ++ [x]] else [r, [x]]
  | r :: r2 :: rs => r :: snoc_run same x (r2 :: rs)

/-- The engine applied to a whole text: `length` is the byte length of `text`. -/
def shape_run (u : UnicodeTables) (font : PangoFont) (text : List Nat) (level : Nat)
    (glyphs : PangoGlyphString) : PangoGlyphString :=
  basic_engine_shape u (some font) (some text) (utf8_byte_length text) (some ⟨level⟩) glyphs

/-- The natural (logical) width the font reports for a glyph. -/
def natural_width (font : PangoFont) (glyph : Nat) : Int :=
  (font.logical_rect glyph).width

/-! ## Sample inputs -/

/-- A mirroring table with the pair of parentheses, and U+0301 as the only
non-spacing mark. -/
def demo_tables : UnicodeTables where
  pango_get_mirror_char := fun c =>
    if c = 0x28 then some 0x29 else if c = 0x29 then some 0x28 else none
  is_non_spacing_mark := fun c => decide (c = 0x301)

/-- A font with glyphs 1..8 for `a`, `b`, `c`, U+0301, space, `)`, U+00A0 and `(`,
with unknown glyph 9.  Glyph `g` is `10 + g` wide, except the overstrike glyph 4 of
U+0301 which is 0 wide; kerning is -1 for (1, 2) and 5 for (2, 4). -/
def demo_font : PangoFont where
  char_index := fun c =>
    if c = 0x61 then 1 else if c = 0x62 then 2 else if c = 0x63 then 3
    else if c = 0x301 then 4 else if c = 0x20 then 5 else if c = 0x29 then 6
    else if c = 0xa0 then 7 else if c = 0x28 then 8 else 0
  num_glyphs := 10
  ink_rect := fun g => ⟨0, -12, 6, 12⟩
  logical_rect := fun g => ⟨0, -15, if g = 4 then 0 else 10 + (g : Int), 20⟩
  kerning := fun a b => if a = 1 ∧ b = 2 then -1 else if a = 2 ∧ b = 4 then 5 else 0
  unknown_glyph := 9
  unknown_glyph_ne_zero := by decide

/-- A glyph string of size 0 whose memory holds leftovers. -/
def demo_glyphs : PangoGlyphString where
  num_glyphs := 0
  glyphs := fun _ => ⟨77, ⟨1, 2, 3⟩, false⟩
  log_clusters := fun _ => 55

/-! ## The module interface -/

/-- The macro `SCRIPT_ENGINE_NAME`. -/
def SCRIPT_ENGINE_NAME : String := "BasicScriptEngineFT2"

/-- The macros of `pango-engine.h` and `pangoft2.h` that the module uses, and
`sizeof (result)`; the headers are not among the sources, so their values are
parameters. -/
structure EngineMacros where
  PANGO_ENGINE_TYPE_SHAPE : String
  PANGO_RENDER_TYPE_FT2 : String
  sizeof_result : Nat

/-- The C struct `PangoEngineRange` (`start`, `end`, `langs`). -/
structure PangoEngineRange where
  start : Nat
  end_ : Nat
  langs : String
  deriving DecidableEq, Repr

/-- The C struct `PangoEngineInfo`. -/
structure PangoEngineInfo where
  id : String
  engine_type : String
  render_type : String
  ranges : List PangoEngineRange
  n_ranges : Nat
  deriving DecidableEq, Repr

/-- The C struct `PangoEngine`. -/
structure PangoEngine where
  id : String
  type : String
  length : Nat
  deriving DecidableEq, Repr

/-- The functions of the module that an engine points to. -/
inductive EngineFunction where
  | basic_engine_shape
  | basic_engine_get_coverage
  deriving DecidableEq, Repr

/-- The C struct `PangoEngineShape`. -/
structure PangoEngineShape where
  engine : PangoEngine
  script_shape : EngineFunction
  get_coverage : EngineFunction
  deriving DecidableEq, Repr

/-- The table `basic_ranges`. -/
def basic_ranges : List PangoEngineRange :=
  [ ⟨0x0000, 0x02af, "*"⟩,
    ⟨0x02b0, 0x02ff, ""⟩,
    ⟨0x0380, 0x058f, "*"⟩,
    ⟨0x0591, 0x05f4, ""⟩,
    ⟨0x060c, 0x06f9, ""⟩,
    ⟨0x0e01, 0x0e5b, ""⟩,
    ⟨0x1e00, 0x1fff, "*"⟩,
    ⟨0x2000, 0x9fff, "*"⟩,
    ⟨0xac00, 0xd7a3, "kr"⟩,
    ⟨0xf900, 0xfa0b, "kr"⟩,
    ⟨0xff00, 0xffe3, "*"⟩ ]

/-- The table `script_engines`. -/
def script_engines (m : EngineMacros) : List PangoEngineInfo :=
  [ { id := SCRIPT_ENGINE_NAME,
      engine_type := m.PANGO_ENGINE_TYPE_SHAPE,
      render_type := m.PANGO_RENDER_TYPE_FT2,
      ranges := basic_ranges,
      n_ranges := basic_ranges.length } ]

/-- The variable `n_script_engines`. -/
def n_script_engines (m : EngineMacros) : Nat :=
  (script_engines m).length

/-- The function `basic_engine_ft2_new`. -/
def basic_engine_ft2_new (m : EngineMacros) : PangoEngineShape :=
  { engine := { id := SCRIPT_ENGINE_NAME,
                type := m.PANGO_ENGINE_TYPE_SHAPE,
                length := m.sizeof_result },
    script_shape := EngineFunction.basic_engine_shape,
    get_coverage := EngineFunction.basic_engine_get_coverage }

/-- The function `script_engine_list`: the values stored in `*engines` and
`*n_engines`. -/
def script_engine_list (m : EngineMacros) : List PangoEngineInfo × Nat :=
  (script_engines m, n_script_engines m)

/-- The function `script_engine_load`; `strcmp` gives 0 exactly on equal strings and
`NULL` is `none`. -/
def script_engine_load (m : EngineMacros) (id : String) : Option PangoEngineShape :=
  if id = SCRIPT_ENGINE_NAME then some (basic_engine_ft2_new m) else none

/-! ## More sample inputs -/

/-- Tables without mirrored pairs, with U+0300 and U+0301 as non-spacing marks. -/
def mark_tables : UnicodeTables where
  pango_get_mirror_char := fun _ => none
  is_non_spacing_mark := fun c => decide (c = 0x300) || decide (c = 0x301)

/-- A font with glyphs 1..4 for `a`, `b`, U+0301 and U+200B and with unknown glyph 5;
it has no glyph for U+0300.  The glyph of U+0301 is 0 wide and every other glyph 10;
every ink rectangle starts at x = 0 and is 30 wide; the kerning of every pair is 3. -/
def plain_font : PangoFont where
  char_index := fun c =>
    if c = 0x61 then 1 else if c = 0x62 then 2 else if c = 0x301 then 3
    else if c = 0x200B then 4 else 0
  num_glyphs := 5
  ink_rect := fun _ => ⟨0, -12, 30, 12⟩
  logical_rect := fun g => ⟨0, -15, if g = 3 then 0 else 10, 20⟩
  kerning := fun _ _ => 3
  unknown_glyph := 5
  unknown_glyph_ne_zero := by decide

/-- A glyph string of size 3 whose slots hold an earlier result. -/
def used_glyphs : PangoGlyphString where
  num_glyphs := 3
  glyphs := fun k => ⟨k + 1, ⟨5, 1, 1⟩, true⟩
  log_clusters := fun k => 2 * (k : Int)

/-- A font with glyph 1 for U+0301 and glyph 2 for `a`, with unknown glyph 3.  Every
glyph is 8 wide, every ink rectangle starts at x = 1, and the kerning of every pair
is 2. -/
def mark_font : PangoFont where
  char_index := fun c => if c = 0x301 then 1 else if c = 0x61 then 2 else 0
  num_glyphs := 4
  ink_rect := fun _ => ⟨1, -12, 6, 12⟩
  logical_rect := fun _ => ⟨0, -15, 8, 20⟩
  kerning := fun _ _ => 2
  unknown_glyph := 3
  unknown_glyph_ne_zero := by decide

/-- A font whose face has 5 glyphs and reports index 5 for `a`. -/
def edge_font : PangoFont where
  char_index := fun c => if c = 0x61 then 5 else 0
  num_glyphs := 5
  ink_rect := fun _ => ⟨0, -12, 6, 12⟩
  logical_rect := fun _ => ⟨0, -15, 8, 20⟩
  kerning := fun _ _ => 0
  unknown_glyph := 1
  unknown_glyph_ne_zero := by decide

/-- The glyph id, width, x offset, y offset and `log_clusters` value of a slot. -/
def slot_tuple (s : PangoGlyphInfo × Int) : Nat × Int × Int × Int × Int :=
  (s.1.glyph, s.1.geometry.width, s.1.geometry.x_offset, s.1.geometry.y_offset, s.2)

/-! ## The loops of the bidi pass with a visible bound -/

/-- The loop of `swap_range` as in `swap_range_loop`, but `none` when the bound on the
number of iterations is used up while `i < j` still holds. -/
def swap_range_loop_run : Nat → PangoGlyphString → Nat → Nat → Option PangoGlyphString
  | 0, glyphs, i, j => if i < j then none else some glyphs
  | fuel + 1, glyphs, i, j =>
    if i < j then swap_range_loop_run fuel (swap_slots glyphs i j) (i + 1) (j - 1)
    else some glyphs

/-- The inner `while` loop as in `cluster_end`, but `none` when the bound is used up
while the loop test still holds. -/
def cluster_end_run : Nat → PangoGlyphString → Nat → Nat → Nat → Option Nat
  | 0, glyphs, n_chars, start, e =>
    if e < n_chars ∧ glyphs.log_clusters e = glyphs.log_clusters start then none else some e
  | fuel + 1, glyphs, n_chars, start, e =>
    if e < n_chars ∧ glyphs.log_clusters e = glyphs.log_clusters start then
      cluster_end_run fuel glyphs n_chars start (e + 1)
    else some e

/-- The loop over the clusters as in `cluster_loop`, with the bounds that
`cluster_loop` and `swap_range` give to the loops inside, but `none` when a bound is
used up while the test of its loop still holds. -/
def cluster_loop_run : Nat → PangoGlyphString → Nat → Nat → Option PangoGlyphString
  | 0, glyphs, n_chars, start => if start < n_chars then none else some glyphs
  | fuel + 1, glyphs, n_chars, start =>
    if start < n_chars then
      match cluster_end_run n_chars glyphs n_chars start start with
      | none => none
      | some e =>
        match swap_range_loop_run e glyphs start (e - 1) with
        | none => none
        | some glyphs => cluster_loop_run fuel glyphs n_chars e
    else some glyphs

/-- The bidi pass as in `bidi_reorder`, `none` when a loop uses up its bound. -/
def bidi_reorder_run (glyphs : PangoGlyphString) (n_chars : Nat) : Option PangoGlyphString :=
  match swap_range_loop_run n_chars glyphs 0 (n_chars - 1) with
  | none => none
  | some glyphs => cluster_loop_run n_chars glyphs n_chars 0

/-! ## The engine with checked array accesses -/

/-- Whether `glyphs->glyphs[k]` and `glyphs->log_clusters[k]` lie inside the arrays of
`num_glyphs` slots; `k` is a C `int`. -/
def in_bounds (glyphs : PangoGlyphString) (k : Int) : Bool :=
  decide (0 ≤ k) && decide (k < (glyphs.num_glyphs : Int))

/-- The function `set_glyph` with checked accesses: it uses slot `i` of both arrays
and, under `if (i > 0)`, slot `i - 1` of the glyph array; `none` when an access is out
of bounds. -/
def set_glyph_checked (font : PangoFont) (glyphs : PangoGlyphString) (i : Nat)
    (offset : Int) (glyph : Nat) : Option PangoGlyphString :=
  if ¬ in_bounds glyphs (i : Int) then none
  else if i > 0 then
    if ¬ in_bounds glyphs ((i : Int) - 1) then none
    else some (set_glyph font glyphs i offset glyph)
  else some (set_glyph font glyphs i offset glyph)

/-- The non-spacing-mark block (entered under `if (i > 0)`) with checked accesses: it
uses slots `i` and `i - 1` of both arrays. -/
def merge_mark_checked (font : PangoFont) (glyphs : PangoGlyphString) (i : Nat) :
    Option PangoGlyphString :=
  if ¬ in_bounds glyphs (i : Int) then none
  else if ¬ in_bounds glyphs ((i : Int) - 1) then none
  else some (merge_mark font glyphs i)

/-- The body of the per-character loop with checked accesses. -/
def shape_char_checked (u : UnicodeTables) (font : PangoFont) (text : List Nat) (level : Nat)
    (i p : Nat) (glyphs : PangoGlyphString) : Option PangoGlyphString :=
  let wc := g_utf8_get_char text p
  let wc :=
    if level % 2 ≠ 0 then
      match u.pango_get_mirror_char wc with
      | some mirrored_ch => mirrored_ch
      | none => wc
    else wc
  let wc := if wc = 0xa0 then 0x20 else wc
  if ZERO_WIDTH_CHAR wc then
    set_glyph_checked font glyphs i p 0
  else
    let index := find_char font wc
    if index ≠ 0 then
      match set_glyph_checked font glyphs i p index with
      | none => none
      | some glyphs =>
        if u.is_non_spacing_mark wc then
          if i > 0 then merge_mark_checked font glyphs i
          else some glyphs
        else some glyphs
    else
      set_glyph_checked font glyphs i p (pango_ft2_get_unknown_glyph font)

/-- The state after the first `i` iterations of the per-character loop, with checked
accesses. -/
def shape_loop_checked (u : UnicodeTables) (font : PangoFont) (text : List Nat) (level : Nat)
    (glyphs : PangoGlyphString) : Nat → Option (Nat × PangoGlyphString)
  | 0 => some (0, glyphs)
  | i + 1 =>
    match shape_loop_checked u font text level glyphs i with
    | none => none
    | some s =>
      match shape_char_checked u font text level i s.1 s.2 with
      | none => none
      | some glyphs => some (g_utf8_next_char text s.1, glyphs)

/-- One swap of `swap_range` with checked accesses to slots `i` and `j`. -/
def swap_slots_checked (glyphs : PangoGlyphString) (i j : Nat) : Option PangoGlyphString :=
  if ¬ in_bounds glyphs (i : Int) then none
  else if ¬ in_bounds glyphs (j : Int) then none
  else some (swap_slots glyphs i j)

/-- The loop of `swap_range` with checked accesses. -/
def swap_range_loop_checked : Nat → PangoGlyphString → Nat → Nat → Option PangoGlyphString
  | 0, glyphs, _, _ => some glyphs
  | fuel + 1, glyphs, i, j =>
    if i < j then
      match swap_slots_checked glyphs i j with
      | none => none
      | some glyphs => swap_range_loop_checked fuel glyphs (i + 1) (j - 1)
    else some glyphs

/-- The function `swap_range` with checked accesses. -/
def swap_range_checked (glyphs : PangoGlyphString) (start e : Nat) : Option PangoGlyphString :=
  swap_range_loop_checked e glyphs start (e - 1)

/-- The inner `while` loop with checked accesses: `log_clusters[end]` and
`log_clusters[start]` are read only when `end < n_chars` holds. -/
def cluster_end_checked : Nat → PangoGlyphString → Nat → Nat → Nat → Option Nat
  | 0, _, _, _, e => some e
  | fuel + 1, glyphs, n_chars, start, e =>
    if e < n_chars then
      if ¬ in_bounds glyphs (e : Int) then none
      else if ¬ in_bounds glyphs (start : Int) then none
      else if glyphs.log_clusters e = glyphs.log_clusters start then
        cluster_end_checked fuel glyphs n_chars start (e + 1)
      else some e
    else some e

/-- The loop over the clusters with checked accesses. -/
def cluster_loop_checked : Nat → PangoGlyphString → Nat → Nat → Option PangoGlyphString
  | 0, glyphs, _, _ => some glyphs
  | fuel + 1, glyphs, n_chars, start =>
    if start < n_chars then
      match cluster_end_checked n_chars glyphs n_chars start start with
      | none => none
      | some e =>
        match swap_range_checked glyphs start e with
        | none => none
        | some glyphs => cluster_loop_checked fuel glyphs n_chars e
    else some glyphs

/-- The bidi pass with checked accesses. -/
def bidi_reorder_checked (glyphs : PangoGlyphString) (n_chars : Nat) :
    Option PangoGlyphString :=
  match swap_range_checked glyphs 0 n_chars with
  | none => none
  | some glyphs => cluster_loop_checked n_chars glyphs n_chars 0

/-- The function `basic_engine_shape`, for arguments that pass the four
`g_return_if_fail` tests, with checked accesses: `none` when some access to
`glyphs->glyphs[k]` or `glyphs->log_clusters[k]` is out of bounds. -/
def basic_engine_shape_checked (u : UnicodeTables) (font : PangoFont) (text : List Nat)
    (length : Int) (level : Nat) (glyphs : PangoGlyphString) : Option PangoGlyphString :=
  let n_chars := g_utf8_strlen text length
  let glyphs := pango_glyph_string_set_size glyphs n_chars
  match shape_loop_checked u font text level glyphs n_chars with
  | none => none
  | some s =>
    if level % 2 ≠ 0 then bidi_reorder_checked s.2 n_chars
    else some s.2

end BasicFT2

/-! # The layout deserializer (`pango/serializer.c`) -/

namespace Serializer

/-- GLib's `GError`: error domain (a quark), code and message. -/
structure GError where
  domain : Nat
  code : Int
  message : String
  deriving DecidableEq, Repr

/-- The enum `PangoLayoutDeserializeError`. -/
inductive PangoLayoutDeserializeError where
  | PANGO_LAYOUT_DESERIALIZE_INVALID
  | PANGO_LAYOUT_DESERIALIZE_INVALID_VALUE
  | PANGO_LAYOUT_DESERIALIZE_MISSING_VALUE
  deriving DecidableEq, Repr

/-- The error that `g_set_error (error, PANGO_LAYOUT_DESERIALIZE_ERROR, code, ...)`
hands to the caller. -/
structure DeserializeError where
  code : PangoLayoutDeserializeError
  message : String
  deriving DecidableEq, Repr

/-- What `pango_layout_deserialize` reads from the `GtkJsonParser` when
`json_parser_fill_layout` has run: the result of `gtk_json_parser_get_error` (`NULL`
is `none`) and of `gtk_json_parser_get_error_offset`. -/
structure ParserState where
  error : Option GError
  error_start : Nat
  error_end : Nat
  deriving DecidableEq, Repr

/-- The surroundings of `pango_layout_deserialize`: the type check `PANGO_IS_CONTEXT`,
`pango_layout_new`, the run of the JSON parser over the bytes
(`gtk_json_parser_new_for_bytes` followed by `json_parser_fill_layout`, giving the
filled layout and the parser), and the constants `GTK_JSON_ERROR`,
`GTK_JSON_ERROR_VALUE` and `GTK_JSON_ERROR_SCHEMA` of `gtkjsonparserprivate.h`, which
is not among the sources. -/
structure Environment (Context Layout : Type) where
  PANGO_IS_CONTEXT : Context → Bool
  pango_layout_new : Context → Layout
  fill_layout : List Nat → Layout → Nat → Layout × ParserState
  GTK_JSON_ERROR : Nat
  GTK_JSON_ERROR_VALUE : Int
  GTK_JSON_ERROR_SCHEMA : Int

/-- What the conversion `%ld` prints for a `gsize` argument: the 64-bit value read as
a `long`. -/
def gsize_as_long (n : Nat) : Int :=
  ((n : Int) + 9223372036854775808) % 18446744073709551616 - 9223372036854775808

/-- GLib's `g_error_matches`: the error is not `NULL` and has this domain and code. -/
def g_error_matches (error : Option GError) (domain : Nat) (code : Int) : Bool :=
  match error with
  | none => false
  | some e => decide (e.domain = domain) && decide (e.code = code)

/-- The function `pango_layout_deserialize`: the returned layout (`NULL` is `none`)
and the error passed to `g_set_error` (`none` when `g_set_error` is not called). -/
def pango_layout_deserialize {Context Layout : Type} (env : Environment Context Layout)
    (context : Context) (bytes : List Nat) (flags : Nat) :
    Option Layout × Option DeserializeError :=
  if ¬ env.PANGO_IS_CONTEXT context then (none, none)
  else
    let layout := env.pango_layout_new context
    let filled := env.fill_layout bytes layout flags
    let layout := filled.1
    let parser := filled.2
    let parser_error := parser.error
    match parser_error with
    | some e =>
      let code :=
        if g_error_matches parser_error env.GTK_JSON_ERROR env.GTK_JSON_ERROR_VALUE then
          PangoLayoutDeserializeError.PANGO_LAYOUT_DESERIALIZE_INVALID_VALUE
        else if g_error_matches parser_error env.GTK_JSON_ERROR env.GTK_JSON_ERROR_SCHEMA then
          PangoLayoutDeserializeError.PANGO_LAYOUT_DESERIALIZE_MISSING_VALUE
        else
          PangoLayoutDeserializeError.PANGO_LAYOUT_DESERIALIZE_INVALID
      (none,
        some { code := code,
               message := toString (gsize_as_long parser.error_start) ++ ":"
                 ++ toString (gsize_as_long parser.error_end) ++ ": " ++ e.message })
    | none => (some layout, none)

/-- A sample environment: contexts are numbers and 0 is not a context; a layout is
the text it holds; the parser fails with a value error (code 3) on empty input, with a
schema error (code 4) on input that starts with byte 0, with a syntax error (code 1)
on input that starts with byte 1, and succeeds on anything else. -/
def demo_env : Environment Nat String where
  PANGO_IS_CONTEXT := fun c => decide (c ≠ 0)
  pango_layout_new := fun _ => ""
  fill_layout := fun bytes layout _ =>
    match bytes with
    | [] => (layout, ⟨some ⟨7, 3, "bad value"⟩, 0, 0⟩)
    | 0 :: _ => (layout, ⟨some ⟨7, 4, "missing"⟩, 0, 1⟩)
    | 1 :: _ => (layout, ⟨some ⟨7, 1, "syntax"⟩, 0, 1⟩)
    | _ => ("parsed", ⟨none, 0, 0⟩)
  GTK_JSON_ERROR := 7
  GTK_JSON_ERROR_VALUE := 3
  GTK_JSON_ERROR_SCHEMA := 4

/-- The table `weight_names`, without the closing `NULL`. -/
def weight_names : List String :=
  ["thin", "ultralight", "light", "semilight", "book", "normal", "medium", "semibold",
   "bold", "ultrabold", "heavy", "ultraheavy"]

/-- The table `named_weights`. -/
def named_weights : List Int :=
  [100, 200, 300, 350, 380, 400, 500, 600, 700, 800, 900, 1000]

/-- The function `get_weight`: `named_weights[pos]`; `none` is a read outside the
table. -/
def get_weight (pos : Int) : Option Int :=
  if 0 ≤ pos then named_weights[pos.toNat]? else none

/-- The loop `for (int i = 0; i < G_N_ELEMENTS (named_weights); i++)` of
`get_weight_name` from index `i` on, with `count` entries of the table left. -/
def get_weight_name_loop (weight : Int) : Nat → Nat → Option String
  | 0, _ => none
  | count + 1, i =>
    if named_weights[i]? = some weight then weight_names[i]?
    else get_weight_name_loop weight count (i + 1)

/-- The function `get_weight_name`; `NULL` is `none`. -/
def get_weight_name (weight : Int) : Option String :=
  get_weight_name_loop weight named_weights.length 0

/-- The member `"value"` that `add_attribute` hands to the JSON printer:
`gtk_json_printer_add_string` or `gtk_json_printer_add_integer`. -/
inductive JsonValue where
  | string (s : String)
  | integer (n : Int)
  deriving DecidableEq, Repr

/-- The case `PANGO_ATTR_WEIGHT` of `add_attribute`. -/
def add_attribute_weight (int_value : Int) : JsonValue :=
  match get_weight_name int_value with
  | some name => JsonValue.string name
  | none => JsonValue.integer int_value

/-- The JSON parser as `attr_for_type` uses it: `gtk_json_parser_get_node`,
`gtk_json_parser_select_string`, `gtk_json_parser_get_int` (a `gint64`) and the
constant `GTK_JSON_STRING` of `gtkjsonparserprivate.h`, which is not among the
sources. -/
structure GtkJson (Parser : Type) where
  GTK_JSON_STRING : Nat
  gtk_json_parser_get_node : Parser → Nat
  gtk_json_parser_select_string : Parser → List String → Int
  gtk_json_parser_get_int : Parser → Int

/-- The function `parser_select_string`: the selected position and whether
`gtk_json_parser_value_error` was called. -/
def parser_select_string {Parser : Type} (json : GtkJson Parser) (parser : Parser)
    (options : List String) : Int × Bool :=
  let value := json.gtk_json_parser_select_string parser options
  if value = -1 then (0, true) else (value, false)

/-- The cast `(int)` of a `gint64`. -/
def to_int (n : Int) : Int := (n + 2 ^ 31) % 2 ^ 32 - 2 ^ 31

/-- The case `PANGO_ATTR_WEIGHT` of `attr_for_type`: the weight given to
`pango_attr_weight_new` (`none` when `get_weight` reads outside its table) and whether
a value error was recorded. -/
def attr_for_type_weight {Parser : Type} (json : GtkJson Parser) (parser : Parser) :
    Option Int × Bool :=
  if json.gtk_json_parser_get_node parser = json.GTK_JSON_STRING then
    let selected := parser_select_string json parser weight_names
    (get_weight selected.1, selected.2)
  else
    (some (to_int (json.gtk_json_parser_get_int parser)), false)

/-- The position of `s` in `options`, or -1. -/
def position_of (s : String) : List String → Int
  | [] => -1
  | o :: rest =>
    if o = s then 0
    else if position_of s rest = -1 then -1 else position_of s rest + 1

/-- A sample JSON parser that stands on a value: a string is node type 4 and selects
its position among the options (-1 when it is not listed), an integer is node type 3. -/
def demo_json : GtkJson JsonValue where
  GTK_JSON_STRING := 4
  gtk_json_parser_get_node := fun v =>
    match v with
    | JsonValue.string _ => 4
    | JsonValue.integer _ => 3
  gtk_json_parser_select_string := fun v options =>
    match v with
    | JsonValue.string s => position_of s options
    | JsonValue.integer _ => -1
  gtk_json_parser_get_int := fun v =>
    match v with
    | JsonValue.string _ => 0
    | JsonValue.integer n => n

end Serializer

/-! # Items (`pango/pango-item-private.h`) -/

namespace Itemize

/-- The C struct `PangoAnalysis` of `pango-item-private.h`; fonts, the language and
the attributes are given by identifiers. -/
structure PangoAnalysis where
  size_font : Nat
  font : Nat
  level : Nat
  gravity : Nat
  flags : Nat
  script : Nat
  language : Nat
  extra_attrs : List Nat
  deriving DecidableEq, Repr

/-- The C struct `PangoItem`. -/
structure PangoItem where
  offset : Int
  length : Int
  num_chars : Int
  char_offset : Int
  analysis : PangoAnalysis
  deriving DecidableEq, Repr

/-- Modelled from the spec: the test of the itemizer (`itemize.c` is not among the
sources) for keeping a character in the run of the preceding one: script, bidi level,
language, attribute set and resolved font are all identical. -/
def same_run (a b : PangoAnalysis) : Bool :=
  decide (a.script = b.script) && decide (a.level = b.level)
    && decide (a.language = b.language) && decide (a.extra_attrs = b.extra_attrs)
    && decide (a.font = b.font)

/-- Modelled from the spec: the merging pass of the itemizer (`itemize.c` is not among
the sources) over the characters that follow the current item `cur`; `i` is the index
of the next character and `analysis_of` gives the analysis resolved for a character
(bidi level, script, language, attributes, font).  A character that agrees with the
preceding one extends the current item, any other one starts the next item where the
current one ends. -/
def itemize_loop (analysis_of : Nat → PangoAnalysis) :
    List Nat → Nat → PangoItem → List PangoItem
  | [], _, cur => [cur]
  | c :: cs, i, cur =>
    if same_run (analysis_of i) (analysis_of (i - 1)) then
      itemize_loop analysis_of cs (i + 1)
        { cur with length := cur.length + BasicFT2.utf8_length c,
                   num_chars := cur.num_chars + 1 }
    else
      cur :: itemize_loop analysis_of cs (i + 1)
        { offset := cur.offset + cur.length,
          length := BasicFT2.utf8_length c,
          num_chars := 1,
          char_offset := cur.char_offset + cur.num_chars,
          analysis := analysis_of i }

/-- Modelled from the spec: `pango_itemize_with_font`, which `pango-item-private.h`
declares and `itemize.c` (not among the sources) defines.  `chars` are the characters
of the requested byte range, which starts at byte `start_index` and character
`start_char` of the text and is `utf8_byte_length chars` bytes long.  The items are
the maximal runs of characters with identical script, bidi level, language,
attributes and font, in logical order; a zero-length range gives no item. -/
def pango_itemize_with_font (analysis_of : Nat → PangoAnalysis) (chars : List Nat)
    (start_index start_char : Int) : List PangoItem :=
  match chars with
  | [] => []
  | c :: cs =>
    itemize_loop analysis_of cs 1
      { offset := start_index,
        length := BasicFT2.utf8_length c,
        num_chars := 1,
        char_offset := start_char,
        analysis := analysis_of 0 }

/-- The items, in order, cover the byte range `[lo, hi)`: the first starts at `lo`,
each next one starts where the one before ends, the last ends at `hi`, and no item is
empty. -/
def covers : List PangoItem → Int → Int → Prop
  | [], lo, hi => lo = hi
  | item :: rest, lo, hi => item.offset = lo ∧ 0 < item.length ∧
      covers rest (lo + item.length) hi

/-- A sample analysis: level 1 for the characters from U+0590 on and level 0 below,
everything else the same. -/
def demo_analysis (chars : List Nat) (i : Nat) : PangoAnalysis :=
  { size_font := 1, font := 1, level := if chars.getD i 0 ≥ 0x590 then 1 else 0,
    gravity := 0, flags := 0, script := 0, language := 0, extra_attrs := [] }

end Itemize

/-! # Theorems about the basic FT2 shaping engine -/

namespace BasicFT2

/-! ## Basic facts -/

theorem int_wrap_of_fits (n : Int) (h : fits_int n = true) : int_wrap n = n := by
  simp only [fits_int, Bool.and_eq_true, decide_eq_true_eq] at h
  unfold int_wrap
  omega

theorem fits_int_int_wrap (n : Int) : fits_int (int_wrap n) = true := by
  simp only [fits_int, Bool.and_eq_true, decide_eq_true_eq]
  unfold int_wrap
  omega

@[simp] theorem store_same {α : Type} (a : Nat → α) (i : Nat) (v : α) :
    store a i v i = v := by
  simp [store]

@[simp] theorem store_other {α : Type} (a : Nat → α) (i j : Nat) (v : α) (h : j ≠ i) :
    store a i v j = a j := by
  simp [store, h]

theorem utf8_length_pos (c : Nat) : 0 < utf8_length c := by
  unfold utf8_length
  split_ifs <;> omega

@[simp] theorem set_glyph_num_glyphs (font : PangoFont) (glyphs : PangoGlyphString)
    (i : Nat) (offset : Int) (glyph : Nat) :
    (set_glyph font glyphs i offset glyph).num_glyphs = glyphs.num_glyphs := by
  unfold set_glyph
  split_ifs <;> rfl

@[simp] theorem shape_char_num_glyphs (u : UnicodeTables) (font : PangoFont)
    (text : List Nat) (level i p : Nat) (glyphs : PangoGlyphString) :
    (shape_char u font text level i p glyphs).num_glyphs = glyphs.num_glyphs := by
  unfold shape_char
  simp only []
  split_ifs <;> simp

@[simp] theorem shape_loop_num_glyphs (u : UnicodeTables) (font : PangoFont)
    (text : List Nat) (level : Nat) (glyphs : PangoGlyphString) (i : Nat) :
    (shape_loop u font text level glyphs i).2.num_glyphs = glyphs.num_glyphs := by
  induction i with
  | zero => rfl
  | succ i ih => simp [shape_loop, ih]

@[simp] theorem shape_logical_num_glyphs (u : UnicodeTables) (font : PangoFont)
    (text : List Nat) (length : Int) (level : Nat) (glyphs : PangoGlyphString) :
    (shape_logical u font text length level glyphs).num_glyphs
      = g_utf8_strlen text length := by
  simp [shape_logical, pango_glyph_string_set_size]

@[simp] theorem swap_slots_num_glyphs (glyphs : PangoGlyphString) (i j : Nat) :
    (swap_slots glyphs i j).num_glyphs = glyphs.num_glyphs := rfl

@[simp] theorem swap_range_loop_num_glyphs (fuel : Nat) (glyphs : PangoGlyphString)
    (i j : Nat) : (swap_range_loop fuel glyphs i j).num_glyphs = glyphs.num_glyphs := by
  induction fuel generalizing glyphs i j with
  | zero => rfl
  | succ fuel ih =>
    unfold swap_range_loop
    split_ifs
    · rw [ih]; rfl
    · rfl

@[simp] theorem swap_range_num_glyphs (glyphs : PangoGlyphString) (start e : Nat) :
    (swap_range glyphs start e).num_glyphs = glyphs.num_glyphs := by
  simp [swap_range]

@[simp] theorem cluster_loop_num_glyphs (fuel : Nat) (glyphs : PangoGlyphString)
    (n_chars start : Nat) :
    (cluster_loop fuel glyphs n_chars start).num_glyphs = glyphs.num_glyphs := by
  induction fuel generalizing glyphs start with
  | zero => rfl
  | succ fuel ih =>
    unfold cluster_loop
    split_ifs
    · simp [ih]
    · rfl

@[simp] theorem bidi_reorder_num_glyphs (glyphs : PangoGlyphString) (n_chars : Nat) :
    (bidi_reorder glyphs n_chars).num_glyphs = glyphs.num_glyphs := by
  simp [bidi_reorder]

/-! ## One call of `set_glyph`, one iteration of the loop -/

theorem set_glyph_log_clusters (font : PangoFont) (g : PangoGlyphString) (i : Nat)
    (offset : Int) (glyph : Nat) :
    (set_glyph font g i offset glyph).log_clusters = store g.log_clusters i offset := by
  unfold set_glyph
  split_ifs <;> rfl

theorem set_glyph_glyphs_self (font : PangoFont) (g : PangoGlyphString) (i : Nat)
    (offset : Int) (glyph : Nat) :
    (set_glyph font g i offset glyph).glyphs i
      = { glyph := glyph,
          geometry := { width := (font.logical_rect glyph).width, x_offset := 0, y_offset := 0 },
          attr := (g.glyphs i).attr } := by
  unfold set_glyph
  by_cases hi : i > 0
  · have h1 : i ≠ i - 1 := by omega
    simp only [hi, if_true, store_same, store_other _ _ _ _ h1]
  · simp only [hi, if_false, store_same]

theorem set_glyph_glyphs_prev (font : PangoFont) (g : PangoGlyphString) (i : Nat)
    (offset : Int) (glyph : Nat) (hi : i > 0) :
    (set_glyph font g i offset glyph).glyphs (i - 1)
      = { glyph := (g.glyphs (i - 1)).glyph,
          geometry := {
            width := int_wrap ((g.glyphs (i - 1)).geometry.width
              + font.kerning (g.glyphs (i - 1)).glyph glyph),
            x_offset := (g.glyphs (i - 1)).geometry.x_offset,
            y_offset := (g.glyphs (i - 1)).geometry.y_offset },
          attr := (g.glyphs (i - 1)).attr } := by
  unfold set_glyph
  have h1 : i ≠ i - 1 := by omega
  have h2 : i - 1 ≠ i := by omega
  simp only [hi, if_true, store_same, store_other _ _ _ _ h1, store_other _ _ _ _ h2]

theorem set_glyph_glyphs_other (font : PangoFont) (g : PangoGlyphString) (i : Nat)
    (offset : Int) (glyph : Nat) (k : Nat) (hk : k ≠ i) (hk1 : k + 1 ≠ i) :
    (set_glyph font g i offset glyph).glyphs k = g.glyphs k := by
  unfold set_glyph
  have h1 : k ≠ i - 1 := by omega
  by_cases hi : i > 0
  · simp only [hi, if_true, store_other _ _ _ _ hk, store_other _ _ _ _ h1]
  · simp only [hi, if_false, store_other _ _ _ _ hk]

theorem shape_char_eq (u : UnicodeTables) (font : PangoFont) (text : List Nat)
    (level i p : Nat) (g : PangoGlyphString) :
    shape_char u font text level i p g
      = if is_merged u font level (g_utf8_get_char text p) i then
          merge_mark font
            (set_glyph font g i p (char_glyph u font level (g_utf8_get_char text p))) i
        else set_glyph font g i p (char_glyph u font level (g_utf8_get_char text p)) := by
  have hw : (if (if level % 2 ≠ 0 then
        match u.pango_get_mirror_char (g_utf8_get_char text p) with
        | some mirrored_ch => mirrored_ch
        | none => g_utf8_get_char text p
      else g_utf8_get_char text p) = 0xa0 then 0x20 else
      (if level % 2 ≠ 0 then
        match u.pango_get_mirror_char (g_utf8_get_char text p) with
        | some mirrored_ch => mirrored_ch
        | none => g_utf8_get_char text p
      else g_utf8_get_char text p)) = lookup_wc u level (g_utf8_get_char text p) := rfl
  unfold shape_char
  simp only []
  rw [hw]
  unfold is_merged char_glyph merge_mark
  generalize lookup_wc u level (g_utf8_get_char text p) = wc
  by_cases hz : ZERO_WIDTH_CHAR wc = true
  · simp [hz]
  · by_cases hf : find_char font wc = 0
    · simp [hz, hf]
    · have hf2 : find_char font wc ≠ 0 := hf
      by_cases hn : u.is_non_spacing_mark wc = true
      · by_cases hi : i > 0
        · rw [if_neg hz, if_pos hf2, if_pos hn, if_pos hi, if_neg hz, if_pos hf2]
          simp only [hz, hf2, hn, hi, ne_eq, not_false_eq_true, decide_True, Bool.not_false,
            Bool.and_self, if_true]
        · simp [hz, hf, hn, hi]
      · simp [hz, hf, hn]

theorem merge_mark_log_clusters (font : PangoFont) (g : PangoGlyphString) (i : Nat) :
    (merge_mark font g i).log_clusters
      = store g.log_clusters i (g.log_clusters (i - 1)) := by
  unfold merge_mark
  simp only []
  split_ifs <;> rfl

theorem merge_mark_glyphs_other (font : PangoFont) (g : PangoGlyphString) (i k : Nat)
    (hk : k ≠ i) (hk1 : k + 1 ≠ i) : (merge_mark font g i).glyphs k = g.glyphs k := by
  have h1 : k ≠ i - 1 := by omega
  unfold merge_mark
  simp only []
  split_ifs <;> simp only [store_other _ _ _ _ hk, store_other _ _ _ _ h1]

theorem merge_mark_glyphs_prev (font : PangoFont) (g : PangoGlyphString) (i : Nat)
    (hi : i > 0) :
    (merge_mark font g i).glyphs (i - 1)
      = { glyph := (g.glyphs (i - 1)).glyph,
          geometry := { width := 0,
                        x_offset := (g.glyphs (i - 1)).geometry.x_offset,
                        y_offset := (g.glyphs (i - 1)).geometry.y_offset },
          attr := (g.glyphs (i - 1)).attr } := by
  have h1 : i - 1 ≠ i := by omega
  unfold merge_mark
  simp only []
  split_ifs <;> simp only [store_other _ _ _ _ h1, store_same]

theorem merge_mark_glyphs_self (font : PangoFont) (g : PangoGlyphString) (i : Nat)
    (hi : i > 0) :
    (merge_mark font g i).glyphs i
      = { glyph := (g.glyphs i).glyph,
          geometry := {
            width := max (g.glyphs (i - 1)).geometry.width (g.glyphs i).geometry.width,
            x_offset :=
              if (font.logical_rect (g.glyphs i).glyph).width = 0
                  ∧ (font.ink_rect (g.glyphs i).glyph).x = 0 then
                Int.tdiv (int_wrap
                  (max (g.glyphs (i - 1)).geometry.width (g.glyphs i).geometry.width
                    - (font.ink_rect (g.glyphs i).glyph).width)) 2
              else (g.glyphs i).geometry.x_offset,
            y_offset := (g.glyphs i).geometry.y_offset },
          attr := (g.glyphs i).attr } := by
  have h1 : i ≠ i - 1 := by omega
  unfold merge_mark
  simp only [store_other _ _ _ _ h1, store_same]
  split_ifs <;> simp only [store_other _ _ _ _ h1, store_same]


theorem is_merged_pos (u : UnicodeTables) (font : PangoFont) (level c i : Nat)
    (h : is_merged u font level c i = true) : i > 0 := by
  unfold is_merged at h
  simp only [Bool.and_eq_true, decide_eq_true_eq] at h
  exact h.2

theorem store_store {α : Type} (a : Nat → α) (i : Nat) (v w : α) :
    store (store a i v) i w = store a i w := by
  funext j
  by_cases h : j = i <;> simp [store, h]

theorem shape_char_log_clusters (u : UnicodeTables) (font : PangoFont) (text : List Nat)
    (level i p : Nat) (g : PangoGlyphString) :
    (shape_char u font text level i p g).log_clusters
      = store g.log_clusters i
          (if is_merged u font level (g_utf8_get_char text p) i then g.log_clusters (i - 1)
           else (p : Int)) := by
  rw [shape_char_eq]
  by_cases hm : is_merged u font level (g_utf8_get_char text p) i = true
  · have hi := is_merged_pos _ _ _ _ _ hm
    have h1 : i - 1 ≠ i := by omega
    rw [if_pos hm, if_pos hm, merge_mark_log_clusters, set_glyph_log_clusters,
      store_other _ _ _ _ h1, store_store]
  · rw [if_neg hm, if_neg hm, set_glyph_log_clusters]

theorem shape_char_glyphs_other (u : UnicodeTables) (font : PangoFont) (text : List Nat)
    (level i p : Nat) (g : PangoGlyphString) (k : Nat) (hk : k ≠ i) (hk1 : k + 1 ≠ i) :
    (shape_char u font text level i p g).glyphs k = g.glyphs k := by
  rw [shape_char_eq]
  split_ifs
  · rw [merge_mark_glyphs_other _ _ _ _ hk hk1, set_glyph_glyphs_other _ _ _ _ _ _ hk hk1]
  · rw [set_glyph_glyphs_other _ _ _ _ _ _ hk hk1]

theorem shape_char_glyphs_prev (u : UnicodeTables) (font : PangoFont) (text : List Nat)
    (level i p : Nat) (g : PangoGlyphString) (hi : i > 0) :
    (shape_char u font text level i p g).glyphs (i - 1)
      = { glyph := (g.glyphs (i - 1)).glyph,
          geometry := {
            width :=
              if is_merged u font level (g_utf8_get_char text p) i then 0
              else int_wrap ((g.glyphs (i - 1)).geometry.width
                + font.kerning (g.glyphs (i - 1)).glyph
                    (char_glyph u font level (g_utf8_get_char text p))),
            x_offset := (g.glyphs (i - 1)).geometry.x_offset,
            y_offset := (g.glyphs (i - 1)).geometry.y_offset },
          attr := (g.glyphs (i - 1)).attr } := by
  rw [shape_char_eq]
  split_ifs
  · rw [merge_mark_glyphs_prev _ _ _ hi, set_glyph_glyphs_prev _ _ _ _ _ hi]
  · rw [set_glyph_glyphs_prev _ _ _ _ _ hi]

theorem shape_char_glyphs_self (u : UnicodeTables) (font : PangoFont) (text : List Nat)
    (level i p : Nat) (g : PangoGlyphString) :
    (shape_char u font text level i p g).glyphs i
      = { glyph := char_glyph u font level (g_utf8_get_char text p),
          geometry := {
            width :=
              if is_merged u font level (g_utf8_get_char text p) i then
                max (int_wrap ((g.glyphs (i - 1)).geometry.width
                      + font.kerning (g.glyphs (i - 1)).glyph
                          (char_glyph u font level (g_utf8_get_char text p))))
                    (font.logical_rect
                      (char_glyph u font level (g_utf8_get_char text p))).width
              else (font.logical_rect
                      (char_glyph u font level (g_utf8_get_char text p))).width,
            x_offset :=
              if is_merged u font level (g_utf8_get_char text p) i = true
                  ∧ (font.logical_rect
                      (char_glyph u font level (g_utf8_get_char text p))).width = 0
                  ∧ (font.ink_rect
                      (char_glyph u font level (g_utf8_get_char text p))).x = 0 then
                Int.tdiv
                  (int_wrap (max (int_wrap ((g.glyphs (i - 1)).geometry.width
                        + font.kerning (g.glyphs (i - 1)).glyph
                            (char_glyph u font level (g_utf8_get_char text p))))
                      (font.logical_rect
                        (char_glyph u font level (g_utf8_get_char text p))).width
                    - (font.ink_rect
                        (char_glyph u font level (g_utf8_get_char text p))).width)) 2
              else 0,
            y_offset := 0 },
          attr := (g.glyphs i).attr } := by
  rw [shape_char_eq]
  by_cases hm : is_merged u font level (g_utf8_get_char text p) i = true
  · have hi := is_merged_pos _ _ _ _ _ hm
    rw [if_pos hm, if_pos hm, merge_mark_glyphs_self _ _ _ hi, set_glyph_glyphs_self,
      set_glyph_glyphs_prev _ _ _ _ _ hi]
    simp only [hm, true_and]
  · rw [if_neg hm, if_neg hm, set_glyph_glyphs_self]
    simp [hm]

/-! ## The pointer `p` of the loop -/

theorem char_offset_zero (text : List Nat) : char_offset text 0 = 0 := by
  simp [char_offset, utf8_byte_length]

theorem char_offset_cons_succ (c : Nat) (cs : List Nat) (i : Nat) :
    char_offset (c :: cs) (i + 1) = utf8_length c + char_offset cs i := by
  simp [char_offset, utf8_byte_length]

theorem char_at_cons_succ (c : Nat) (cs : List Nat) (i : Nat) :
    char_at (c :: cs) (i + 1) = char_at cs i := by
  simp [char_at]

theorem g_utf8_get_char_char_offset (text : List Nat) (i : Nat) (hi : i < text.length) :
    g_utf8_get_char text (char_offset text i) = char_at text i := by
  induction text generalizing i with
  | nil => simp at hi
  | cons c cs ih =>
    cases i with
    | zero => simp [char_offset_zero, g_utf8_get_char, char_at]
    | succ i =>
      have hpos := utf8_length_pos c
      have hi2 : i < cs.length := by simpa using hi
      rw [char_offset_cons_succ, char_at_cons_succ, g_utf8_get_char,
        if_neg (by omega), if_neg (by omega)]
      rw [show utf8_length c + char_offset cs i - utf8_length c = char_offset cs i by omega]
      exact ih i hi2

theorem g_utf8_skip_at_char_offset (text : List Nat) (i : Nat) (hi : i < text.length) :
    g_utf8_skip_at text (char_offset text i) = utf8_length (char_at text i) := by
  induction text generalizing i with
  | nil => simp at hi
  | cons c cs ih =>
    cases i with
    | zero => simp [char_offset_zero, g_utf8_skip_at, char_at]
    | succ i =>
      have hpos := utf8_length_pos c
      have hi2 : i < cs.length := by simpa using hi
      rw [char_offset_cons_succ, char_at_cons_succ, g_utf8_skip_at,
        if_neg (by omega), if_neg (by omega)]
      rw [show utf8_length c + char_offset cs i - utf8_length c = char_offset cs i by omega]
      exact ih i hi2

theorem char_offset_succ (text : List Nat) (i : Nat) (hi : i < text.length) :
    char_offset text (i + 1) = char_offset text i + utf8_length (char_at text i) := by
  induction text generalizing i with
  | nil => simp at hi
  | cons c cs ih =>
    cases i with
    | zero => simp [char_offset, utf8_byte_length, char_at]
    | succ i =>
      have hi2 : i < cs.length := by simpa using hi
      rw [char_offset_cons_succ, char_offset_cons_succ, char_at_cons_succ, ih i hi2]
      omega

theorem g_utf8_next_char_char_offset (text : List Nat) (i : Nat) (hi : i < text.length) :
    g_utf8_next_char text (char_offset text i) = char_offset text (i + 1) := by
  rw [g_utf8_next_char, g_utf8_skip_at_char_offset text i hi, char_offset_succ text i hi]

theorem g_utf8_strlen_le_length (text : List Nat) (max : Int) :
    g_utf8_strlen text max ≤ text.length := by
  induction text generalizing max with
  | nil => simp [g_utf8_strlen]
  | cons c cs ih =>
    simp only [g_utf8_strlen, List.length_cons]
    split_ifs
    · omega
    · have := ih max; omega
    · omega
    · have := ih (max - utf8_length c); omega

theorem shape_loop_fst (u : UnicodeTables) (font : PangoFont) (text : List Nat)
    (level : Nat) (glyphs : PangoGlyphString) (i : Nat) (hi : i ≤ text.length) :
    (shape_loop u font text level glyphs i).1 = char_offset text i := by
  induction i with
  | zero => simp [shape_loop, char_offset_zero]
  | succ i ih =>
    simp only [shape_loop]
    rw [ih (by omega), g_utf8_next_char_char_offset text i (by omega)]

theorem char_offset_mono (text : List Nat) (i j : Nat) (hij : i ≤ j) :
    char_offset text i ≤ char_offset text j := by
  induction text generalizing i j with
  | nil => simp [char_offset, utf8_byte_length]
  | cons c cs ih =>
    cases i with
    | zero => simp [char_offset_zero]
    | succ i =>
      cases j with
      | zero => omega
      | succ j =>
        rw [char_offset_cons_succ, char_offset_cons_succ]
        have := ih i j (by omega)
        omega

theorem char_offset_strict (text : List Nat) (i j : Nat) (hij : i < j)
    (hj : j ≤ text.length) : char_offset text i < char_offset text j := by
  have h1 := char_offset_succ text i (by omega)
  have h2 := char_offset_mono text (i + 1) j (by omega)
  have := utf8_length_pos (char_at text i)
  omega

/-! ## The glyph string after `i` iterations -/

theorem shape_loop_succ (u : UnicodeTables) (font : PangoFont) (text : List Nat)
    (level : Nat) (g0 : PangoGlyphString) (i : Nat) (hi : i < text.length) :
    (shape_loop u font text level g0 (i + 1)).2
      = shape_char u font text level i (char_offset text i)
          (shape_loop u font text level g0 i).2 := by
  simp only [shape_loop]
  rw [shape_loop_fst u font text level g0 i (by omega)]

theorem shape_loop_untouched (u : UnicodeTables) (font : PangoFont) (text : List Nat)
    (level : Nat) (g0 : PangoGlyphString) (i k : Nat) (hi : i ≤ text.length) (hk : i ≤ k) :
    (shape_loop u font text level g0 i).2.glyphs k = g0.glyphs k
      ∧ (shape_loop u font text level g0 i).2.log_clusters k = g0.log_clusters k := by
  induction i with
  | zero => exact ⟨rfl, rfl⟩
  | succ i ih =>
    rw [shape_loop_succ u font text level g0 i (by omega),
      shape_char_glyphs_other _ _ _ _ _ _ _ _ (by omega) (by omega),
      shape_char_log_clusters, store_other _ _ _ _ (by omega)]
    exact ih (by omega) (by omega)

theorem shape_loop_attr (u : UnicodeTables) (font : PangoFont) (text : List Nat)
    (level : Nat) (g0 : PangoGlyphString) (i k : Nat) (hi : i ≤ text.length) :
    ((shape_loop u font text level g0 i).2.glyphs k).attr = (g0.glyphs k).attr := by
  induction i with
  | zero => rfl
  | succ i ih =>
    rw [shape_loop_succ u font text level g0 i (by omega)]
    by_cases h1 : k = i
    · subst h1
      rw [shape_char_glyphs_self]
      exact ih (by omega)
    · by_cases h2 : k + 1 = i
      · have hi0 : i > 0 := by omega
        have hk : k = i - 1 := by omega
        rw [hk, shape_char_glyphs_prev _ _ _ _ _ _ _ hi0]
        simpa [hk] using ih (by omega)
      · rw [shape_char_glyphs_other _ _ _ _ _ _ _ _ h1 h2]
        exact ih (by omega)

theorem shape_loop_glyph (u : UnicodeTables) (font : PangoFont) (text : List Nat)
    (level : Nat) (g0 : PangoGlyphString) (i k : Nat) (hi : i ≤ text.length) (hk : k < i) :
    ((shape_loop u font text level g0 i).2.glyphs k).glyph
      = logical_glyph u font level text k := by
  induction i with
  | zero => omega
  | succ i ih =>
    rw [shape_loop_succ u font text level g0 i (by omega)]
    by_cases h1 : k = i
    · subst h1
      rw [shape_char_glyphs_self, g_utf8_get_char_char_offset text k (by omega)]
      rfl
    · by_cases h2 : k + 1 = i
      · have hi0 : i > 0 := by omega
        have hk' : k = i - 1 := by omega
        rw [hk', shape_char_glyphs_prev _ _ _ _ _ _ _ hi0]
        simpa [hk'] using ih (by omega) (by omega)
      · rw [shape_char_glyphs_other _ _ _ _ _ _ _ _ h1 h2]
        exact ih (by omega) (by omega)

theorem shape_loop_log_clusters (u : UnicodeTables) (font : PangoFont) (text : List Nat)
    (level : Nat) (g0 : PangoGlyphString) (i k : Nat) (hi : i ≤ text.length) (hk : k < i) :
    (shape_loop u font text level g0 i).2.log_clusters k
      = logical_cluster u font level text k := by
  induction i generalizing k with
  | zero => omega
  | succ i ih =>
    rw [shape_loop_succ u font text level g0 i (by omega), shape_char_log_clusters]
    by_cases h1 : k = i
    · subst h1
      rw [store_same, g_utf8_get_char_char_offset text k (by omega)]
      cases k with
      | zero =>
        have : is_merged u font level (char_at text 0) 0 = false := by simp [is_merged]
        rw [this]
        simp [logical_cluster]
      | succ k =>
        simp only [logical_cluster, merged_at, Nat.add_sub_cancel]
        split_ifs
        · exact ih k (by omega) (by omega)
        · rfl
    · rw [store_other _ _ _ _ h1]
      exact ih k (by omega) (by omega)

theorem shape_loop_width (u : UnicodeTables) (font : PangoFont) (text : List Nat)
    (level : Nat) (g0 : PangoGlyphString) (i k : Nat) (hi : i ≤ text.length) (hk : k < i) :
    ((shape_loop u font text level g0 i).2.glyphs k).geometry.width
      = if k + 1 < i then
          (if merged_at u font level text (k + 1) then 0
           else int_wrap (cluster_width u font level text k
             + font.kerning (logical_glyph u font level text k)
                 (logical_glyph u font level text (k + 1))))
        else cluster_width u font level text k := by
  induction i generalizing k with
  | zero => omega
  | succ i ih =>
    rw [shape_loop_succ u font text level g0 i (by omega)]
    by_cases h1 : k = i
    · subst h1
      rw [shape_char_glyphs_self, g_utf8_get_char_char_offset text k (by omega),
        if_neg (show ¬ (k + 1 < k + 1) by omega)]
      cases k with
      | zero =>
        have : is_merged u font level (char_at text 0) 0 = false := by simp [is_merged]
        rw [this]
        simp [cluster_width, logical_glyph]
      | succ k =>
        have hw := ih k (by omega) (by omega)
        rw [if_neg (by omega)] at hw
        have hg := shape_loop_glyph u font text level g0 (k + 1) k (by omega) (by omega)
        simp only [Nat.add_sub_cancel, hw, hg, cluster_width, merged_at, logical_glyph]
    · by_cases h2 : k + 1 = i
      · have hi0 : i > 0 := by omega
        have hk' : k = i - 1 := by omega
        have hw := ih k (by omega) (by omega)
        rw [if_neg (by omega)] at hw
        have hg := shape_loop_glyph u font text level g0 i k (by omega) (by omega)
        rw [hk'] at hw hg ⊢
        have e : i - 1 + 1 = i := by omega
        rw [shape_char_glyphs_prev _ _ _ _ _ _ _ hi0,
          g_utf8_get_char_char_offset text i (by omega),
          if_pos (show i - 1 + 1 < i + 1 by omega)]
        simp only [hw, hg, e, merged_at, logical_glyph]
      · rw [shape_char_glyphs_other _ _ _ _ _ _ _ _ h1 h2, ih k (by omega) (by omega),
          if_pos (show k + 1 < i by omega), if_pos (show k + 1 < i + 1 by omega)]

theorem shape_loop_offsets (u : UnicodeTables) (font : PangoFont) (text : List Nat)
    (level : Nat) (g0 : PangoGlyphString) (i k : Nat) (hi : i ≤ text.length) (hk : k < i) :
    ((shape_loop u font text level g0 i).2.glyphs k).geometry.y_offset = 0
      ∧ ((shape_loop u font text level g0 i).2.glyphs k).geometry.x_offset
        = if merged_at u font level text k = true
              ∧ (font.logical_rect (logical_glyph u font level text k)).width = 0
              ∧ (font.ink_rect (logical_glyph u font level text k)).x = 0 then
            Int.tdiv (int_wrap (cluster_width u font level text k
              - (font.ink_rect (logical_glyph u font level text k)).width)) 2
          else 0 := by
  induction i generalizing k with
  | zero => omega
  | succ i ih =>
    rw [shape_loop_succ u font text level g0 i (by omega)]
    by_cases h1 : k = i
    · subst h1
      rw [shape_char_glyphs_self, g_utf8_get_char_char_offset text k (by omega)]
      refine ⟨rfl, ?_⟩
      cases k with
      | zero =>
        have : is_merged u font level (char_at text 0) 0 = false := by simp [is_merged]
        simp [merged_at, this]
      | succ k =>
        have hw := shape_loop_width u font text level g0 (k + 1) k (by omega) (by omega)
        rw [if_neg (by omega)] at hw
        have hg := shape_loop_glyph u font text level g0 (k + 1) k (by omega) (by omega)
        by_cases hm : is_merged u font level (char_at text (k + 1)) (k + 1) = true
        · simp only [Nat.add_sub_cancel, hw, hg, cluster_width, merged_at, logical_glyph, hm,
            if_true]
        · simp [merged_at, hm]
    · by_cases h2 : k + 1 = i
      · have hi0 : i > 0 := by omega
        have hk' : k = i - 1 := by omega
        have h := ih k (by omega) (by omega)
        rw [hk'] at h ⊢
        rw [shape_char_glyphs_prev _ _ _ _ _ _ _ hi0]
        exact h
      · rw [shape_char_glyphs_other _ _ _ _ _ _ _ _ h1 h2]
        exact ih k (by omega) (by omega)

/-! ## The bidi pass -/

theorem swap_range_loop_spec (fuel : Nat) (g : PangoGlyphString) (i j : Nat)
    (hfuel : j - i < fuel) (k : Nat) :
    (swap_range_loop fuel g i j).glyphs k
        = (if i ≤ k ∧ k ≤ j then g.glyphs (i + j - k) else g.glyphs k)
      ∧ (swap_range_loop fuel g i j).log_clusters k
        = (if i ≤ k ∧ k ≤ j then g.log_clusters (i + j - k) else g.log_clusters k) := by
  induction fuel generalizing g i j with
  | zero => omega
  | succ fuel ih =>
    unfold swap_range_loop
    by_cases hij : i < j
    · rw [if_pos hij]
      have h := ih (swap_slots g i j) (i + 1) (j - 1) (by omega)
      rw [h.1, h.2]
      by_cases hin : i + 1 ≤ k ∧ k ≤ j - 1
      · have e : i + 1 + (j - 1) - k = i + j - k := by omega
        have n1 : i + j - k ≠ i := by omega
        have n2 : i + j - k ≠ j := by omega
        rw [if_pos hin, if_pos hin, if_pos (by omega), if_pos (by omega), e]
        simp [swap_slots, store_other _ _ _ _ n1, store_other _ _ _ _ n2]
      · rw [if_neg hin, if_neg hin]
        by_cases hki : k = i
        · subst hki
          have n1 : k ≠ j := by omega
          have e : k + j - k = j := by omega
          rw [if_pos (by omega), if_pos (by omega), e]
          simp [swap_slots, store_other _ _ _ _ n1]
        · by_cases hkj : k = j
          · subst hkj
            have e : i + k - k = i := by omega
            rw [if_pos (by omega), if_pos (by omega), e]
            simp [swap_slots]
          · rw [if_neg (by omega), if_neg (by omega)]
            simp [swap_slots, store_other _ _ _ _ hki, store_other _ _ _ _ hkj]
    · rw [if_neg hij]
      by_cases hin : i ≤ k ∧ k ≤ j
      · have e : i + j - k = k := by omega
        rw [if_pos hin, if_pos hin, e]
        exact ⟨rfl, rfl⟩
      · rw [if_neg hin, if_neg hin]
        exact ⟨rfl, rfl⟩

theorem swap_range_spec (g : PangoGlyphString) (start e : Nat) (k : Nat) :
    (swap_range g start e).glyphs k
        = (if start ≤ k ∧ k < e then g.glyphs (start + e - 1 - k) else g.glyphs k)
      ∧ (swap_range g start e).log_clusters k
        = (if start ≤ k ∧ k < e then g.log_clusters (start + e - 1 - k)
           else g.log_clusters k) := by
  unfold swap_range
  cases e with
  | zero =>
    rw [if_neg (by omega), if_neg (by omega)]
    exact ⟨rfl, rfl⟩
  | succ e =>
    have h := swap_range_loop_spec (e + 1) g start (e + 1 - 1) (by omega) k
    rw [h.1, h.2]
    by_cases hin : start ≤ k ∧ k < e + 1
    · have e1 : start + (e + 1 - 1) - k = start + (e + 1) - 1 - k := by omega
      have c1 : start ≤ k ∧ k ≤ e + 1 - 1 := by omega
      simp only [if_pos c1, if_pos hin, e1, and_self]
    · have c1 : ¬ (start ≤ k ∧ k ≤ e + 1 - 1) := by omega
      simp only [if_neg c1, if_neg hin, and_self]

theorem slots_eq_slots_between (g : PangoGlyphString) (n : Nat) :
    slots g n = slots_between g 0 n := by
  simp [slots, slots_between, List.range_eq_range']

theorem slots_between_length (g : PangoGlyphString) (a b : Nat) :
    (slots_between g a b).length = b - a := by
  simp [slots_between]

theorem slots_between_cons (g : PangoGlyphString) (a b : Nat) (h : a < b) :
    slots_between g a b = (g.glyphs a, g.log_clusters a) :: slots_between g (a + 1) b := by
  unfold slots_between
  have e : b - a = (b - (a + 1)) + 1 := by omega
  rw [e, List.range'_succ]
  simp

theorem slots_between_self (g : PangoGlyphString) (a b : Nat) (h : b ≤ a) :
    slots_between g a b = [] := by
  unfold slots_between
  have e : b - a = 0 := by omega
  simp [e]

theorem slots_between_append (g : PangoGlyphString) (a m b : Nat) (h1 : a ≤ m) (h2 : m ≤ b) :
    slots_between g a b = slots_between g a m ++ slots_between g m b := by
  unfold slots_between
  rw [← List.map_append]
  congr 1
  have key := List.range'_append a (m - a) (b - m) 1
  have e1 : a + 1 * (m - a) = m := by omega
  have e2 : b - m + (m - a) = b - a := by omega
  rw [e1, e2] at key
  exact key.symm

theorem slots_between_congr (g g2 : PangoGlyphString) (a b : Nat)
    (h : ∀ k, a ≤ k → k < b →
      g.glyphs k = g2.glyphs k ∧ g.log_clusters k = g2.log_clusters k) :
    slots_between g a b = slots_between g2 a b := by
  unfold slots_between
  apply List.map_congr_left
  intro k hk
  rw [List.mem_range'_1] at hk
  have := h k hk.1 (by omega)
  rw [this.1, this.2]

theorem slots_between_swap_range (g : PangoGlyphString) (s e : Nat) (h : s ≤ e) :
    slots_between (swap_range g s e) s e = (slots_between g s e).reverse := by
  apply List.ext_getElem
  · simp [slots_between]
  · intro k h1 h2
    have hk : k < e - s := by simpa [slots_between] using h1
    rw [List.getElem_reverse]
    simp only [slots_between, List.getElem_map, List.getElem_range', List.length_map,
      List.length_range']
    have hs := swap_range_spec g s e (s + 1 * k)
    rw [hs.1, hs.2, if_pos (by omega), if_pos (by omega)]
    have e1 : s + e - 1 - (s + 1 * k) = s + 1 * (e - s - 1 - k) := by omega
    rw [e1]

theorem cluster_runs_singleton {β : Type} (x : β × Int) : cluster_runs [x] = [[x]] := rfl

theorem cluster_runs_cons_cons {β : Type} (x y : β × Int) (ys : List (β × Int)) :
    cluster_runs (x :: y :: ys)
      = if x.2 = y.2 then cons_run x (cluster_runs (y :: ys))
        else [x] :: cluster_runs (y :: ys) := rfl

theorem cluster_runs_ne_nil {β : Type} (x : β × Int) (xs : List (β × Int)) :
    cluster_runs (x :: xs) ≠ [] := by
  induction xs generalizing x with
  | nil => simp [cluster_runs]
  | cons y ys ih =>
    rw [cluster_runs_cons_cons]
    split_ifs
    · cases h : cluster_runs (y :: ys) with
      | nil => exact absurd h (ih y)
      | cons r rs => simp [cons_run]
    · simp

theorem cluster_runs_cons {β : Type} (x : β × Int) (xs : List (β × Int)) :
    cluster_runs (x :: xs)
      = (x :: xs.takeWhile (fun s => decide (s.2 = x.2)))
          :: cluster_runs (xs.dropWhile (fun s => decide (s.2 = x.2))) := by
  induction xs generalizing x with
  | nil => simp [cluster_runs]
  | cons y ys ih =>
    by_cases h : x.2 = y.2
    · have h2 : y.2 = x.2 := h.symm
      rw [cluster_runs_cons_cons, if_pos h, ih y]
      simp [cons_run, List.takeWhile, List.dropWhile, h2]
    · have h2 : ¬ y.2 = x.2 := fun e => h e.symm
      rw [cluster_runs_cons_cons, if_neg h]
      simp [List.takeWhile, List.dropWhile, h2]

theorem cons_run_snoc_run {β : Type} (a x : β) (b : Bool) (R : List (List β)) (hR : R ≠ []) :
    cons_run a (snoc_run b x R) = snoc_run b x (cons_run a R) := by
  cases R with
  | nil => exact absurd rfl hR
  | cons r rs =>
    cases rs with
    | nil => cases b <;> simp [snoc_run, cons_run]
    | cons r2 rs => simp [snoc_run, cons_run]

theorem snoc_run_cons {β : Type} (r : List β) (x : β) (b : Bool) (R : List (List β))
    (hR : R ≠ []) : snoc_run b x (r :: R) = r :: snoc_run b x R := by
  cases R with
  | nil => exact absurd rfl hR
  | cons r2 rs => simp [snoc_run]

theorem snoc_run_append_singleton {β : Type} (b : Bool) (x : β) (A : List (List β))
    (r : List β) :
    snoc_run b x (A ++ [r]) = A ++ (if b then [r ++ [x]] else [r, [x]]) := by
  induction A with
  | nil => simp [snoc_run]
  | cons a A ih =>
    rw [List.cons_append, snoc_run_cons _ _ _ _ (by simp), ih, List.cons_append]

theorem cluster_runs_snoc {β : Type} (m : List (β × Int)) (x : β × Int) :
    cluster_runs (m ++ [x])
      = snoc_run (decide (m.getLast?.map (fun s => s.2) = some x.2)) x (cluster_runs m) := by
  induction m with
  | nil => simp [cluster_runs, snoc_run]
  | cons a m ih =>
    cases m with
    | nil =>
      by_cases h : a.2 = x.2 <;>
        simp [cluster_runs_cons_cons, cluster_runs_singleton, snoc_run, cons_run, h]
    | cons b m =>
      have hl : (a :: b :: m).getLast? = (b :: m).getLast? := by simp [List.getLast?_cons_cons]
      have hne := cluster_runs_ne_nil b m
      rw [hl]
      simp only [List.cons_append] at ih ⊢
      rw [cluster_runs_cons_cons, cluster_runs_cons_cons, ih]
      split_ifs
      · rw [cons_run_snoc_run _ _ _ _ hne]
      · rw [snoc_run_cons _ _ _ _ hne]

theorem cluster_runs_reverse {β : Type} (l : List (β × Int)) :
    cluster_runs l.reverse = ((cluster_runs l).map List.reverse).reverse := by
  induction l with
  | nil => simp [cluster_runs]
  | cons x xs ih =>
    rw [List.reverse_cons, cluster_runs_snoc, ih]
    cases xs with
    | nil => simp [cluster_runs, cluster_runs_singleton, snoc_run]
    | cons y ys =>
      have hl : (y :: ys).reverse.getLast? = some y := by simp
      rw [hl]
      cases hR : cluster_runs (y :: ys) with
      | nil => exact absurd hR (cluster_runs_ne_nil y ys)
      | cons r rs =>
        simp only [List.map_cons, List.reverse_cons, snoc_run_append_singleton]
        by_cases h : x.2 = y.2
        · have h2 : y.2 = x.2 := h.symm
          rw [cluster_runs_cons_cons, if_pos h, hR]
          simp [cons_run, h2]
        · have h2 : ¬ y.2 = x.2 := fun e => h e.symm
          rw [cluster_runs_cons_cons, if_neg h, hR]
          simp [h2]

theorem reorder_by_clusters_eq {β : Type} (l : List (β × Int)) :
    ((cluster_runs l.reverse).map List.reverse).flatten = reorder_by_clusters l := by
  rw [cluster_runs_reverse, reorder_by_clusters, List.map_reverse, List.map_map]
  have : (List.reverse ∘ List.reverse : List (β × Int) → List (β × Int)) = id := by
    funext r; simp
  rw [this, List.map_id]

theorem cluster_end_spec (fuel : Nat) (g : PangoGlyphString) (n start e : Nat)
    (hfuel : n - e ≤ fuel) :
    cluster_end fuel g n start e
      = e + ((slots_between g e n).takeWhile
          (fun s => decide (s.2 = g.log_clusters start))).length := by
  induction fuel generalizing e with
  | zero =>
    rw [slots_between_self g e n (by omega)]
    simp [cluster_end]
  | succ fuel ih =>
    unfold cluster_end
    by_cases hlt : e < n
    · rw [slots_between_cons g e n hlt]
      by_cases hc : g.log_clusters e = g.log_clusters start
      · rw [if_pos ⟨hlt, hc⟩, ih (e + 1) (by omega)]
        simp [List.takeWhile, hc]
        omega
      · rw [if_neg (fun h => hc h.2)]
        simp [List.takeWhile, hc]
    · rw [if_neg (fun h => hlt h.1), slots_between_self g e n (by omega)]
      simp

theorem cluster_loop_spec (fuel : Nat) (g : PangoGlyphString) (n start : Nat)
    (hstart : start ≤ n) (hfuel : n - start ≤ fuel) :
    slots_between (cluster_loop fuel g n start) 0 n
      = slots_between g 0 start
          ++ ((cluster_runs (slots_between g start n)).map List.reverse).flatten := by
  induction fuel generalizing g start with
  | zero =>
    have e : start = n := by omega
    subst e
    rw [slots_between_self g start start (by omega)]
    simp [cluster_loop, cluster_runs]
  | succ fuel ih =>
    unfold cluster_loop
    by_cases hlt : start < n
    · rw [if_pos hlt]
      simp only []
      have he := cluster_end_spec n g n start start (by omega)
      rw [slots_between_cons g start n hlt] at he
      simp only [List.takeWhile, decide_True, List.length_cons] at he
      set e := cluster_end n g n start start with hedef
      set xs := slots_between g (start + 1) n with hxs
      set p : PangoGlyphInfo × Int → Bool := fun s => decide (s.2 = g.log_clusters start)
        with hp
      have hle : (xs.takeWhile p).length ≤ n - (start + 1) := by
        have h1 := (List.takeWhile_sublist (l := xs) p).length_le
        have h2 : xs.length = n - (start + 1) := slots_between_length g (start + 1) n
        omega
      have hse : start < e := by omega
      have hen : e ≤ n := by omega
      -- the two ways to split the slots from `start` on
      have split1 : slots_between g start n
          = slots_between g start e ++ slots_between g e n :=
        slots_between_append g start e n (by omega) hen
      have split2 : slots_between g start n
          = ((g.glyphs start, g.log_clusters start) :: xs.takeWhile p) ++ xs.dropWhile p := by
        rw [slots_between_cons g start n hlt, List.cons_append, List.takeWhile_append_dropWhile]
      have hlen : (slots_between g start e).length
          = ((g.glyphs start, g.log_clusters start) :: xs.takeWhile p).length := by
        rw [slots_between_length, List.length_cons]; omega
      have hinj := List.append_inj (split1.symm.trans split2) hlen
      -- after the swap
      have hout : ∀ k, ¬ (start ≤ k ∧ k < e) →
          (swap_range g start e).glyphs k = g.glyphs k
            ∧ (swap_range g start e).log_clusters k = g.log_clusters k := by
        intro k hk
        have h := swap_range_spec g start e k
        rw [if_neg hk, if_neg hk] at h
        exact h
      have h0 : slots_between (swap_range g start e) 0 start = slots_between g 0 start :=
        slots_between_congr _ _ _ _ (fun k _ h2 => hout k (by omega))
      have h2 : slots_between (swap_range g start e) e n = slots_between g e n :=
        slots_between_congr _ _ _ _ (fun k h1 _ => hout k (by omega))
      rw [ih (swap_range g start e) e hen (by omega),
        slots_between_append _ 0 start e (by omega) (by omega), h0, h2,
        slots_between_swap_range g start e (by omega), hinj.1, hinj.2,
        slots_between_cons g start n hlt, cluster_runs_cons]
      simp [List.append_assoc]
    · have e : start = n := by omega
      subst e
      rw [if_neg hlt, slots_between_self g start start (by omega)]
      simp [cluster_runs]

theorem bidi_reorder_slots (g : PangoGlyphString) (n : Nat) :
    slots (bidi_reorder g n) n = reorder_by_clusters (slots g n) := by
  rw [slots_eq_slots_between, slots_eq_slots_between, bidi_reorder,
    cluster_loop_spec n _ n 0 (by omega) (by omega),
    slots_between_swap_range g 0 n (by omega), slots_between_self _ 0 0 (by omega),
    List.nil_append, reorder_by_clusters_eq]

theorem g_utf8_strlen_zero (text : List Nat) : g_utf8_strlen text 0 = 0 := by
  cases text with
  | nil => rfl
  | cons c cs =>
    have := utf8_length_pos c
    simp only [g_utf8_strlen]
    split_ifs <;> first | rfl | omega

theorem g_utf8_strlen_whole (text : List Nat) (h : ∀ c ∈ text, c ≠ 0) :
    g_utf8_strlen text (utf8_byte_length text) = text.length := by
  induction text with
  | nil => rfl
  | cons c cs ih =>
    have hc : c ≠ 0 := h c (by simp)
    have hcs : ∀ x ∈ cs, x ≠ 0 := fun x hx => h x (by simp [hx])
    simp only [g_utf8_strlen, utf8_byte_length, List.length_cons]
    rw [if_neg hc, if_neg (by omega), if_neg (by push_cast; omega)]
    have : ((utf8_length c + utf8_byte_length cs : Nat) : Int) - (utf8_length c : Int)
        = (utf8_byte_length cs : Int) := by push_cast; omega
    rw [this, ih hcs]; omega

/-! ## The whole call -/

theorem basic_engine_shape_even (u : UnicodeTables) (font : PangoFont) (text : List Nat)
    (length : Int) (level : Nat) (g0 : PangoGlyphString) (hlen : 0 ≤ length)
    (heven : level % 2 = 0) :
    basic_engine_shape u (some font) (some text) length (some ⟨level⟩) g0
      = shape_logical u font text length level g0 := by
  unfold basic_engine_shape
  simp [hlen, heven]

theorem basic_engine_shape_odd (u : UnicodeTables) (font : PangoFont) (text : List Nat)
    (length : Int) (level : Nat) (g0 : PangoGlyphString) (hlen : 0 ≤ length)
    (hodd : level % 2 = 1) :
    basic_engine_shape u (some font) (some text) length (some ⟨level⟩) g0
      = bidi_reorder (shape_logical u font text length level g0)
          (g_utf8_strlen text length) := by
  unfold basic_engine_shape
  simp [hlen, hodd]

theorem shape_logical_glyph (u : UnicodeTables) (font : PangoFont) (text : List Nat)
    (length : Int) (level : Nat) (g0 : PangoGlyphString) (k : Nat)
    (hk : k < g_utf8_strlen text length) :
    ((shape_logical u font text length level g0).glyphs k).glyph
      = logical_glyph u font level text k :=
  shape_loop_glyph u font text level _ _ k (g_utf8_strlen_le_length text length) hk

theorem shape_logical_log_clusters (u : UnicodeTables) (font : PangoFont) (text : List Nat)
    (length : Int) (level : Nat) (g0 : PangoGlyphString) (k : Nat)
    (hk : k < g_utf8_strlen text length) :
    (shape_logical u font text length level g0).log_clusters k
      = logical_cluster u font level text k :=
  shape_loop_log_clusters u font text level _ _ k (g_utf8_strlen_le_length text length) hk

theorem shape_logical_width (u : UnicodeTables) (font : PangoFont) (text : List Nat)
    (length : Int) (level : Nat) (g0 : PangoGlyphString) (k : Nat)
    (hk : k < g_utf8_strlen text length) :
    ((shape_logical u font text length level g0).glyphs k).geometry.width
      = if k + 1 < g_utf8_strlen text length then
          (if merged_at u font level text (k + 1) then 0
           else int_wrap (cluster_width u font level text k
             + font.kerning (logical_glyph u font level text k)
                 (logical_glyph u font level text (k + 1))))
        else cluster_width u font level text k :=
  shape_loop_width u font text level _ _ k (g_utf8_strlen_le_length text length) hk

theorem logical_cluster_le (u : UnicodeTables) (font : PangoFont) (level : Nat)
    (text : List Nat) (k : Nat) :
    logical_cluster u font level text k ≤ (char_offset text k : Nat) := by
  induction k with
  | zero => simp [logical_cluster]
  | succ k ih =>
    simp only [logical_cluster]
    split_ifs
    · have := char_offset_mono text k (k + 1) (by omega)
      omega
    · exact le_refl _

theorem logical_cluster_mono (u : UnicodeTables) (font : PangoFont) (level : Nat)
    (text : List Nat) (i j : Nat) (hij : i ≤ j) :
    logical_cluster u font level text i ≤ logical_cluster u font level text j := by
  induction j with
  | zero =>
    have : i = 0 := by omega
    subst this; exact le_refl _
  | succ j ih =>
    by_cases h : i = j + 1
    · subst h; exact le_refl _
    · have h1 := ih (by omega)
      simp only [logical_cluster]
      split_ifs
      · exact h1
      · have h2 := logical_cluster_le u font level text j
        have h3 := char_offset_mono text j (j + 1) (by omega)
        omega

theorem logical_cluster_unmerged (u : UnicodeTables) (font : PangoFont) (level : Nat)
    (text : List Nat) (k : Nat) (h : merged_at u font level text k = false) :
    logical_cluster u font level text k = (char_offset text k : Nat) := by
  cases k with
  | zero => rfl
  | succ k => simp [logical_cluster, h]

theorem cluster_runs_flatten {β : Type} (l : List (β × Int)) :
    (cluster_runs l).flatten = l := by
  induction l with
  | nil => rfl
  | cons x xs ih =>
    cases xs with
    | nil => rfl
    | cons y ys =>
      rw [cluster_runs_cons_cons]
      split_ifs
      · cases hR : cluster_runs (y :: ys) with
        | nil => exact absurd hR (cluster_runs_ne_nil y ys)
        | cons r rs =>
          rw [hR] at ih
          simp only [cons_run, List.flatten_cons, List.cons_append]
          rw [← List.flatten_cons, ih]
      · rw [List.flatten_cons, ih]; rfl

theorem mem_reorder_by_clusters {β : Type} (l : List (β × Int)) (x : β × Int) :
    x ∈ reorder_by_clusters l ↔ x ∈ l := by
  have h : x ∈ (cluster_runs l).flatten ↔ x ∈ l := by rw [cluster_runs_flatten]
  rw [← h, reorder_by_clusters]
  simp [List.mem_flatten]

theorem shape_run_num_glyphs (u : UnicodeTables) (font : PangoFont) (text : List Nat)
    (level : Nat) (g0 : PangoGlyphString) (hnz : ∀ c ∈ text, c ≠ 0) :
    g_utf8_strlen text (utf8_byte_length text) = text.length
      ∧ (shape_run u font text level g0).num_glyphs = text.length := by
  have h := g_utf8_strlen_whole text hnz
  refine ⟨h, ?_⟩
  unfold shape_run basic_engine_shape
  simp only [ge_iff_le, Int.ofNat_zero_le, not_true_eq_false, if_false]
  split_ifs <;> simp [h]

theorem cluster_width_unmerged (u : UnicodeTables) (font : PangoFont) (level : Nat)
    (text : List Nat) (k : Nat) (h : merged_at u font level text k = false) :
    cluster_width u font level text k
      = (font.logical_rect (logical_glyph u font level text k)).width := by
  cases k with
  | zero => rfl
  | succ k => simp [cluster_width, h]

theorem slots_two (g : PangoGlyphString) :
    slots g 2 = [(g.glyphs 0, g.log_clusters 0), (g.glyphs 1, g.log_clusters 1)] := by
  simp [slots, List.range_succ]

theorem shape_run_pair (u : UnicodeTables) (font : PangoFont) (a b : Nat) (level : Nat)
    (g0 : PangoGlyphString) (ha : a ≠ 0) (hb : b ≠ 0)
    (hm : merged_at u font level [a, b] 1 = true) :
    (shape_run u font [a, b] level g0).glyphs 0
        = (shape_logical u font [a, b] (utf8_byte_length [a, b]) level g0).glyphs 0
      ∧ (shape_run u font [a, b] level g0).glyphs 1
        = (shape_logical u font [a, b] (utf8_byte_length [a, b]) level g0).glyphs 1
      ∧ (shape_run u font [a, b] level g0).log_clusters 0
        = (shape_logical u font [a, b] (utf8_byte_length [a, b]) level g0).log_clusters 0
      ∧ (shape_run u font [a, b] level g0).log_clusters 1
        = (shape_logical u font [a, b] (utf8_byte_length [a, b]) level g0).log_clusters 1 := by
  have hnz : ∀ c ∈ [a, b], c ≠ 0 := by
    intro c hc
    simp only [List.mem_cons, List.mem_singleton, List.not_mem_nil, or_false] at hc
    rcases hc with h | h <;> rw [h] <;> assumption
  have hn : g_utf8_strlen [a, b] (utf8_byte_length [a, b]) = 2 :=
    g_utf8_strlen_whole [a, b] hnz
  rcases Nat.mod_two_eq_zero_or_one level with heven | hodd
  · rw [shape_run, basic_engine_shape_even u font _ _ level g0 (by omega) heven]
    exact ⟨rfl, rfl, rfl, rfl⟩
  · have h := bidi_reorder_slots
      (shape_logical u font [a, b] (utf8_byte_length [a, b]) level g0) 2
    have h0 := shape_logical_log_clusters u font [a, b] (utf8_byte_length [a, b]) level g0 0
      (by omega)
    have h1 := shape_logical_log_clusters u font [a, b] (utf8_byte_length [a, b]) level g0 1
      (by omega)
    have hc : (shape_logical u font [a, b] (utf8_byte_length [a, b]) level g0).log_clusters 0
        = (shape_logical u font [a, b] (utf8_byte_length [a, b]) level g0).log_clusters 1 := by
      rw [h0, h1]
      simp [logical_cluster, hm]
    rw [shape_run, basic_engine_shape_odd u font _ _ level g0 (by omega) hodd, hn]
    rw [slots_two, slots_two, reorder_by_clusters, cluster_runs_cons_cons, if_pos hc,
      cluster_runs_singleton] at h
    simp only [cons_run, List.reverse_cons, List.reverse_nil, List.nil_append,
      List.flatten_cons, List.flatten_nil, List.append_nil, List.cons.injEq, Prod.mk.injEq,
      and_true] at h
    exact ⟨h.1.1, h.2.1, h.1.2, h.2.2⟩

theorem slots_getElem (g : PangoGlyphString) (n k : Nat) (hk : k < (slots g n).length) :
    (slots g n)[k] = (g.glyphs k, g.log_clusters k) := by
  simp [slots]

theorem slots_length (g : PangoGlyphString) (n : Nat) : (slots g n).length = n := by
  simp [slots]

theorem flatten_reverse_singletons {β : Type} (l : List β) :
    ((l.map (fun x => [x])).reverse).flatten = l.reverse := by
  induction l with
  | nil => rfl
  | cons x xs ih => simp [ih]

theorem cluster_runs_slots_between_distinct (g : PangoGlyphString) (d a b : Nat)
    (hd : b - a = d)
    (h : ∀ k, a ≤ k → k + 1 < b → g.log_clusters k ≠ g.log_clusters (k + 1)) :
    cluster_runs (slots_between g a b) = (slots_between g a b).map (fun x => [x]) := by
  induction d generalizing a with
  | zero =>
    rw [slots_between_self g a b (by omega)]
    rfl
  | succ d ih =>
    have ih2 := ih (a + 1) (by omega) (fun k h1 h2 => h k (by omega) h2)
    rw [slots_between_cons g a b (by omega)]
    by_cases hb : a + 1 < b
    · rw [slots_between_cons g (a + 1) b hb] at ih2 ⊢
      rw [cluster_runs_cons_cons, if_neg (h a (by omega) hb), ih2]
      rfl
    · rw [slots_between_self g (a + 1) b (by omega)]
      rfl

theorem slots_one (g : PangoGlyphString) :
    slots g 1 = [(g.glyphs 0, g.log_clusters 0)] := by
  simp [slots, List.range_succ]

theorem bidi_reorder_one (g : PangoGlyphString) :
    (bidi_reorder g 1).glyphs 0 = g.glyphs 0
      ∧ (bidi_reorder g 1).log_clusters 0 = g.log_clusters 0 := by
  have h := bidi_reorder_slots g 1
  rw [slots_one, slots_one] at h
  simp only [reorder_by_clusters, cluster_runs_singleton, List.reverse_cons, List.reverse_nil,
    List.nil_append, List.flatten_cons, List.flatten_nil, List.append_nil, List.cons.injEq,
    Prod.mk.injEq, and_true] at h
  exact h

theorem shape_run_single (u : UnicodeTables) (font : PangoFont) (c : Nat) (level : Nat)
    (g0 : PangoGlyphString) (hc : c ≠ 0) :
    (shape_run u font [c] level g0).glyphs 0
        = (shape_logical u font [c] (utf8_byte_length [c]) level g0).glyphs 0
      ∧ (shape_run u font [c] level g0).log_clusters 0
        = (shape_logical u font [c] (utf8_byte_length [c]) level g0).log_clusters 0 := by
  have hnz : ∀ x ∈ [c], x ≠ 0 := by
    intro x hx
    simp only [List.mem_singleton] at hx
    rw [hx]; exact hc
  have hn : g_utf8_strlen [c] (utf8_byte_length [c]) = 1 := g_utf8_strlen_whole [c] hnz
  rcases Nat.mod_two_eq_zero_or_one level with heven | hodd
  · rw [shape_run, basic_engine_shape_even u font _ _ level g0 (by omega) heven]
    exact ⟨rfl, rfl⟩
  · rw [shape_run, basic_engine_shape_odd u font _ _ level g0 (by omega) hodd, hn]
    exact bidi_reorder_one _

theorem rtl_reorder_slots_aux (u : UnicodeTables) (font : PangoFont) (text : List Nat)
    (length : Int) (level : Nat) (g0 : PangoGlyphString) (hlen : 0 ≤ length)
    (hodd : level % 2 = 1) :
    slots (basic_engine_shape u (some font) (some text) length (some ⟨level⟩) g0)
        (g_utf8_strlen text length)
      = reorder_by_clusters
          (slots (shape_logical u font text length level g0) (g_utf8_strlen text length)) := by
  rw [basic_engine_shape_odd u font text length level g0 hlen hodd]
  exact bidi_reorder_slots _ _

theorem lookup_wc_eq (u : UnicodeTables) (level c : Nat) :
    lookup_wc u level c
      = if (if level % 2 = 1 then (u.pango_get_mirror_char c).getD c else c) = 0xa0 then 0x20
        else (if level % 2 = 1 then (u.pango_get_mirror_char c).getD c else c) := by
  have hm : mirror_wc u level c
      = if level % 2 = 1 then (u.pango_get_mirror_char c).getD c else c := by
    unfold mirror_wc
    rcases Nat.mod_two_eq_zero_or_one level with h | h
    · simp [h]
    · cases hmc : u.pango_get_mirror_char c <;> simp [h]
  rw [lookup_wc, hm]

theorem mem_slots (g : PangoGlyphString) (n k : Nat) (hk : k < n) :
    (g.glyphs k, g.log_clusters k) ∈ slots g n := by
  unfold slots
  exact List.mem_map.mpr ⟨k, List.mem_range.mpr hk, rfl⟩

theorem mem_slots_basic_engine_shape (u : UnicodeTables) (font : PangoFont) (text : List Nat)
    (length : Int) (level : Nat) (g0 : PangoGlyphString) (hlen : 0 ≤ length) (k : Nat)
    (hk : k < g_utf8_strlen text length) :
    ((shape_logical u font text length level g0).glyphs k,
        (shape_logical u font text length level g0).log_clusters k)
      ∈ slots (basic_engine_shape u (some font) (some text) length (some ⟨level⟩) g0)
          (g_utf8_strlen text length) := by
  rcases Nat.mod_two_eq_zero_or_one level with heven | hodd
  · rw [basic_engine_shape_even u font text length level g0 hlen heven]
    exact mem_slots _ _ _ hk
  · rw [rtl_reorder_slots_aux u font text length level g0 hlen hodd, mem_reorder_by_clusters]
    exact mem_slots _ _ _ hk

theorem splitBy_loop_eq_cluster_runs {β : Type} (xs : List (β × Int)) (ag : β × Int)
    (g : List (β × Int)) (gs : List (List (β × Int))) :
    List.splitBy.loop (fun a b => decide (a.2 = b.2)) xs ag g gs
      = gs.reverse ++
          (match cluster_runs (ag :: xs) with
           | r :: rs => (g.reverse ++ r) :: rs
           | [] => [g.reverse]) := by
  induction xs generalizing ag g gs with
  | nil => simp [List.splitBy.loop, cluster_runs_singleton]
  | cons a as ih =>
    rw [cluster_runs_cons_cons]
    cases hR : cluster_runs (a :: as) with
    | nil => exact absurd hR (cluster_runs_ne_nil a as)
    | cons r rs =>
      by_cases h : ag.2 = a.2
      · simp only [List.splitBy.loop, h, decide_True, if_true]
        rw [ih, hR]
        simp [cons_run]
      · simp only [List.splitBy.loop, h, decide_False, if_false]
        rw [ih, hR]
        simp

theorem cluster_runs_eq_splitBy {β : Type} (l : List (β × Int)) :
    cluster_runs l = l.splitBy (fun a b => decide (a.2 = b.2)) := by
  cases l with
  | nil => rfl
  | cons x xs =>
    rw [List.splitBy, splitBy_loop_eq_cluster_runs]
    cases hR : cluster_runs (x :: xs) with
    | nil => exact absurd hR (cluster_runs_ne_nil x xs)
    | cons r rs => simp

theorem shape_logical_offsets (u : UnicodeTables) (font : PangoFont) (text : List Nat)
    (length : Int) (level : Nat) (g0 : PangoGlyphString) (k : Nat)
    (hk : k < g_utf8_strlen text length) :
    ((shape_logical u font text length level g0).glyphs k).geometry.y_offset = 0
      ∧ ((shape_logical u font text length level g0).glyphs k).geometry.x_offset
        = if merged_at u font level text k = true
              ∧ (font.logical_rect (logical_glyph u font level text k)).width = 0
              ∧ (font.ink_rect (logical_glyph u font level text k)).x = 0 then
            Int.tdiv (int_wrap (cluster_width u font level text k
              - (font.ink_rect (logical_glyph u font level text k)).width)) 2
          else 0 :=
  shape_loop_offsets u font text level _ _ k (g_utf8_strlen_le_length text length) hk

theorem cons_run_map {β γ : Type} (f : β → γ) (x : β) (R : List (List β)) :
    (cons_run x R).map (List.map f) = cons_run (f x) (R.map (List.map f)) := by
  cases R <;> rfl

theorem cluster_runs_map {β γ : Type} (f : β → γ) (l : List (β × Int)) :
    cluster_runs (l.map (Prod.map f id))
      = (cluster_runs l).map (List.map (Prod.map f id)) := by
  induction l with
  | nil => rfl
  | cons x xs ih =>
    cases xs with
    | nil => rfl
    | cons y ys =>
      simp only [List.map_cons] at ih ⊢
      rw [cluster_runs_cons_cons, cluster_runs_cons_cons, ih]
      simp only [Prod.map_snd, id_eq]
      split_ifs
      · rw [cons_run_map]
      · rfl

theorem reorder_by_clusters_map {β γ : Type} (f : β → γ) (l : List (β × Int)) :
    reorder_by_clusters (l.map (Prod.map f id))
      = (reorder_by_clusters l).map (Prod.map f id) := by
  simp [reorder_by_clusters, cluster_runs_map, List.map_reverse, List.map_flatten]

/-- The glyph id, the geometry and the `log_clusters` entry of a slot: all of it but
the `attr` field. -/
theorem slot_shape_eq (a b : PangoGlyphInfo × Int)
    (h : Prod.map (fun s : PangoGlyphInfo => (s.glyph, s.geometry)) id a
      = Prod.map (fun s : PangoGlyphInfo => (s.glyph, s.geometry)) id b) :
    a.1.glyph = b.1.glyph ∧ a.1.geometry = b.1.geometry ∧ a.2 = b.2 := by
  simp only [Prod.map, id_eq, Prod.mk.injEq] at h
  exact ⟨h.1.1, h.1.2, h.2⟩

theorem shape_logical_slots_shape (u : UnicodeTables) (font : PangoFont) (text : List Nat)
    (length : Int) (level : Nat) (g1 g2 : PangoGlyphString) :
    (slots (shape_logical u font text length level g1) (g_utf8_strlen text length)).map
        (Prod.map (fun s : PangoGlyphInfo => (s.glyph, s.geometry)) id)
      = (slots (shape_logical u font text length level g2) (g_utf8_strlen text length)).map
        (Prod.map (fun s : PangoGlyphInfo => (s.glyph, s.geometry)) id) := by
  unfold slots
  rw [List.map_map, List.map_map]
  apply List.map_congr_left
  intro k hk
  have hk' : k < g_utf8_strlen text length := List.mem_range.mp hk
  have geo : ∀ a b : PangoGlyphGeometry, a.width = b.width → a.x_offset = b.x_offset →
      a.y_offset = b.y_offset → a = b := by
    intro a b h1 h2 h3
    cases a; cases b; simp_all
  have hg : ((shape_logical u font text length level g1).glyphs k).geometry
      = ((shape_logical u font text length level g2).glyphs k).geometry := by
    apply geo
    · rw [shape_logical_width _ _ _ _ _ _ k hk', shape_logical_width _ _ _ _ _ _ k hk']
    · rw [(shape_logical_offsets _ _ _ _ _ _ k hk').2,
        (shape_logical_offsets _ _ _ _ _ _ k hk').2]
    · rw [(shape_logical_offsets _ _ _ _ _ _ k hk').1,
        (shape_logical_offsets _ _ _ _ _ _ k hk').1]
  simp only [Function.comp, Prod.map, id_eq]
  rw [shape_logical_glyph _ _ _ _ _ _ k hk', shape_logical_glyph _ _ _ _ _ _ k hk',
    shape_logical_log_clusters _ _ _ _ _ _ k hk', shape_logical_log_clusters _ _ _ _ _ _ k hk',
    hg]

theorem basic_engine_shape_slots_shape (u : UnicodeTables) (font : PangoFont)
    (text : List Nat) (length : Int) (level : Nat) (g1 g2 : PangoGlyphString)
    (hlen : 0 ≤ length) :
    (slots (basic_engine_shape u (some font) (some text) length (some ⟨level⟩) g1)
        (g_utf8_strlen text length)).map
        (Prod.map (fun s : PangoGlyphInfo => (s.glyph, s.geometry)) id)
      = (slots (basic_engine_shape u (some font) (some text) length (some ⟨level⟩) g2)
        (g_utf8_strlen text length)).map
        (Prod.map (fun s : PangoGlyphInfo => (s.glyph, s.geometry)) id) := by
  rcases Nat.mod_two_eq_zero_or_one level with heven | hodd
  · rw [basic_engine_shape_even u font text length level g1 hlen heven,
      basic_engine_shape_even u font text length level g2 hlen heven]
    exact shape_logical_slots_shape u font text length level g1 g2
  · rw [rtl_reorder_slots_aux u font text length level g1 hlen hodd,
      rtl_reorder_slots_aux u font text length level g2 hlen hodd,
      ← reorder_by_clusters_map, ← reorder_by_clusters_map,
      shape_logical_slots_shape u font text length level g1 g2]

theorem basic_engine_shape_num_glyphs (u : UnicodeTables) (font : PangoFont)
    (text : List Nat) (length : Int) (level : Nat) (g0 : PangoGlyphString)
    (hlen : 0 ≤ length) :
    (basic_engine_shape u (some font) (some text) length (some ⟨level⟩) g0).num_glyphs
      = g_utf8_strlen text length := by
  rcases Nat.mod_two_eq_zero_or_one level with heven | hodd
  · rw [basic_engine_shape_even u font text length level g0 hlen heven]
    exact shape_logical_num_glyphs _ _ _ _ _ _
  · rw [basic_engine_shape_odd u font text length level g0 hlen hodd, bidi_reorder_num_glyphs]
    exact shape_logical_num_glyphs _ _ _ _ _ _

theorem lookup_wc_self (u : UnicodeTables) (level c : Nat)
    (hmir : level % 2 = 0 ∨ u.pango_get_mirror_char c = none) (hc : c ≠ 0xa0) :
    lookup_wc u level c = c := by
  rw [lookup_wc_eq]
  rcases hmir with h | h
  · simp [h, hc]
  · rw [h]
    simp [hc]

theorem ZERO_WIDTH_CHAR_iff (c : Nat) :
    ZERO_WIDTH_CHAR c = true
      ↔ (0x200B ≤ c ∧ c ≤ 0x200F) ∨ (0x202A ≤ c ∧ c ≤ 0x202E) := by
  simp [ZERO_WIDTH_CHAR]

theorem find_char_le (font : PangoFont) (wc : Nat) : find_char font wc ≤ font.num_glyphs := by
  unfold find_char
  simp only []
  split_ifs with h
  · exact h.2
  · omega

theorem swap_range_noop (g : PangoGlyphString) (start e : Nat) (h : e - start ≤ 1) :
    swap_range g start e = g := by
  unfold swap_range
  cases e with
  | zero => rfl
  | succ e =>
    unfold swap_range_loop
    rw [if_neg (by omega)]

theorem cluster_end_ge (fuel : Nat) (g : PangoGlyphString) (n start e : Nat) :
    e ≤ cluster_end fuel g n start e := by
  induction fuel generalizing e with
  | zero => exact le_refl _
  | succ fuel ih =>
    unfold cluster_end
    split_ifs
    · have := ih (e + 1); omega
    · exact le_refl _

theorem cluster_end_le (fuel : Nat) (g : PangoGlyphString) (n start e : Nat) (he : e ≤ n) :
    cluster_end fuel g n start e ≤ n := by
  induction fuel generalizing e with
  | zero => exact he
  | succ fuel ih =>
    unfold cluster_end
    split_ifs with h
    · exact ih (e + 1) (by omega)
    · exact he

theorem cluster_end_gt (g : PangoGlyphString) (n start : Nat) (h : start < n) :
    start < cluster_end n g n start start := by
  obtain ⟨m, rfl⟩ : ∃ m, n = m + 1 := ⟨n - 1, by omega⟩
  unfold cluster_end
  rw [if_pos ⟨h, rfl⟩]
  have := cluster_end_ge m g (m + 1) start (start + 1)
  omega

theorem cluster_end_same (fuel : Nat) (g : PangoGlyphString) (n start e : Nat)
    (hinit : ∀ k, start ≤ k → k < e → g.log_clusters k = g.log_clusters start) :
    ∀ k, start ≤ k → k < cluster_end fuel g n start e →
      g.log_clusters k = g.log_clusters start := by
  induction fuel generalizing e with
  | zero => exact hinit
  | succ fuel ih =>
    unfold cluster_end
    split_ifs with h
    · apply ih (e + 1)
      intro k h1 h2
      by_cases hk : k = e
      · rw [hk]; exact h.2
      · exact hinit k h1 (by omega)
    · exact hinit

theorem swap_range_log_clusters_same (g : PangoGlyphString) (start e : Nat)
    (h : ∀ k, start ≤ k → k < e → g.log_clusters k = g.log_clusters start) :
    (swap_range g start e).log_clusters = g.log_clusters := by
  funext k
  rw [(swap_range_spec g start e k).2]
  split_ifs with hk
  · rw [h k hk.1 hk.2, h (start + e - 1 - k) (by omega) (by omega)]
  · rfl

theorem cluster_loop_log_clusters (fuel : Nat) (g : PangoGlyphString) (n start : Nat) :
    (cluster_loop fuel g n start).log_clusters = g.log_clusters := by
  induction fuel generalizing g start with
  | zero => rfl
  | succ fuel ih =>
    unfold cluster_loop
    split_ifs with h
    · simp only []
      rw [ih, swap_range_log_clusters_same]
      exact cluster_end_same n g n start start (fun k h1 h2 => by omega)
    · rfl

theorem bidi_reorder_log_clusters (g : PangoGlyphString) (n k : Nat) :
    (bidi_reorder g n).log_clusters k
      = if k < n then g.log_clusters (n - 1 - k) else g.log_clusters k := by
  rw [bidi_reorder, cluster_loop_log_clusters, (swap_range_spec g 0 n k).2]
  by_cases hk : k < n
  · rw [if_pos ⟨by omega, hk⟩, if_pos hk]
    congr 1
    omega
  · rw [if_neg (fun h => hk h.2), if_neg hk]

theorem cluster_loop_outside (fuel : Nat) (g : PangoGlyphString) (n start k : Nat)
    (hk : n ≤ k) (hs : start ≤ n) :
    (cluster_loop fuel g n start).glyphs k = g.glyphs k := by
  induction fuel generalizing g start with
  | zero => rfl
  | succ fuel ih =>
    unfold cluster_loop
    split_ifs with h
    · simp only []
      have hle := cluster_end_le n g n start start hs
      rw [ih _ _ hle, (swap_range_spec g start _ k).1, if_neg (by omega)]
    · rfl

theorem bidi_reorder_outside (g : PangoGlyphString) (n k : Nat) (hk : n ≤ k) :
    (bidi_reorder g n).glyphs k = g.glyphs k
      ∧ (bidi_reorder g n).log_clusters k = g.log_clusters k := by
  refine ⟨?_, ?_⟩
  · rw [bidi_reorder, cluster_loop_outside _ _ _ _ _ hk (by omega),
      (swap_range_spec g 0 n k).1, if_neg (by omega)]
  · rw [bidi_reorder_log_clusters, if_neg (by omega)]

theorem char_offset_strlen_le (text : List Nat) (length : Int) (hlen : 0 ≤ length) :
    (char_offset text (g_utf8_strlen text length) : Int) ≤ length := by
  induction text generalizing length with
  | nil => simpa [char_offset, utf8_byte_length, g_utf8_strlen] using hlen
  | cons c cs ih =>
    simp only [g_utf8_strlen]
    split_ifs with h1 h2 h3
    · simpa [char_offset_zero] using hlen
    · omega
    · simpa [char_offset_zero] using hlen
    · have h := ih (length - utf8_length c) (by omega)
      rw [Nat.add_comm 1, char_offset_cons_succ]
      push_cast
      omega

theorem logical_cluster_is_offset (u : UnicodeTables) (font : PangoFont) (level : Nat)
    (text : List Nat) (k : Nat) :
    ∃ j, j ≤ k ∧ logical_cluster u font level text k = (char_offset text j : Nat) := by
  induction k with
  | zero => exact ⟨0, le_refl _, rfl⟩
  | succ k ih =>
    simp only [logical_cluster]
    split_ifs
    · obtain ⟨j, hj, e⟩ := ih
      exact ⟨j, by omega, e⟩
    · exact ⟨k + 1, le_refl _, rfl⟩

theorem basic_engine_shape_log_clusters (u : UnicodeTables) (font : PangoFont)
    (text : List Nat) (length : Int) (level : Nat) (g0 : PangoGlyphString)
    (hlen : 0 ≤ length) (k : Nat) (hk : k < g_utf8_strlen text length) :
    (basic_engine_shape u (some font) (some text) length (some ⟨level⟩) g0).log_clusters k
      = logical_cluster u font level text
          (if level % 2 = 1 then g_utf8_strlen text length - 1 - k else k) := by
  rcases Nat.mod_two_eq_zero_or_one level with heven | hodd
  · rw [basic_engine_shape_even u font text length level g0 hlen heven,
      shape_logical_log_clusters _ _ _ _ _ _ k hk, if_neg (by omega)]
  · rw [basic_engine_shape_odd u font text length level g0 hlen hodd,
      bidi_reorder_log_clusters, if_pos hk, if_pos hodd,
      shape_logical_log_clusters _ _ _ _ _ _ _ (by omega)]

theorem reorder_by_clusters_perm {β : Type} (l : List (β × Int)) :
    List.Perm (reorder_by_clusters l) l := by
  have h : List.Perm (cluster_runs l).reverse.flatten (cluster_runs l).flatten :=
    List.Perm.flatten (List.reverse_perm _)
  rw [cluster_runs_flatten] at h
  exact h

theorem cluster_runs_inv {β : Type} (l : List (β × Int)) :
    (∀ r ∈ cluster_runs l, r ≠ [] ∧ ∀ a ∈ r, ∀ b ∈ r, a.2 = b.2)
      ∧ List.Chain' (fun r s : List (β × Int) => ∀ a ∈ r, ∀ b ∈ s, a.2 ≠ b.2)
          (cluster_runs l)
      ∧ (∀ x xs, l = x :: xs → ∃ r rs, cluster_runs l = (x :: r) :: rs) := by
  induction l with
  | nil =>
    refine ⟨?_, ?_, ?_⟩
    · intro r hr; simp [cluster_runs] at hr
    · simp [cluster_runs]
    · intro x xs h; cases h
  | cons x xs ih =>
    cases xs with
    | nil =>
      rw [cluster_runs_singleton]
      refine ⟨?_, List.chain'_singleton _, ?_⟩
      · intro r hr
        rw [List.mem_singleton] at hr
        subst hr
        refine ⟨by simp, ?_⟩
        intro a ha b hb
        rw [List.mem_singleton] at ha hb
        rw [ha, hb]
      · intro x' xs' h
        cases h
        exact ⟨[], [], rfl⟩
    | cons y ys =>
      obtain ⟨hconst, hchain, hhead⟩ := ih
      obtain ⟨r, rs, hR⟩ := hhead y ys rfl
      rw [hR] at hconst hchain
      have hr := hconst (y :: r) (List.mem_cons_self _ _)
      rw [cluster_runs_cons_cons, hR]
      by_cases hxy : x.2 = y.2
      · rw [if_pos hxy]
        simp only [cons_run]
        have hxr : ∀ b ∈ y :: r, x.2 = b.2 := by
          intro b hb
          rw [hxy]
          exact hr.2 y (List.mem_cons_self _ _) b hb
        refine ⟨?_, ?_, ?_⟩
        · intro s hs
          rcases List.mem_cons.mp hs with e | e
          · subst e
            refine ⟨by simp, ?_⟩
            intro a ha b hb
            rcases List.mem_cons.mp ha with ea | ea
            · rcases List.mem_cons.mp hb with eb | eb
              · rw [ea, eb]
              · rw [ea]; exact hxr b eb
            · rcases List.mem_cons.mp hb with eb | eb
              · rw [eb]; exact (hxr a ea).symm
              · exact hr.2 a ea b eb
          · exact hconst s (List.mem_cons_of_mem _ e)
        · rw [List.chain'_cons'] at hchain ⊢
          refine ⟨?_, hchain.2⟩
          intro s hs a ha b hb
          rcases List.mem_cons.mp ha with ea | ea
          · rw [ea, hxy]
            exact hchain.1 s hs y (List.mem_cons_self _ _) b hb
          · exact hchain.1 s hs a ea b hb
        · intro x' xs' h
          cases h
          exact ⟨y :: r, rs, rfl⟩
      · rw [if_neg hxy]
        refine ⟨?_, ?_, ?_⟩
        · intro s hs
          rcases List.mem_cons.mp hs with e | e
          · subst e
            refine ⟨by simp, ?_⟩
            intro a ha b hb
            rw [List.mem_singleton] at ha hb
            rw [ha, hb]
          · exact hconst s e
        · rw [List.chain'_cons']
          refine ⟨?_, hchain⟩
          intro s hs a ha b hb
          simp only [List.head?_cons, Option.mem_def, Option.some.injEq] at hs
          subst hs
          rw [List.mem_singleton] at ha
          rw [ha]
          intro e
          exact hxy (e.trans (hr.2 b hb y (List.mem_cons_self _ _)))
        · intro x' xs' h
          cases h
          exact ⟨[], (y :: r) :: rs, rfl⟩

theorem cluster_runs_flatten_of_runs {β : Type} (R : List (List (β × Int)))
    (hconst : ∀ r ∈ R, r ≠ [] ∧ ∀ a ∈ r, ∀ b ∈ r, a.2 = b.2)
    (hchain : List.Chain' (fun r s : List (β × Int) => ∀ a ∈ r, ∀ b ∈ s, a.2 ≠ b.2) R) :
    cluster_runs R.flatten = R := by
  induction R with
  | nil => rfl
  | cons r R ih =>
    rw [List.chain'_cons'] at hchain
    have ihR := ih (fun s hs => hconst s (List.mem_cons_of_mem _ hs)) hchain.2
    obtain ⟨hne, hc⟩ := hconst r (List.mem_cons_self _ _)
    cases r with
    | nil => exact absurd rfl hne
    | cons x xs =>
      have hp : ∀ a ∈ xs, (fun s : β × Int => decide (s.2 = x.2)) a = true := by
        intro a ha
        simp only [decide_eq_true_eq]
        exact hc a (List.mem_cons_of_mem _ ha) x (List.mem_cons_self _ _)
      rw [List.flatten_cons, List.cons_append, cluster_runs_cons,
        List.takeWhile_append_of_pos hp, List.dropWhile_append_of_pos hp]
      cases R with
      | nil => simp [cluster_runs]
      | cons s R' =>
        obtain ⟨hsne, _⟩ := hconst s (List.mem_cons_of_mem _ (List.mem_cons_self _ _))
        cases s with
        | nil => exact absurd rfl hsne
        | cons z zs =>
          have hz : ¬ z.2 = x.2 := by
            intro e
            exact hchain.1 (z :: zs) (by simp) x (List.mem_cons_self _ _) z
              (List.mem_cons_self _ _) e.symm
          have hF : (List.flatten ((z :: zs) :: R')) = z :: (zs ++ List.flatten R') := by
            simp
          rw [hF] at ihR ⊢
          rw [List.takeWhile_cons_of_neg (by simpa using hz),
            List.dropWhile_cons_of_neg (by simpa using hz), ihR]
          simp

theorem cluster_runs_reorder {β : Type} (l : List (β × Int)) :
    cluster_runs (reorder_by_clusters l) = (cluster_runs l).reverse := by
  obtain ⟨hconst, hchain, _⟩ := cluster_runs_inv l
  apply cluster_runs_flatten_of_runs
  · intro r hr
    exact hconst r (List.mem_reverse.mp hr)
  · rw [List.chain'_reverse]
    refine List.Chain'.imp ?_ hchain
    intro r s h a ha b hb e
    exact h b hb a ha e.symm

theorem reorder_by_clusters_involutive {β : Type} (l : List (β × Int)) :
    reorder_by_clusters (reorder_by_clusters l) = l := by
  have h := cluster_runs_reorder l
  unfold reorder_by_clusters at h ⊢
  rw [h, List.reverse_reverse, cluster_runs_flatten]

theorem bidi_reorder_involutive (g : PangoGlyphString) (n : Nat) :
    bidi_reorder (bidi_reorder g n) n = g := by
  have hs : slots (bidi_reorder (bidi_reorder g n) n) n = slots g n := by
    rw [bidi_reorder_slots, bidi_reorder_slots, reorder_by_clusters_involutive]
  have hpt : ∀ k, (bidi_reorder (bidi_reorder g n) n).glyphs k = g.glyphs k
      ∧ (bidi_reorder (bidi_reorder g n) n).log_clusters k = g.log_clusters k := by
    intro k
    by_cases hk : k < n
    · have hk1 : k < (slots (bidi_reorder (bidi_reorder g n) n) n).length := by
        rw [slots_length]; exact hk
      have hk2 : k < (slots g n).length := by rw [slots_length]; exact hk
      have hget : (slots (bidi_reorder (bidi_reorder g n) n) n)[k] = (slots g n)[k] := by
        simp only [hs]
      rw [slots_getElem, slots_getElem] at hget
      exact Prod.mk.inj hget
    · have h1 := bidi_reorder_outside (bidi_reorder g n) n k (by omega)
      have h2 := bidi_reorder_outside g n k (by omega)
      exact ⟨h1.1.trans h2.1, h1.2.trans h2.2⟩
  have hnum : (bidi_reorder (bidi_reorder g n) n).num_glyphs = g.num_glyphs := by simp
  have hgl : (bidi_reorder (bidi_reorder g n) n).glyphs = g.glyphs :=
    funext (fun k => (hpt k).1)
  have hlc : (bidi_reorder (bidi_reorder g n) n).log_clusters = g.log_clusters :=
    funext (fun k => (hpt k).2)
  cases hb : bidi_reorder (bidi_reorder g n) n with
  | mk a b c =>
    rw [hb] at hnum hgl hlc
    cases g with
    | mk a' b' c' =>
      simp only at hnum hgl hlc
      rw [hnum, hgl, hlc]

theorem swap_range_loop_fuel (f1 f2 : Nat) (g : PangoGlyphString) (i j : Nat)
    (h1 : j - i ≤ f1) (h2 : j - i ≤ f2) :
    swap_range_loop f1 g i j = swap_range_loop f2 g i j := by
  induction f1 generalizing f2 g i j with
  | zero =>
    cases f2 with
    | zero => rfl
    | succ f2 =>
      unfold swap_range_loop
      rw [if_neg (by omega)]
  | succ f1 ih =>
    cases f2 with
    | zero =>
      unfold swap_range_loop
      rw [if_neg (by omega)]
    | succ f2 =>
      rw [swap_range_loop, swap_range_loop]
      split_ifs with h
      · exact ih f2 _ _ _ (by omega) (by omega)
      · rfl

theorem swap_range_loop_run_eq (fuel : Nat) (g : PangoGlyphString) (i j : Nat)
    (h : j - i ≤ fuel) :
    swap_range_loop_run fuel g i j = some (swap_range_loop fuel g i j) := by
  induction fuel generalizing g i j with
  | zero =>
    unfold swap_range_loop_run swap_range_loop
    rw [if_neg (by omega)]
  | succ fuel ih =>
    rw [swap_range_loop_run, swap_range_loop]
    split_ifs with hij
    · exact ih _ _ _ (by omega)
    · rfl

theorem cluster_end_fuel (f1 f2 : Nat) (g : PangoGlyphString) (n start e : Nat)
    (h1 : n - e ≤ f1) (h2 : n - e ≤ f2) :
    cluster_end f1 g n start e = cluster_end f2 g n start e := by
  induction f1 generalizing f2 e with
  | zero =>
    cases f2 with
    | zero => rfl
    | succ f2 =>
      unfold cluster_end
      rw [if_neg (fun h => by omega)]
  | succ f1 ih =>
    cases f2 with
    | zero =>
      unfold cluster_end
      rw [if_neg (fun h => by omega)]
    | succ f2 =>
      rw [cluster_end, cluster_end]
      split_ifs with h
      · exact ih f2 (e + 1) (by omega) (by omega)
      · rfl

theorem cluster_end_run_eq (fuel : Nat) (g : PangoGlyphString) (n start e : Nat)
    (h : n - e ≤ fuel) :
    cluster_end_run fuel g n start e = some (cluster_end fuel g n start e) := by
  induction fuel generalizing e with
  | zero =>
    unfold cluster_end_run cluster_end
    rw [if_neg (fun h' => by omega)]
  | succ fuel ih =>
    rw [cluster_end_run, cluster_end]
    split_ifs with hc
    · exact ih (e + 1) (by omega)
    · rfl

theorem cluster_loop_fuel (f1 f2 : Nat) (g : PangoGlyphString) (n start : Nat)
    (h1 : n - start ≤ f1) (h2 : n - start ≤ f2) :
    cluster_loop f1 g n start = cluster_loop f2 g n start := by
  induction f1 generalizing f2 g start with
  | zero =>
    cases f2 with
    | zero => rfl
    | succ f2 =>
      unfold cluster_loop
      rw [if_neg (by omega)]
  | succ f1 ih =>
    cases f2 with
    | zero =>
      unfold cluster_loop
      rw [if_neg (by omega)]
    | succ f2 =>
      rw [cluster_loop, cluster_loop]
      split_ifs with h
      · simp only []
        have hgt := cluster_end_gt g n start h
        exact ih f2 _ _ (by omega) (by omega)
      · rfl

theorem cluster_loop_run_eq (fuel : Nat) (g : PangoGlyphString) (n start : Nat)
    (h : n - start ≤ fuel) :
    cluster_loop_run fuel g n start = some (cluster_loop fuel g n start) := by
  induction fuel generalizing g start with
  | zero =>
    unfold cluster_loop_run cluster_loop
    rw [if_neg (by omega)]
  | succ fuel ih =>
    rw [cluster_loop_run, cluster_loop]
    split_ifs with hs
    · have hgt := cluster_end_gt g n start hs
      rw [cluster_end_run_eq n g n start start (by omega)]
      simp only []
      rw [swap_range_loop_run_eq _ g start _ (by omega)]
      simp only []
      exact ih _ _ (by omega)
    · rfl

theorem bidi_reorder_run_eq (g : PangoGlyphString) (n : Nat) :
    bidi_reorder_run g n = some (bidi_reorder g n) := by
  unfold bidi_reorder_run bidi_reorder swap_range
  rw [swap_range_loop_run_eq n g 0 (n - 1) (by omega)]
  simp only []
  exact cluster_loop_run_eq n _ n 0 (by omega)

theorem in_bounds_of_lt (g : PangoGlyphString) (k : Nat) (h : k < g.num_glyphs) :
    in_bounds g (k : Int) = true := by
  simp [in_bounds, h]

theorem in_bounds_pred (g : PangoGlyphString) (i : Nat) (h0 : 0 < i) (h : i < g.num_glyphs) :
    in_bounds g ((i : Int) - 1) = true := by
  simp only [in_bounds, Bool.and_eq_true, decide_eq_true_eq]
  omega

theorem in_bounds_neg_one (g : PangoGlyphString) : in_bounds g ((0 : Nat) - 1 : Int) = false := by
  simp [in_bounds]

theorem set_glyph_checked_eq (font : PangoFont) (g : PangoGlyphString) (i : Nat)
    (offset : Int) (glyph : Nat) (h : i < g.num_glyphs) :
    set_glyph_checked font g i offset glyph = some (set_glyph font g i offset glyph) := by
  unfold set_glyph_checked
  rw [in_bounds_of_lt g i h]
  by_cases h0 : i > 0
  · rw [in_bounds_pred g i h0 h]
    simp [h0]
  · simp [h0]

theorem merge_mark_checked_eq (font : PangoFont) (g : PangoGlyphString) (i : Nat)
    (h0 : 0 < i) (h : i < g.num_glyphs) :
    merge_mark_checked font g i = some (merge_mark font g i) := by
  unfold merge_mark_checked
  rw [in_bounds_of_lt g i h, in_bounds_pred g i h0 h]
  simp

theorem shape_char_checked_eq (u : UnicodeTables) (font : PangoFont) (text : List Nat)
    (level i p : Nat) (g : PangoGlyphString) (h : i < g.num_glyphs) :
    shape_char_checked u font text level i p g
      = some (shape_char u font text level i p g) := by
  have hw : (if (if level % 2 ≠ 0 then
        match u.pango_get_mirror_char (g_utf8_get_char text p) with
        | some mirrored_ch => mirrored_ch
        | none => g_utf8_get_char text p
      else g_utf8_get_char text p) = 0xa0 then 0x20 else
      (if level % 2 ≠ 0 then
        match u.pango_get_mirror_char (g_utf8_get_char text p) with
        | some mirrored_ch => mirrored_ch
        | none => g_utf8_get_char text p
      else g_utf8_get_char text p)) = lookup_wc u level (g_utf8_get_char text p) := rfl
  rw [shape_char_eq]
  unfold shape_char_checked
  simp only []
  rw [hw]
  unfold is_merged char_glyph
  generalize lookup_wc u level (g_utf8_get_char text p) = wc
  by_cases hz : ZERO_WIDTH_CHAR wc = true
  · simp [hz, set_glyph_checked_eq font g i p 0 h]
  · by_cases hf : find_char font wc = 0
    · simp [hz, hf, set_glyph_checked_eq font g i p _ h]
    · have hf2 : find_char font wc ≠ 0 := hf
      rw [if_neg hz, if_pos hf2, set_glyph_checked_eq font g i p _ h]
      simp only []
      by_cases hn : u.is_non_spacing_mark wc = true
      · by_cases hi : i > 0
        · rw [if_pos hn, if_pos hi,
            merge_mark_checked_eq font _ i hi (by rw [set_glyph_num_glyphs]; exact h)]
          simp [hz, hf, hn, hi]
        · rw [if_pos hn, if_neg hi]
          simp [hz, hf, hn, hi]
      · rw [if_neg hn]
        simp [hz, hf, hn]

theorem shape_loop_checked_eq (u : UnicodeTables) (font : PangoFont) (text : List Nat)
    (level : Nat) (g : PangoGlyphString) (k : Nat) (h : k ≤ g.num_glyphs) :
    shape_loop_checked u font text level g k = some (shape_loop u font text level g k) := by
  induction k with
  | zero => rfl
  | succ k ih =>
    rw [shape_loop_checked, ih (by omega)]
    simp only []
    rw [shape_char_checked_eq u font text level k _ _
      (by rw [shape_loop_num_glyphs]; omega)]
    rfl

theorem swap_range_loop_checked_eq (fuel : Nat) (g : PangoGlyphString) (i j : Nat)
    (h : i < j → j < g.num_glyphs) :
    swap_range_loop_checked fuel g i j = some (swap_range_loop fuel g i j) := by
  induction fuel generalizing g i j with
  | zero => rfl
  | succ fuel ih =>
    rw [swap_range_loop_checked, swap_range_loop]
    split_ifs with hij
    · have hj := h hij
      have hsw : swap_slots_checked g i j = some (swap_slots g i j) := by
        unfold swap_slots_checked
        rw [in_bounds_of_lt g i (by omega), in_bounds_of_lt g j hj]
        simp
      rw [hsw]
      simp only []
      exact ih _ _ _ (fun _ => by rw [swap_slots_num_glyphs]; omega)
    · rfl

theorem swap_range_checked_eq (g : PangoGlyphString) (start e : Nat)
    (h : e ≤ g.num_glyphs) :
    swap_range_checked g start e = some (swap_range g start e) := by
  unfold swap_range_checked swap_range
  exact swap_range_loop_checked_eq e g start (e - 1) (fun _ => by omega)

theorem cluster_end_checked_eq (fuel : Nat) (g : PangoGlyphString) (n start e : Nat)
    (hn : n ≤ g.num_glyphs) (hs : start < n) :
    cluster_end_checked fuel g n start e = some (cluster_end fuel g n start e) := by
  induction fuel generalizing e with
  | zero => rfl
  | succ fuel ih =>
    rw [cluster_end_checked, cluster_end]
    by_cases he : e < n
    · rw [if_pos he, in_bounds_of_lt g e (by omega), in_bounds_of_lt g start (by omega)]
      by_cases hc : g.log_clusters e = g.log_clusters start
      · simp only [he, hc, and_self, not_true_eq_false, if_false, if_true]
        exact ih (e + 1)
      · simp [he, hc]
    · simp [he]

theorem cluster_loop_checked_eq (fuel : Nat) (g : PangoGlyphString) (n start : Nat)
    (hn : n ≤ g.num_glyphs) :
    cluster_loop_checked fuel g n start = some (cluster_loop fuel g n start) := by
  induction fuel generalizing g start with
  | zero => rfl
  | succ fuel ih =>
    rw [cluster_loop_checked, cluster_loop]
    split_ifs with hs
    · have hle := cluster_end_le n g n start start (by omega)
      rw [cluster_end_checked_eq n g n start start hn hs]
      simp only []
      rw [swap_range_checked_eq g start _ (by omega)]
      simp only []
      exact ih _ _ (by rw [swap_range_num_glyphs]; exact hn)
    · rfl

theorem bidi_reorder_checked_eq (g : PangoGlyphString) (n : Nat) (hn : n ≤ g.num_glyphs) :
    bidi_reorder_checked g n = some (bidi_reorder g n) := by
  unfold bidi_reorder_checked bidi_reorder
  rw [swap_range_checked_eq g 0 n hn]
  simp only []
  exact cluster_loop_checked_eq n _ n 0 (by rw [swap_range_num_glyphs]; exact hn)

theorem basic_engine_shape_checked_eq (u : UnicodeTables) (font : PangoFont)
    (text : List Nat) (length : Int) (level : Nat) (g0 : PangoGlyphString)
    (hlen : 0 ≤ length) :
    basic_engine_shape_checked u font text length level g0
      = some (basic_engine_shape u (some font) (some text) length (some ⟨level⟩) g0) := by
  unfold basic_engine_shape_checked
  simp only []
  rw [shape_loop_checked_eq u font text level _ _
    (by simp [pango_glyph_string_set_size])]
  simp only []
  rcases Nat.mod_two_eq_zero_or_one level with heven | hodd
  · rw [basic_engine_shape_even u font text length level g0 hlen heven]
    simp [heven, shape_logical]
  · rw [basic_engine_shape_odd u font text length level g0 hlen hodd]
    rw [if_pos (by omega)]
    exact bidi_reorder_checked_eq _ _
      (by rw [shape_loop_num_glyphs]; simp [pango_glyph_string_set_size])

/-! ## Glyph count -/

/-- C1: after `basic_engine_shape` the glyph string has exactly as many slots as
there are characters in `text[0:length)`, which is what `g_utf8_strlen` counts: none
for `length = 0`, and all of them when `length` is the byte length of a text without
NUL.  The count is already that before the bidi pass, so neither the merging of
combining marks nor the right-to-left reorder changes it. -/
theorem glyph_count (u : UnicodeTables) (font : PangoFont) (text : List Nat)
    (length : Int) (level : Nat) (glyphs : PangoGlyphString) (hlen : 0 ≤ length) :
    (basic_engine_shape u (some font) (some text) length (some ⟨level⟩) glyphs).num_glyphs
        = g_utf8_strlen text length
      ∧ (shape_logical u font text length level glyphs).num_glyphs
        = g_utf8_strlen text length
      ∧ (length = 0 →
          (basic_engine_shape u (some font) (some text) length (some ⟨level⟩)
            glyphs).num_glyphs = 0)
      ∧ ((∀ c ∈ text, c ≠ 0) → length = utf8_byte_length text →
          (basic_engine_shape u (some font) (some text) length (some ⟨level⟩)
            glyphs).num_glyphs = text.length) := by
  have key : (basic_engine_shape u (some font) (some text) length (some ⟨level⟩)
      glyphs).num_glyphs = g_utf8_strlen text length := by
    unfold basic_engine_shape
    simp only [ge_iff_le, hlen, not_true_eq_false, if_false]
    split_ifs <;> simp
  refine ⟨key, by simp, ?_, ?_⟩
  · intro h0
    rw [key, h0, g_utf8_strlen_zero]
  · intro hnz hl
    rw [key, hl, g_utf8_strlen_whole text hnz]

/-- Witness of C1: `a`, `b`, U+0301, `c` (5 bytes) at level 1 gives 4 slots. -/
theorem glyph_count_witness :
    (basic_engine_shape demo_tables (some demo_font) (some [0x61, 0x62, 0x301, 0x63]) 5
      (some ⟨1⟩) demo_glyphs).num_glyphs = 4 :=
  (glyph_count demo_tables demo_font [0x61, 0x62, 0x301, 0x63] 5 1 demo_glyphs
    (by decide)).2.2.2 (by decide) (by decide)

/-! ## Kerning and combining marks -/

/-- C2: in an even-level run whose characters all have glyphs in the font and none
of which is merged as a non-spacing mark, slot `i` holds the glyph `g i` of character
`i`, its width is `naturalWidth (g i) + kerning (g i) (g (i + 1))` for every slot but
the last, and the last slot has width `naturalWidth (g (n - 1))`.  The sum is the one
of `set_glyph`, in `int` arithmetic: it is the exact sum whenever that fits an `int`. -/
theorem kerning_on_previous_width (u : UnicodeTables) (font : PangoFont) (text : List Nat)
    (level : Nat) (g0 : PangoGlyphString)
    (heven : level % 2 = 0)
    (hnz : ∀ c ∈ text, c ≠ 0)
    (hglyph : ∀ i, i < text.length →
      ZERO_WIDTH_CHAR (lookup_wc u level (char_at text i)) = false
        ∧ find_char font (lookup_wc u level (char_at text i)) ≠ 0)
    (hmark : ∀ i, i < text.length → merged_at u font level text i = false) :
    (shape_run u font text level g0).num_glyphs = text.length
      ∧ ∀ i, i < text.length →
        ((shape_run u font text level g0).glyphs i).glyph
            = find_char font (lookup_wc u level (char_at text i))
          ∧ ((shape_run u font text level g0).glyphs i).geometry.width
            = (if i + 1 < text.length then
                int_wrap
                  (natural_width font (find_char font (lookup_wc u level (char_at text i)))
                    + font.kerning (find_char font (lookup_wc u level (char_at text i)))
                        (find_char font (lookup_wc u level (char_at text (i + 1)))))
              else
                natural_width font (find_char font (lookup_wc u level (char_at text i))))
          ∧ (i + 1 < text.length →
              fits_int
                (natural_width font (find_char font (lookup_wc u level (char_at text i)))
                  + font.kerning (find_char font (lookup_wc u level (char_at text i)))
                      (find_char font (lookup_wc u level (char_at text (i + 1))))) = true →
              ((shape_run u font text level g0).glyphs i).geometry.width
                = natural_width font (find_char font (lookup_wc u level (char_at text i)))
                  + font.kerning (find_char font (lookup_wc u level (char_at text i)))
                      (find_char font (lookup_wc u level (char_at text (i + 1))))) := by
  obtain ⟨hn, hnum⟩ := shape_run_num_glyphs u font text level g0 hnz
  refine ⟨hnum, ?_⟩
  have hg : ∀ i, i < text.length →
      logical_glyph u font level text i
        = find_char font (lookup_wc u level (char_at text i)) := by
    intro i hi
    obtain ⟨hz, hf⟩ := hglyph i hi
    simp [logical_glyph, char_glyph, hz, hf]
  intro i hi
  have hrun : shape_run u font text level g0
      = shape_logical u font text (utf8_byte_length text) level g0 :=
    basic_engine_shape_even u font text _ level g0 (by omega) heven
  have hwidth : ((shape_run u font text level g0).glyphs i).geometry.width
      = (if i + 1 < text.length then
          int_wrap
            (natural_width font (find_char font (lookup_wc u level (char_at text i)))
              + font.kerning (find_char font (lookup_wc u level (char_at text i)))
                  (find_char font (lookup_wc u level (char_at text (i + 1)))))
        else
          natural_width font (find_char font (lookup_wc u level (char_at text i)))) := by
    rw [hrun, shape_logical_width _ _ _ _ _ _ i (by omega), hn,
      cluster_width_unmerged _ _ _ _ _ (hmark i hi), hg i hi]
    by_cases hlast : i + 1 < text.length
    · rw [if_pos hlast, if_pos hlast, hmark (i + 1) hlast, hg (i + 1) hlast]
      simp [natural_width]
    · rw [if_neg hlast, if_neg hlast]
      rfl
  refine ⟨?_, hwidth, ?_⟩
  · rw [hrun, shape_logical_glyph _ _ _ _ _ _ i (by omega), hg i hi]
  · intro hlast hfit
    rw [hwidth, if_pos hlast, int_wrap_of_fits _ hfit]

/-- Witness of C2: `a`, `b` in the sample font, whose kerning for the pair is -1:
the first width is `11 + (-1)`, the second is the natural width 12. -/
theorem kerning_on_previous_width_witness :
    ((shape_run demo_tables demo_font [0x61, 0x62] 0 demo_glyphs).glyphs 0).geometry.width
        = natural_width demo_font 1 + (-1)
      ∧ ((shape_run demo_tables demo_font [0x61, 0x62] 0 demo_glyphs).glyphs 1).geometry.width
        = natural_width demo_font 2 := by
  have h := (kerning_on_previous_width demo_tables demo_font [0x61, 0x62] 0 demo_glyphs
    (by decide) (by decide) (by decide) (by decide)).2
  exact ⟨(h 0 (by decide)).2.2 (by decide) (by decide), (h 1 (by decide)).2.1⟩

/-- C3, as the code has it: for a base character and a non-spacing mark that both
have glyphs in the font, shaping base+mark gives exactly 2 slots with the same
`log_clusters` value, the first of width 0 and the second of width
`max (naturalWidth base + kerning (base, mark)) (naturalWidth mark)`: the kerning
that `set_glyph` added to the base is inside the maximum.  The sum is the one of
`set_glyph`, in `int` arithmetic: it is the exact sum whenever that fits an `int`. -/
theorem mark_cluster (u : UnicodeTables) (font : PangoFont) (level base mark : Nat)
    (g0 : PangoGlyphString) (hb0 : base ≠ 0) (hm0 : mark ≠ 0)
    (hbz : ZERO_WIDTH_CHAR (lookup_wc u level base) = false)
    (hbg : find_char font (lookup_wc u level base) ≠ 0)
    (hmz : ZERO_WIDTH_CHAR (lookup_wc u level mark) = false)
    (hmg : find_char font (lookup_wc u level mark) ≠ 0)
    (hnsm : u.is_non_spacing_mark (lookup_wc u level mark) = true) :
    (shape_run u font [base, mark] level g0).num_glyphs = 2
      ∧ (shape_run u font [base, mark] level g0).log_clusters 0
        = (shape_run u font [base, mark] level g0).log_clusters 1
      ∧ ((shape_run u font [base, mark] level g0).glyphs 0).glyph
        = find_char font (lookup_wc u level base)
      ∧ ((shape_run u font [base, mark] level g0).glyphs 1).glyph
        = find_char font (lookup_wc u level mark)
      ∧ ((shape_run u font [base, mark] level g0).glyphs 0).geometry.width = 0
      ∧ ((shape_run u font [base, mark] level g0).glyphs 1).geometry.width
        = max (int_wrap (natural_width font (find_char font (lookup_wc u level base))
                + font.kerning (find_char font (lookup_wc u level base))
                    (find_char font (lookup_wc u level mark))))
              (natural_width font (find_char font (lookup_wc u level mark)))
      ∧ (fits_int (natural_width font (find_char font (lookup_wc u level base))
                + font.kerning (find_char font (lookup_wc u level base))
                    (find_char font (lookup_wc u level mark))) = true →
          ((shape_run u font [base, mark] level g0).glyphs 1).geometry.width
            = max (natural_width font (find_char font (lookup_wc u level base))
                    + font.kerning (find_char font (lookup_wc u level base))
                        (find_char font (lookup_wc u level mark)))
                  (natural_width font (find_char font (lookup_wc u level mark)))) := by
  have hnz : ∀ c ∈ [base, mark], c ≠ 0 := by
    intro c hc
    simp only [List.mem_cons, List.mem_singleton, List.not_mem_nil, or_false] at hc
    rcases hc with h | h <;> rw [h] <;> assumption
  obtain ⟨hn, hnum⟩ := shape_run_num_glyphs u font [base, mark] level g0 hnz
  have hm : merged_at u font level [base, mark] 1 = true := by
    simp [merged_at, is_merged, char_at, hmz, hmg, hnsm]
  have hgb : logical_glyph u font level [base, mark] 0
      = find_char font (lookup_wc u level base) := by
    simp [logical_glyph, char_glyph, char_at, hbz, hbg]
  have hgm : logical_glyph u font level [base, mark] 1
      = find_char font (lookup_wc u level mark) := by
    simp [logical_glyph, char_glyph, char_at, hmz, hmg]
  obtain ⟨e0, e1, c0, c1⟩ := shape_run_pair u font base mark level g0 hb0 hm0 hm
  have hn2 : (2 : Nat) = g_utf8_strlen [base, mark] (utf8_byte_length [base, mark]) := hn.symm
  have hwidth : ((shape_run u font [base, mark] level g0).glyphs 1).geometry.width
      = max (int_wrap (natural_width font (find_char font (lookup_wc u level base))
              + font.kerning (find_char font (lookup_wc u level base))
                  (find_char font (lookup_wc u level mark))))
            (natural_width font (find_char font (lookup_wc u level mark))) := by
    rw [e1, shape_logical_width _ _ _ _ _ _ 1 (by omega), hn]
    simp [cluster_width, hm, hgb, hgm, natural_width]
  refine ⟨hnum, ?_, ?_, ?_, ?_, hwidth, ?_⟩
  · rw [c0, c1, shape_logical_log_clusters _ _ _ _ _ _ 0 (by omega),
      shape_logical_log_clusters _ _ _ _ _ _ 1 (by omega)]
    simp [logical_cluster, hm]
  · rw [e0, shape_logical_glyph _ _ _ _ _ _ 0 (by omega), hgb]
  · rw [e1, shape_logical_glyph _ _ _ _ _ _ 1 (by omega), hgm]
  · rw [e0, shape_logical_width _ _ _ _ _ _ 0 (by omega), hn]
    simp [hm]
  · intro hfit
    rw [hwidth, int_wrap_of_fits _ hfit]

/-- Witness of C3 as amended: `b` and U+0301 in the sample font, where the kerning of
the pair is 5: the mark's slot is `max (12 + 5) 0 = 17` wide. -/
theorem mark_cluster_witness :
    (shape_run demo_tables demo_font [0x62, 0x301] 0 demo_glyphs).num_glyphs = 2
      ∧ ((shape_run demo_tables demo_font [0x62, 0x301] 0 demo_glyphs).glyphs 1).geometry.width
        = 17 := by
  have h := mark_cluster demo_tables demo_font 0 0x62 0x301 demo_glyphs
    (by decide) (by decide) (by decide) (by decide) (by decide) (by decide) (by decide)
  exact ⟨h.1, h.2.2.2.2.2.2 (by decide)⟩

/-- Counterexample to C3 as stated: `b` and U+0301 both have glyphs in the sample
font and U+0301 is a non-spacing mark, yet the mark's slot is 17 wide, while
`max (naturalWidth base) (naturalWidth mark)` is 12. -/
theorem mark_cluster_counterexample :
    find_char demo_font 0x62 ≠ 0 ∧ find_char demo_font 0x301 ≠ 0
      ∧ demo_tables.is_non_spacing_mark 0x301 = true
      ∧ ((shape_run demo_tables demo_font [0x62, 0x301] 0 demo_glyphs).glyphs 1).geometry.width
        = 17
      ∧ max (natural_width demo_font (find_char demo_font 0x62))
          (natural_width demo_font (find_char demo_font 0x301)) = 12
      ∧ ((shape_run demo_tables demo_font [0x62, 0x301] 0 demo_glyphs).glyphs 1).geometry.width
        ≠ max (natural_width demo_font (find_char demo_font 0x62))
            (natural_width demo_font (find_char demo_font 0x301)) := by
  decide

/-! ## Right-to-left reorder -/

/-- C4: in an odd-level run without a merged combining mark, the output is the exact
reverse of the logical order: output slot `k` holds the glyph slot and the
`log_clusters` value produced for character `n - 1 - k` (its glyph and its byte
offset). -/
theorem rtl_reverse (u : UnicodeTables) (font : PangoFont) (text : List Nat) (length : Int)
    (level : Nat) (g0 : PangoGlyphString) (hlen : 0 ≤ length) (hodd : level % 2 = 1)
    (hnomerge : ∀ i, i < g_utf8_strlen text length → merged_at u font level text i = false)
    (k : Nat) (hk : k < g_utf8_strlen text length) :
    (basic_engine_shape u (some font) (some text) length (some ⟨level⟩) g0).glyphs k
        = (shape_logical u font text length level g0).glyphs
            (g_utf8_strlen text length - 1 - k)
      ∧ (basic_engine_shape u (some font) (some text) length (some ⟨level⟩) g0).log_clusters k
        = (shape_logical u font text length level g0).log_clusters
            (g_utf8_strlen text length - 1 - k)
      ∧ ((basic_engine_shape u (some font) (some text) length (some ⟨level⟩) g0).glyphs
            k).glyph
        = logical_glyph u font level text (g_utf8_strlen text length - 1 - k)
      ∧ (basic_engine_shape u (some font) (some text) length (some ⟨level⟩) g0).log_clusters k
        = (char_offset text (g_utf8_strlen text length - 1 - k) : Nat) := by
  have hle := g_utf8_strlen_le_length text length
  have hdist : ∀ j, 0 ≤ j → j + 1 < g_utf8_strlen text length →
      (shape_logical u font text length level g0).log_clusters j
        ≠ (shape_logical u font text length level g0).log_clusters (j + 1) := by
    intro j _ hj
    rw [shape_logical_log_clusters _ _ _ _ _ _ j (by omega),
      shape_logical_log_clusters _ _ _ _ _ _ (j + 1) hj,
      logical_cluster_unmerged _ _ _ _ _ (hnomerge j (by omega)),
      logical_cluster_unmerged _ _ _ _ _ (hnomerge (j + 1) hj)]
    have := char_offset_strict text j (j + 1) (by omega) (by omega)
    omega
  have hs := bidi_reorder_slots (shape_logical u font text length level g0)
    (g_utf8_strlen text length)
  rw [reorder_by_clusters, slots_eq_slots_between (shape_logical u font text length level g0),
    cluster_runs_slots_between_distinct _ _ 0 _ rfl hdist, flatten_reverse_singletons,
    ← slots_eq_slots_between, ← basic_engine_shape_odd u font text length level g0 hlen hodd]
    at hs
  have hk1 : k < (slots (basic_engine_shape u (some font) (some text) length (some ⟨level⟩) g0)
      (g_utf8_strlen text length)).length := by rw [slots_length]; exact hk
  have hk2 : k < (slots (shape_logical u font text length level g0)
      (g_utf8_strlen text length)).reverse.length := by
    rw [List.length_reverse, slots_length]; exact hk
  have hget : (slots (basic_engine_shape u (some font) (some text) length (some ⟨level⟩) g0)
      (g_utf8_strlen text length))[k]
      = (slots (shape_logical u font text length level g0)
          (g_utf8_strlen text length)).reverse[k] := by
    simp only [hs]
  rw [slots_getElem, List.getElem_reverse, slots_getElem, slots_length] at hget
  obtain ⟨e1, e2⟩ := Prod.mk.inj hget
  refine ⟨e1, e2, ?_, ?_⟩
  · rw [e1, shape_logical_glyph _ _ _ _ _ _ _ (by omega)]
  · rw [e2, shape_logical_log_clusters _ _ _ _ _ _ _ (by omega),
      logical_cluster_unmerged _ _ _ _ _ (hnomerge _ (by omega))]

/-- Witness of C4: `a`, `b`, `c` at level 1 in the sample font: output slot 0 holds
the glyph of `c` (glyph 3) and its byte offset 2. -/
theorem rtl_reverse_witness :
    ((basic_engine_shape demo_tables (some demo_font) (some [0x61, 0x62, 0x63]) 3
        (some ⟨1⟩) demo_glyphs).glyphs 0).glyph = logical_glyph demo_tables demo_font 1 [0x61, 0x62, 0x63] 2
      ∧ (basic_engine_shape demo_tables (some demo_font) (some [0x61, 0x62, 0x63]) 3
        (some ⟨1⟩) demo_glyphs).log_clusters 0 = 2 := by
  have h := rtl_reverse demo_tables demo_font [0x61, 0x62, 0x63] 3 1 demo_glyphs
    (by decide) (by decide) (by decide) 0 (by decide)
  exact ⟨h.2.2.1, h.2.2.2⟩

/-- C5: for an odd-level run the output of `basic_engine_shape` is the logical-order
slot sequence cut into its maximal sub-runs of equal `log_clusters` value, with the
list of sub-runs reversed and every sub-run kept in its logical internal order; the
sub-runs are those that `List.splitBy` cuts on equal `log_clusters` values. -/
theorem rtl_reorder_by_clusters (u : UnicodeTables) (font : PangoFont) (text : List Nat)
    (length : Int) (level : Nat) (g0 : PangoGlyphString) (hlen : 0 ≤ length)
    (hodd : level % 2 = 1) :
    slots (basic_engine_shape u (some font) (some text) length (some ⟨level⟩) g0)
          (g_utf8_strlen text length)
        = reorder_by_clusters
            (slots (shape_logical u font text length level g0) (g_utf8_strlen text length))
      ∧ reorder_by_clusters
            (slots (shape_logical u font text length level g0) (g_utf8_strlen text length))
        = ((slots (shape_logical u font text length level g0)
              (g_utf8_strlen text length)).splitBy
            (fun a b => decide (a.2 = b.2))).reverse.flatten := by
  refine ⟨?_, ?_⟩
  · rw [basic_engine_shape_odd u font text length level g0 hlen hodd]
    exact bidi_reorder_slots _ _
  · rw [reorder_by_clusters, cluster_runs_eq_splitBy]

/-- Witness of C5: logical `[a, b, m, c]` with the mark `m` merged into `b` comes out
as `[c, b, m, a]` (glyphs 3, 2, 4, 1 of the sample font) at level 1. -/
theorem rtl_reorder_by_clusters_witness :
    slots (basic_engine_shape demo_tables (some demo_font) (some [0x61, 0x62, 0x301, 0x63]) 5
          (some ⟨1⟩) demo_glyphs) (g_utf8_strlen [0x61, 0x62, 0x301, 0x63] 5)
        = reorder_by_clusters
            (slots (shape_logical demo_tables demo_font [0x61, 0x62, 0x301, 0x63] 5 1
              demo_glyphs) (g_utf8_strlen [0x61, 0x62, 0x301, 0x63] 5))
      ∧ (reorder_by_clusters
            (slots (shape_logical demo_tables demo_font [0x61, 0x62, 0x301, 0x63] 5 1
              demo_glyphs) 4)).map (fun s => s.1.glyph) = [3, 2, 4, 1]
      ∧ (slots (shape_logical demo_tables demo_font [0x61, 0x62, 0x301, 0x63] 5 1
              demo_glyphs) 4).map (fun s => s.1.glyph) = [1, 2, 4, 3] :=
  ⟨(rtl_reorder_by_clusters demo_tables demo_font [0x61, 0x62, 0x301, 0x63] 5 1 demo_glyphs
    (by decide) (by decide)).1, by decide, by decide⟩

/-! ## Zero-width characters, mirroring, missing glyphs, no-break space -/

/-- C6, as the code has it: shaping a text that consists solely of U+200B (which has
no mirrored counterpart) gives exactly one slot, with glyph id 0 and with the width
that the font reports as the logical width of glyph 0; that width is 0 when the font
reports 0 for glyph 0. -/
theorem zero_width_space (u : UnicodeTables) (font : PangoFont) (level : Nat)
    (g0 : PangoGlyphString) (hmir : u.pango_get_mirror_char 0x200B = none) :
    (shape_run u font [0x200B] level g0).num_glyphs = 1
      ∧ ((shape_run u font [0x200B] level g0).glyphs 0).glyph = 0
      ∧ ((shape_run u font [0x200B] level g0).glyphs 0).geometry.width
        = natural_width font 0
      ∧ (natural_width font 0 = 0 →
          ((shape_run u font [0x200B] level g0).glyphs 0).geometry.width = 0) := by
  have hnz : ∀ x ∈ [0x200B], x ≠ 0 := by decide
  obtain ⟨hn0, hnum⟩ := shape_run_num_glyphs u font [0x200B] level g0 hnz
  have hn : g_utf8_strlen [0x200B] (utf8_byte_length [0x200B]) = 1 := hn0
  obtain ⟨e0, _⟩ := shape_run_single u font 0x200B level g0 (by decide)
  have hw : lookup_wc u level 0x200B = 0x200B := by
    unfold lookup_wc mirror_wc
    rw [hmir]
    split_ifs <;> simp_all
  have hg : logical_glyph u font level [0x200B] 0 = 0 := by
    have hz : ZERO_WIDTH_CHAR 0x200B = true := by decide
    simp [logical_glyph, char_glyph, char_at, hw, hz]
  have hwd : ((shape_run u font [0x200B] level g0).glyphs 0).geometry.width
      = natural_width font 0 := by
    rw [e0, shape_logical_width _ _ _ _ _ _ 0 (by omega), hn]
    simp [cluster_width, hg, natural_width]
  refine ⟨hnum, ?_, hwd, fun h0 => hwd.trans h0⟩
  rw [e0, shape_logical_glyph _ _ _ _ _ _ 0 (by omega), hg]

/-- Witness of C6 as amended: U+200B in the sample font, at level 1. -/
theorem zero_width_space_witness :
    ((shape_run demo_tables demo_font [0x200B] 1 demo_glyphs).glyphs 0).glyph = 0
      ∧ ((shape_run demo_tables demo_font [0x200B] 1 demo_glyphs).glyphs 0).geometry.width
        = natural_width demo_font 0 := by
  have h := zero_width_space demo_tables demo_font 1 demo_glyphs (by decide)
  exact ⟨h.2.1, h.2.2.1⟩

/-- Counterexample to C6 as stated: the sample font reports a logical width of 10 for
glyph 0, and the single slot of U+200B has glyph id 0 and width 10, not 0. -/
theorem zero_width_space_counterexample :
    (shape_run demo_tables demo_font [0x200B] 0 demo_glyphs).num_glyphs = 1
      ∧ ((shape_run demo_tables demo_font [0x200B] 0 demo_glyphs).glyphs 0).glyph = 0
      ∧ ((shape_run demo_tables demo_font [0x200B] 0 demo_glyphs).glyphs 0).geometry.width = 10
      ∧ ((shape_run demo_tables demo_font [0x200B] 0 demo_glyphs).glyphs 0).geometry.width
        ≠ 0 := by
  decide

/-- C7, as the code has it: the slot of character `c` holds the glyph chosen for the
code point `wc`, which is the mirrored counterpart of `c` when the level is odd and
`c` has one and `c` itself otherwise, in both cases with U+00A0 replaced by U+0020:
glyph 0 for a zero-width `wc`, else what `find_char` gives for `wc`, else the unknown
glyph.  For a `wc` other than U+00A0 this is the mirrored counterpart at an odd
level and the character itself at an even level or without a counterpart. -/
theorem lookup_codepoint (u : UnicodeTables) (font : PangoFont) (text : List Nat)
    (length : Int) (level : Nat) (g0 : PangoGlyphString) (k : Nat)
    (hk : k < g_utf8_strlen text length) :
    ∃ wc : Nat,
      wc = (if (if level % 2 = 1 then (u.pango_get_mirror_char (char_at text k)).getD
                  (char_at text k) else char_at text k) = 0xa0 then 0x20
            else (if level % 2 = 1 then (u.pango_get_mirror_char (char_at text k)).getD
                  (char_at text k) else char_at text k))
      ∧ ((shape_logical u font text length level g0).glyphs k).glyph
        = (if ZERO_WIDTH_CHAR wc then 0
           else if find_char font wc ≠ 0 then find_char font wc
           else pango_ft2_get_unknown_glyph font)
      ∧ (∀ m, level % 2 = 1 → u.pango_get_mirror_char (char_at text k) = some m →
          m ≠ 0xa0 → wc = m)
      ∧ (level % 2 = 0 ∨ u.pango_get_mirror_char (char_at text k) = none →
          char_at text k ≠ 0xa0 → wc = char_at text k) := by
  refine ⟨lookup_wc u level (char_at text k), lookup_wc_eq u level _, ?_, ?_, ?_⟩
  · rw [shape_logical_glyph _ _ _ _ _ _ k hk]
    rfl
  · intro m hodd hm hne
    rw [lookup_wc_eq, hm]
    simp [hodd, hne]
  · intro h hne
    rw [lookup_wc_eq]
    rcases h with h | h
    · simp [h, hne]
    · rw [h]
      simp [hne]

/-- Witness of C7 as amended: U+0028 at level 1 is looked up as U+0029 (glyph 6 of the
sample font, not the glyph 8 of U+0028). -/
theorem lookup_codepoint_witness :
    ((shape_logical demo_tables demo_font [0x28] 1 1 demo_glyphs).glyphs 0).glyph
        = find_char demo_font 0x29 := by
  obtain ⟨wc, h1, h2, h3, _⟩ :=
    lookup_codepoint demo_tables demo_font [0x28] 1 1 demo_glyphs 0 (by decide)
  have hw : wc = 0x29 := h3 0x29 (by decide) (by decide) (by decide)
  rw [h2, hw]
  decide

/-- Counterexample to C7 as stated: U+00A0 at the even level 0 has no mirrored
counterpart, yet its slot holds the glyph of U+0020 (glyph 5), not the glyph that the
font has for the character itself (glyph 7). -/
theorem lookup_codepoint_counterexample :
    demo_tables.pango_get_mirror_char 0xa0 = none
      ∧ find_char demo_font 0xa0 = 7
      ∧ find_char demo_font 0x20 = 5
      ∧ ((shape_run demo_tables demo_font [0xa0] 0 demo_glyphs).glyphs 0).glyph = 5
      ∧ ((shape_run demo_tables demo_font [0xa0] 0 demo_glyphs).glyphs 0).glyph
        ≠ find_char demo_font 0xa0 := by
  decide

/-- C8: a character that is not a zero-width mark and for which `find_char` finds no
glyph gets the unknown-glyph placeholder in its slot; the placeholder is not glyph
id 0; and the run is shaped to the end: the output has all its slots, every slot holds
the glyph chosen for its own character, and the placeholder's slot is in the output. -/
theorem unknown_glyph_placeholder (u : UnicodeTables) (font : PangoFont) (text : List Nat)
    (length : Int) (level : Nat) (g0 : PangoGlyphString) (hlen : 0 ≤ length) (k : Nat)
    (hk : k < g_utf8_strlen text length)
    (hz : ZERO_WIDTH_CHAR (lookup_wc u level (char_at text k)) = false)
    (hf : find_char font (lookup_wc u level (char_at text k)) = 0) :
    ((shape_logical u font text length level g0).glyphs k).glyph
        = pango_ft2_get_unknown_glyph font
      ∧ pango_ft2_get_unknown_glyph font ≠ 0
      ∧ (basic_engine_shape u (some font) (some text) length (some ⟨level⟩) g0).num_glyphs
        = g_utf8_strlen text length
      ∧ (∀ j, j < g_utf8_strlen text length →
          ((shape_logical u font text length level g0).glyphs j).glyph
            = logical_glyph u font level text j)
      ∧ (level % 2 = 0 →
          ((basic_engine_shape u (some font) (some text) length (some ⟨level⟩) g0).glyphs
            k).glyph = pango_ft2_get_unknown_glyph font)
      ∧ ((shape_logical u font text length level g0).glyphs k,
            (shape_logical u font text length level g0).log_clusters k)
          ∈ slots (basic_engine_shape u (some font) (some text) length (some ⟨level⟩) g0)
              (g_utf8_strlen text length) := by
  have hg : ((shape_logical u font text length level g0).glyphs k).glyph
      = pango_ft2_get_unknown_glyph font := by
    rw [shape_logical_glyph _ _ _ _ _ _ k hk]
    simp [logical_glyph, char_glyph, hz, hf]
  refine ⟨hg, font.unknown_glyph_ne_zero, ?_, ?_, ?_, ?_⟩
  · rcases Nat.mod_two_eq_zero_or_one level with heven | hodd
    · rw [basic_engine_shape_even u font text length level g0 hlen heven]
      exact shape_logical_num_glyphs _ _ _ _ _ _
    · rw [basic_engine_shape_odd u font text length level g0 hlen hodd,
        bidi_reorder_num_glyphs]
      exact shape_logical_num_glyphs _ _ _ _ _ _
  · intro j hj
    exact shape_logical_glyph _ _ _ _ _ _ j hj
  · intro heven
    rw [basic_engine_shape_even u font text length level g0 hlen heven]
    exact hg
  · exact mem_slots_basic_engine_shape u font text length level g0 hlen k hk

/-- Witness of C8: U+1234 has no glyph in the sample font; in `(`, U+00A0, U+1234 at
level 0 its slot holds the unknown glyph 9. -/
theorem unknown_glyph_placeholder_witness :
    ((shape_logical demo_tables demo_font [0x28, 0xa0, 0x1234] 6 0 demo_glyphs).glyphs
        2).glyph = pango_ft2_get_unknown_glyph demo_font
      ∧ pango_ft2_get_unknown_glyph demo_font ≠ 0 := by
  have h := unknown_glyph_placeholder demo_tables demo_font [0x28, 0xa0, 0x1234] 6 0
    demo_glyphs (by decide) 2 (by decide) (by decide) (by decide)
  exact ⟨h.1, h.2.1⟩

/-! ## Cluster offsets -/

/-- C9: a no-break space U+00A0 (which has no mirrored counterpart) is looked up as
U+0020: its slot holds what `find_char` gives for U+0020 (the unknown glyph when the
font has none), and, U+0020 not being a non-spacing mark, the slot's `log_clusters`
value is the byte offset of the U+00A0 character itself.  This is the slot in logical
order, which is the output slot at an even level. -/
theorem nbsp_as_space (u : UnicodeTables) (font : PangoFont) (text : List Nat)
    (length : Int) (level : Nat) (g0 : PangoGlyphString) (hlen : 0 ≤ length) (k : Nat)
    (hk : k < g_utf8_strlen text length)
    (hc : char_at text k = 0xa0)
    (hmir : u.pango_get_mirror_char 0xa0 = none)
    (hsp : u.is_non_spacing_mark 0x20 = false) :
    ((shape_logical u font text length level g0).glyphs k).glyph
        = (if find_char font 0x20 ≠ 0 then find_char font 0x20
           else pango_ft2_get_unknown_glyph font)
      ∧ (shape_logical u font text length level g0).log_clusters k
        = (char_offset text k : Nat)
      ∧ (level % 2 = 0 →
          ((basic_engine_shape u (some font) (some text) length (some ⟨level⟩) g0).glyphs
              k).glyph
            = (if find_char font 0x20 ≠ 0 then find_char font 0x20
               else pango_ft2_get_unknown_glyph font)
          ∧ (basic_engine_shape u (some font) (some text) length (some ⟨level⟩)
              g0).log_clusters k = (char_offset text k : Nat)) := by
  have hw : lookup_wc u level (char_at text k) = 0x20 := by
    rw [lookup_wc_eq, hc, hmir]
    simp
  have hz : ZERO_WIDTH_CHAR 0x20 = false := by decide
  have hg : ((shape_logical u font text length level g0).glyphs k).glyph
      = (if find_char font 0x20 ≠ 0 then find_char font 0x20
         else pango_ft2_get_unknown_glyph font) := by
    rw [shape_logical_glyph _ _ _ _ _ _ k hk]
    simp [logical_glyph, char_glyph, hw, hz]
  have hm : merged_at u font level text k = false := by
    simp [merged_at, is_merged, hw, hsp]
  have hl : (shape_logical u font text length level g0).log_clusters k
      = (char_offset text k : Nat) := by
    rw [shape_logical_log_clusters _ _ _ _ _ _ k hk, logical_cluster_unmerged _ _ _ _ _ hm]
  refine ⟨hg, hl, ?_⟩
  intro heven
  rw [basic_engine_shape_even u font text length level g0 hlen heven]
  exact ⟨hg, hl⟩

/-- Witness of C9: in `a`, U+0301, U+00A0 the no-break space starts at byte 3; its slot
holds glyph 5 (the sample font's glyph for U+0020, not glyph 7 of U+00A0) and
`log_clusters` value 3. -/
theorem nbsp_as_space_witness :
    ((shape_logical demo_tables demo_font [0x61, 0x301, 0xa0] 5 0 demo_glyphs).glyphs 2).glyph
        = 5
      ∧ (shape_logical demo_tables demo_font [0x61, 0x301, 0xa0] 5 0 demo_glyphs).log_clusters 2
        = 3 := by
  have h := nbsp_as_space demo_tables demo_font [0x61, 0x301, 0xa0] 5 0 demo_glyphs
    (by decide) 2 (by decide) (by decide) (by decide) (by decide)
  exact ⟨h.1, h.2.1⟩

/-- C10: in logical order (the state before the right-to-left reorder, and the final
output at an even level) the `log_clusters` sequence is non-decreasing, and slot `k`
holds the byte offset of character `k`, or the value of slot `k - 1` when character
`k` was merged as a combining mark. -/
theorem log_clusters_monotone (u : UnicodeTables) (font : PangoFont) (text : List Nat)
    (length : Int) (level : Nat) (g0 : PangoGlyphString) (hlen : 0 ≤ length) :
    (∀ i j, i ≤ j → j < g_utf8_strlen text length →
        (shape_logical u font text length level g0).log_clusters i
          ≤ (shape_logical u font text length level g0).log_clusters j)
      ∧ (∀ k, k < g_utf8_strlen text length →
          (shape_logical u font text length level g0).log_clusters k
            = if merged_at u font level text k then
                (shape_logical u font text length level g0).log_clusters (k - 1)
              else (char_offset text k : Nat))
      ∧ (level % 2 = 0 →
          basic_engine_shape u (some font) (some text) length (some ⟨level⟩) g0
            = shape_logical u font text length level g0) := by
  refine ⟨?_, ?_, fun heven => basic_engine_shape_even u font text length level g0 hlen heven⟩
  · intro i j hij hj
    rw [shape_logical_log_clusters _ _ _ _ _ _ i (by omega),
      shape_logical_log_clusters _ _ _ _ _ _ j hj]
    exact logical_cluster_mono u font level text i j hij
  · intro k hk
    rw [shape_logical_log_clusters _ _ _ _ _ _ k hk]
    by_cases hm : merged_at u font level text k = true
    · have hpos : k > 0 := is_merged_pos _ _ _ _ _ hm
      rw [if_pos hm, shape_logical_log_clusters _ _ _ _ _ _ (k - 1) (by omega)]
      obtain ⟨k', rfl⟩ : ∃ k', k = k' + 1 := ⟨k - 1, by omega⟩
      simp [logical_cluster, hm]
    · have hm' : merged_at u font level text k = false := by simpa using hm
      rw [if_neg hm, logical_cluster_unmerged _ _ _ _ _ hm']

/-- Witness of C10: `a`, `b`, U+0301, `c` at level 0: the `log_clusters` values of the
output are 0, 1, 1, 4. -/
theorem log_clusters_monotone_witness :
    (shape_logical demo_tables demo_font [0x61, 0x62, 0x301, 0x63] 5 0 demo_glyphs).log_clusters
        1
      ≤ (shape_logical demo_tables demo_font [0x61, 0x62, 0x301, 0x63] 5 0
          demo_glyphs).log_clusters 2
    ∧ (slots (basic_engine_shape demo_tables (some demo_font) (some [0x61, 0x62, 0x301, 0x63])
          5 (some ⟨0⟩) demo_glyphs) 4).map (fun s => s.2) = [0, 1, 1, 4] := by
  have h := log_clusters_monotone demo_tables demo_font [0x61, 0x62, 0x301, 0x63] 5 0
    demo_glyphs (by decide)
  exact ⟨h.1 1 2 (by decide) (by decide), by decide⟩

/-! ## Preconditions, determinism, the module interface -/

/-- C11: when a precondition of `basic_engine_shape` is violated (`length < 0`, or
`font`, `text` or `analysis` is null) the call returns with the glyph string as it
was: the same size and the same memory in both arrays.  The function returns nothing
else, so no error value is produced. -/
theorem precondition_violation (u : UnicodeTables) (font : Option PangoFont)
    (text : Option (List Nat)) (length : Int) (analysis : Option PangoAnalysis)
    (glyphs : PangoGlyphString)
    (h : length < 0 ∨ font = none ∨ text = none ∨ analysis = none) :
    basic_engine_shape u font text length analysis glyphs = glyphs
      ∧ (basic_engine_shape u font text length analysis glyphs).num_glyphs
        = glyphs.num_glyphs
      ∧ (∀ k, (basic_engine_shape u font text length analysis glyphs).glyphs k
            = glyphs.glyphs k
          ∧ (basic_engine_shape u font text length analysis glyphs).log_clusters k
            = glyphs.log_clusters k) := by
  have key : basic_engine_shape u font text length analysis glyphs = glyphs := by
    unfold basic_engine_shape
    cases font with
    | none => rfl
    | some font =>
      cases text with
      | none => rfl
      | some text =>
        by_cases hl : length ≥ 0
        · cases analysis with
          | none => simp
          | some analysis =>
            rcases h with h | h | h | h
            · omega
            · cases h
            · cases h
            · cases h
        · simp [hl]
  rw [key]
  exact ⟨rfl, rfl, fun _ => ⟨rfl, rfl⟩⟩

/-- Witness of C11: a call with `length = -1` leaves the used glyph string with its 3
slots. -/
theorem precondition_violation_witness :
    (basic_engine_shape demo_tables (some demo_font) (some [0x61, 0x62]) (-1) (some ⟨0⟩)
        used_glyphs).num_glyphs = 3
      ∧ (basic_engine_shape demo_tables (some demo_font) (some [0x61, 0x62]) (-1) (some ⟨0⟩)
        used_glyphs).glyphs 0 = used_glyphs.glyphs 0 := by
  have h := precondition_violation demo_tables (some demo_font) (some [0x61, 0x62]) (-1)
    (some ⟨0⟩) used_glyphs (Or.inl (by decide))
  exact ⟨h.2.1, (h.2.2 0).1⟩

/-- C12: for a call that meets the preconditions, the output of `basic_engine_shape`
does not depend on what the glyph string held before: two calls with the same font,
text, length and level end with the same number of slots and, in every slot, the same
glyph id, width, x offset, y offset and `log_clusters` value. -/
theorem shape_deterministic (u : UnicodeTables) (font : PangoFont) (text : List Nat)
    (length : Int) (level : Nat) (g1 g2 : PangoGlyphString) (hlen : 0 ≤ length) :
    (basic_engine_shape u (some font) (some text) length (some ⟨level⟩) g1).num_glyphs
        = (basic_engine_shape u (some font) (some text) length (some ⟨level⟩) g2).num_glyphs
      ∧ ∀ k,
        k < (basic_engine_shape u (some font) (some text) length (some ⟨level⟩) g1).num_glyphs →
        ((basic_engine_shape u (some font) (some text) length (some ⟨level⟩) g1).glyphs k).glyph
            = ((basic_engine_shape u (some font) (some text) length (some ⟨level⟩)
                g2).glyphs k).glyph
          ∧ ((basic_engine_shape u (some font) (some text) length (some ⟨level⟩)
                g1).glyphs k).geometry.width
            = ((basic_engine_shape u (some font) (some text) length (some ⟨level⟩)
                g2).glyphs k).geometry.width
          ∧ ((basic_engine_shape u (some font) (some text) length (some ⟨level⟩)
                g1).glyphs k).geometry.x_offset
            = ((basic_engine_shape u (some font) (some text) length (some ⟨level⟩)
                g2).glyphs k).geometry.x_offset
          ∧ ((basic_engine_shape u (some font) (some text) length (some ⟨level⟩)
                g1).glyphs k).geometry.y_offset
            = ((basic_engine_shape u (some font) (some text) length (some ⟨level⟩)
                g2).glyphs k).geometry.y_offset
          ∧ (basic_engine_shape u (some font) (some text) length (some ⟨level⟩)
                g1).log_clusters k
            = (basic_engine_shape u (some font) (some text) length (some ⟨level⟩)
                g2).log_clusters k := by
  have hn1 := basic_engine_shape_num_glyphs u font text length level g1 hlen
  have hn2 := basic_engine_shape_num_glyphs u font text length level g2 hlen
  refine ⟨hn1.trans hn2.symm, ?_⟩
  intro k hk
  rw [hn1] at hk
  have hs := basic_engine_shape_slots_shape u font text length level g1 g2 hlen
  have hk1 : k < ((slots (basic_engine_shape u (some font) (some text) length (some ⟨level⟩) g1)
      (g_utf8_strlen text length)).map
      (Prod.map (fun s : PangoGlyphInfo => (s.glyph, s.geometry)) id)).length := by
    rw [List.length_map, slots_length]; exact hk
  have hk2 : k < ((slots (basic_engine_shape u (some font) (some text) length (some ⟨level⟩) g2)
      (g_utf8_strlen text length)).map
      (Prod.map (fun s : PangoGlyphInfo => (s.glyph, s.geometry)) id)).length := by
    rw [List.length_map, slots_length]; exact hk
  have hget : ((slots (basic_engine_shape u (some font) (some text) length (some ⟨level⟩) g1)
      (g_utf8_strlen text length)).map
      (Prod.map (fun s : PangoGlyphInfo => (s.glyph, s.geometry)) id))[k]
      = ((slots (basic_engine_shape u (some font) (some text) length (some ⟨level⟩) g2)
      (g_utf8_strlen text length)).map
      (Prod.map (fun s : PangoGlyphInfo => (s.glyph, s.geometry)) id))[k] := by
    simp only [hs]
  rw [List.getElem_map, List.getElem_map, slots_getElem, slots_getElem] at hget
  obtain ⟨e1, e2, e3⟩ := slot_shape_eq _ _ hget
  simp only at e1 e2 e3
  exact ⟨e1, by rw [e2], by rw [e2], by rw [e2], e3⟩

/-- Witness of C12: `a`, `b`, U+0301, `c` at level 1, shaped into an empty glyph
string with leftovers and into a used glyph string of 3 slots. -/
theorem shape_deterministic_witness :
    (basic_engine_shape demo_tables (some demo_font) (some [0x61, 0x62, 0x301, 0x63]) 5
        (some ⟨1⟩) demo_glyphs).num_glyphs
      = (basic_engine_shape demo_tables (some demo_font) (some [0x61, 0x62, 0x301, 0x63]) 5
        (some ⟨1⟩) used_glyphs).num_glyphs
    ∧ ((basic_engine_shape demo_tables (some demo_font) (some [0x61, 0x62, 0x301, 0x63]) 5
        (some ⟨1⟩) demo_glyphs).glyphs 0).glyph
      = ((basic_engine_shape demo_tables (some demo_font) (some [0x61, 0x62, 0x301, 0x63]) 5
        (some ⟨1⟩) used_glyphs).glyphs 0).glyph
    ∧ demo_glyphs.num_glyphs ≠ used_glyphs.num_glyphs
    ∧ demo_glyphs.glyphs 0 ≠ used_glyphs.glyphs 0 :=
  ⟨(shape_deterministic demo_tables demo_font [0x61, 0x62, 0x301, 0x63] 5 1 demo_glyphs
    used_glyphs (by decide)).1,
   ((shape_deterministic demo_tables demo_font [0x61, 0x62, 0x301, 0x63] 5 1 demo_glyphs
    used_glyphs (by decide)).2 0 (by decide)).1, by decide, by decide⟩

/-- C13: `script_engine_load (id)` returns an engine exactly when `id` is the id of
the descriptor that `script_engine_list` publishes, which is "BasicScriptEngineFT2";
that engine carries the id and the engine type of the descriptor; for every other id
the result is `NULL`. -/
theorem engine_load (m : EngineMacros) (id : String) :
    (script_engine_list m).1.map (fun info => info.id) = ["BasicScriptEngineFT2"]
      ∧ (script_engine_list m).2 = 1
      ∧ ((script_engine_load m id).isSome
          ↔ ∃ info, info ∈ (script_engine_list m).1 ∧ id = info.id)
      ∧ ((script_engine_load m id).isSome ↔ id = "BasicScriptEngineFT2")
      ∧ (∀ e, script_engine_load m id = some e →
          ∀ info, info ∈ (script_engine_list m).1 →
            e.engine.id = info.id ∧ e.engine.type = info.engine_type ∧ e.engine.id = id
              ∧ e.engine.type = m.PANGO_ENGINE_TYPE_SHAPE)
      ∧ (id ≠ "BasicScriptEngineFT2" → script_engine_load m id = none) := by
  refine ⟨rfl, rfl, ?_, ?_, ?_, ?_⟩
  · unfold script_engine_load
    by_cases h : id = SCRIPT_ENGINE_NAME
    · simp [h, script_engine_list, script_engines]
    · simp [h, script_engine_list, script_engines]
  · unfold script_engine_load
    by_cases h : id = SCRIPT_ENGINE_NAME
    · simp [h, SCRIPT_ENGINE_NAME]
    · have h2 : id ≠ "BasicScriptEngineFT2" := h
      simp [h, h2]
  · intro e he info hinfo
    unfold script_engine_load at he
    by_cases h : id = SCRIPT_ENGINE_NAME
    · rw [if_pos h] at he
      have he2 : e = basic_engine_ft2_new m := (Option.some.inj he).symm
      simp only [script_engine_list, script_engines, List.mem_singleton] at hinfo
      rw [he2, hinfo, h]
      exact ⟨rfl, rfl, rfl, rfl⟩
    · rw [if_neg h] at he
      cases he
  · intro h
    have h2 : ¬ id = SCRIPT_ENGINE_NAME := h
    unfold script_engine_load
    rw [if_neg h2]

/-- Witness of C13: loading "BasicScriptEngineFT2" gives an engine with that id, and
loading "BasicScriptEngineX" gives `NULL`. -/
theorem engine_load_witness :
    (∀ e, script_engine_load ⟨"PangoEngineShape", "PangoRenderFT2", 8⟩ "BasicScriptEngineFT2"
        = some e → e.engine.id = "BasicScriptEngineFT2")
      ∧ script_engine_load ⟨"PangoEngineShape", "PangoRenderFT2", 8⟩ "BasicScriptEngineX"
        = none :=
  ⟨fun e he => ((engine_load ⟨"PangoEngineShape", "PangoRenderFT2", 8⟩
      "BasicScriptEngineFT2").2.2.2.2.1 e he _ (List.mem_singleton.mpr rfl)).2.2.1,
    (engine_load ⟨"PangoEngineShape", "PangoRenderFT2", 8⟩ "BasicScriptEngineX").2.2.2.2.2
      (by decide)⟩

/-- C14: `find_char` returns 0 when the face reports index 0 for the code point and
when the reported index is greater than the face's glyph count; in every other case it
returns the reported index unchanged. -/
theorem find_char_spec (font : PangoFont) (wc : Nat) :
    (font.char_index wc = 0 → find_char font wc = 0)
      ∧ (font.char_index wc > font.num_glyphs → find_char font wc = 0)
      ∧ (font.char_index wc ≠ 0 → font.char_index wc ≤ font.num_glyphs →
          find_char font wc = font.char_index wc)
      ∧ find_char font wc
        = (if font.char_index wc = 0 ∨ font.char_index wc > font.num_glyphs then 0
           else font.char_index wc) := by
  unfold find_char
  refine ⟨?_, ?_, ?_, ?_⟩
  · intro h
    simp [h]
  · intro h
    have : ¬ (font.char_index wc ≤ font.num_glyphs) := by omega
    simp [this]
  · intro h1 h2
    simp [h1, h2]
  · by_cases h1 : font.char_index wc = 0
    · simp [h1]
    · by_cases h2 : font.char_index wc ≤ font.num_glyphs
      · have h3 : ¬ (font.char_index wc > font.num_glyphs) := by omega
        simp [h1, h2, h3]
      · have h3 : font.char_index wc > font.num_glyphs := by omega
        simp [h1, h2, h3]

/-- Witness of C14: in the sample font (10 glyphs) `a` has index 1, which is returned,
and U+1234 has index 0. -/
theorem find_char_spec_witness :
    find_char demo_font 0x61 = 1 ∧ find_char demo_font 0x1234 = 0 :=
  ⟨(find_char_spec demo_font 0x61).2.2.1 (by decide) (by decide),
    (find_char_spec demo_font 0x1234).1 (by decide)⟩

/-! ## Kerning, merging and zero-width characters in detail -/

/-- C17, as the code has it: in every iteration but the first, and whatever glyph the
character gets (glyph 0 of a zero-width character, a glyph found in the font or the
unknown-glyph placeholder), `set_glyph` adds to the previous slot's width the kerning
that the font reports for the two glyph ids, in `int` arithmetic (the exact sum
whenever that fits an `int`); a merge then zeroes that width.  The first iteration
writes slot 0 only and stores its glyph's natural width there. -/
theorem kerning_every_pair (u : UnicodeTables) (font : PangoFont) (text : List Nat)
    (level i p : Nat) (g : PangoGlyphString) :
    ((shape_char u font text level i p g).glyphs i).glyph
        = char_glyph u font level (g_utf8_get_char text p)
      ∧ (0 < i → is_merged u font level (g_utf8_get_char text p) i = false →
          ((shape_char u font text level i p g).glyphs (i - 1)).geometry.width
            = int_wrap ((g.glyphs (i - 1)).geometry.width
              + font.kerning (g.glyphs (i - 1)).glyph
                  ((shape_char u font text level i p g).glyphs i).glyph))
      ∧ (0 < i → is_merged u font level (g_utf8_get_char text p) i = false →
          fits_int ((g.glyphs (i - 1)).geometry.width
              + font.kerning (g.glyphs (i - 1)).glyph
                  ((shape_char u font text level i p g).glyphs i).glyph) = true →
          ((shape_char u font text level i p g).glyphs (i - 1)).geometry.width
            = (g.glyphs (i - 1)).geometry.width
              + font.kerning (g.glyphs (i - 1)).glyph
                  ((shape_char u font text level i p g).glyphs i).glyph)
      ∧ (0 < i → is_merged u font level (g_utf8_get_char text p) i = true →
          ((shape_char u font text level i p g).glyphs (i - 1)).geometry.width = 0)
      ∧ (i = 0 →
          ((shape_char u font text level i p g).glyphs 0).geometry.width
              = natural_width font ((shape_char u font text level i p g).glyphs 0).glyph
            ∧ ∀ k, k ≠ 0 → (shape_char u font text level i p g).glyphs k = g.glyphs k) := by
  have hself := shape_char_glyphs_self u font text level i p g
  have hprev : 0 < i → is_merged u font level (g_utf8_get_char text p) i = false →
      ((shape_char u font text level i p g).glyphs (i - 1)).geometry.width
        = int_wrap ((g.glyphs (i - 1)).geometry.width
          + font.kerning (g.glyphs (i - 1)).glyph
              ((shape_char u font text level i p g).glyphs i).glyph) := by
    intro hi hm
    rw [shape_char_glyphs_prev u font text level i p g hi, hself, hm]
    simp
  refine ⟨by rw [hself], hprev, ?_, ?_, ?_⟩
  · intro hi hm hfit
    rw [hprev hi hm, int_wrap_of_fits _ hfit]
  · intro hi hm
    rw [shape_char_glyphs_prev u font text level i p g hi, hm]
    simp
  · intro hi
    subst hi
    have hm : is_merged u font level (g_utf8_get_char text p) 0 = false := by
      simp [is_merged]
    refine ⟨?_, ?_⟩
    · rw [hself, hm]
      simp [natural_width]
    · intro k hk
      exact shape_char_glyphs_other u font text level 0 p g k hk (by omega)

/-- Witness of C17 as amended: `a`, U+1234 in the plain font, second iteration: U+1234
gets the unknown glyph 5 and the width of `a` goes from 10 to `10 + 3`. -/
theorem kerning_every_pair_witness :
    ((shape_char mark_tables plain_font [0x61, 0x1234] 0 1 1
        (shape_loop mark_tables plain_font [0x61, 0x1234] 0 demo_glyphs 1).2).glyphs
          0).geometry.width
      = ((shape_loop mark_tables plain_font [0x61, 0x1234] 0 demo_glyphs 1).2.glyphs
          0).geometry.width
        + plain_font.kerning
            ((shape_loop mark_tables plain_font [0x61, 0x1234] 0 demo_glyphs 1).2.glyphs 0).glyph
            ((shape_char mark_tables plain_font [0x61, 0x1234] 0 1 1
              (shape_loop mark_tables plain_font [0x61, 0x1234] 0 demo_glyphs 1).2).glyphs
                1).glyph :=
  (kerning_every_pair mark_tables plain_font [0x61, 0x1234] 0 1 1
    (shape_loop mark_tables plain_font [0x61, 0x1234] 0 demo_glyphs 1).2).2.2.1
    (by decide) (by decide) (by decide)

/-- Counterexample to C17 as stated: in the plain font every pair has kerning 3.  In
`a`, U+1234 the second slot holds the unknown-glyph placeholder 5 and in `a`, U+200B
it holds the invisible glyph 0, yet in both runs the width of `a` is 13 and not the
natural width 10 it had after the first iteration. -/
theorem kerning_every_pair_counterexample :
    find_char plain_font 0x1234 = 0
      ∧ ((shape_run mark_tables plain_font [0x61, 0x1234] 0 demo_glyphs).glyphs 1).glyph
        = pango_ft2_get_unknown_glyph plain_font
      ∧ ((shape_loop mark_tables plain_font [0x61, 0x1234] 0 demo_glyphs 1).2.glyphs
          0).geometry.width = 10
      ∧ ((shape_run mark_tables plain_font [0x61, 0x1234] 0 demo_glyphs).glyphs
          0).geometry.width = 13
      ∧ ((shape_run mark_tables plain_font [0x61, 0x200B] 0 demo_glyphs).glyphs 1).glyph = 0
      ∧ ((shape_loop mark_tables plain_font [0x61, 0x200B] 0 demo_glyphs 1).2.glyphs
          0).geometry.width = 10
      ∧ ((shape_run mark_tables plain_font [0x61, 0x200B] 0 demo_glyphs).glyphs
          0).geometry.width = 13 := by
  decide

/-- C18, as the code has it: a character that is not the first of the run, whose
general category is non-spacing mark and for which `find_char` finds a glyph is merged
into the preceding cluster: in logical order its slot carries the `log_clusters` value
of the preceding slot and the preceding slot's width is 0. -/
theorem mark_merged (u : UnicodeTables) (font : PangoFont) (text : List Nat)
    (length : Int) (level : Nat) (g0 : PangoGlyphString) (k : Nat)
    (hk : k < g_utf8_strlen text length) (hpos : 0 < k)
    (hnsm : u.is_non_spacing_mark (char_at text k) = true)
    (hfound : find_char font (char_at text k) ≠ 0)
    (hmir : level % 2 = 0 ∨ u.pango_get_mirror_char (char_at text k) = none)
    (hnb : char_at text k ≠ 0xa0)
    (hz : ZERO_WIDTH_CHAR (char_at text k) = false) :
    (shape_logical u font text length level g0).log_clusters k
        = (shape_logical u font text length level g0).log_clusters (k - 1)
      ∧ ((shape_logical u font text length level g0).glyphs (k - 1)).geometry.width = 0 := by
  have hw := lookup_wc_self u level (char_at text k) hmir hnb
  have hm : merged_at u font level text k = true := by
    simp [merged_at, is_merged, hw, hz, hfound, hnsm, hpos]
  obtain ⟨j, rfl⟩ : ∃ j, k = j + 1 := ⟨k - 1, by omega⟩
  refine ⟨?_, ?_⟩
  · rw [shape_logical_log_clusters _ _ _ _ _ _ (j + 1) hk, Nat.add_sub_cancel,
      shape_logical_log_clusters _ _ _ _ _ _ j (by omega)]
    simp [logical_cluster, hm]
  · rw [Nat.add_sub_cancel, shape_logical_width _ _ _ _ _ _ j (by omega), if_pos hk, hm]
    simp

/-- Witness of C18 as amended: `a`, U+0301 in the plain font, which has glyph 3 for
U+0301. -/
theorem mark_merged_witness :
    (shape_logical mark_tables plain_font [0x61, 0x301] 3 0 demo_glyphs).log_clusters 1
        = (shape_logical mark_tables plain_font [0x61, 0x301] 3 0 demo_glyphs).log_clusters
            (1 - 1)
      ∧ ((shape_logical mark_tables plain_font [0x61, 0x301] 3 0 demo_glyphs).glyphs
          (1 - 1)).geometry.width = 0 :=
  mark_merged mark_tables plain_font [0x61, 0x301] 3 0 demo_glyphs 1
    (by decide) (by decide) (by decide) (by decide) (by decide) (by decide) (by decide)

/-- Counterexample to C18 as stated: U+0300 is a non-spacing mark of the tables and
the second character of `a`, U+0300, but the plain font has no glyph for it: its slot
holds the unknown glyph and its own byte offset 1, the slot of `a` keeps byte offset 0
and the width 13. -/
theorem mark_merged_counterexample :
    mark_tables.is_non_spacing_mark 0x300 = true
      ∧ find_char plain_font 0x300 = 0
      ∧ (shape_run mark_tables plain_font [0x61, 0x300] 0 demo_glyphs).num_glyphs = 2
      ∧ ((shape_run mark_tables plain_font [0x61, 0x300] 0 demo_glyphs).glyphs 1).glyph
        = pango_ft2_get_unknown_glyph plain_font
      ∧ (shape_run mark_tables plain_font [0x61, 0x300] 0 demo_glyphs).log_clusters 1 = 1
      ∧ (shape_run mark_tables plain_font [0x61, 0x300] 0 demo_glyphs).log_clusters 0 = 0
      ∧ ((shape_run mark_tables plain_font [0x61, 0x300] 0 demo_glyphs).glyphs
          0).geometry.width = 13
      ∧ (shape_run mark_tables plain_font [0x61, 0x300] 0 demo_glyphs).log_clusters 1
        ≠ (shape_run mark_tables plain_font [0x61, 0x300] 0 demo_glyphs).log_clusters 0
      ∧ ((shape_run mark_tables plain_font [0x61, 0x300] 0 demo_glyphs).glyphs
          0).geometry.width ≠ 0 := by
  decide

/-- C19: for a merged non-spacing mark whose glyph has logical width 0 and
ink-rectangle x-origin 0 the slot's x offset is `(W - inkWidth) / 2`, `W` being the
width that the mark's slot holds when the merge is done (the maximum of the preceding
slot's width and the mark's own) and the division truncating toward zero; for a merged
mark that does not meet both conditions the x offset is 0.  The difference and the
kerning sum inside `W` are the code's, in `int` arithmetic: they are the exact
difference and the exact sum whenever these fit an `int`. -/
theorem overstrike_offset (u : UnicodeTables) (font : PangoFont) (text : List Nat)
    (length : Int) (level : Nat) (g0 : PangoGlyphString) (k : Nat)
    (hk : k < g_utf8_strlen text length)
    (hm : merged_at u font level text k = true) :
    ((shape_logical u font text length level g0).glyphs k).geometry.x_offset
        = (if (font.logical_rect
                ((shape_logical u font text length level g0).glyphs k).glyph).width = 0
              ∧ (font.ink_rect
                ((shape_logical u font text length level g0).glyphs k).glyph).x = 0 then
            Int.tdiv
              (int_wrap (((shape_loop u font text level
                    (pango_glyph_string_set_size g0 (g_utf8_strlen text length))
                    (k + 1)).2.glyphs k).geometry.width
                - (font.ink_rect
                    ((shape_logical u font text length level g0).glyphs k).glyph).width)) 2
          else 0)
      ∧ ((font.logical_rect
              ((shape_logical u font text length level g0).glyphs k).glyph).width = 0 →
          (font.ink_rect
              ((shape_logical u font text length level g0).glyphs k).glyph).x = 0 →
          fits_int (((shape_loop u font text level
                (pango_glyph_string_set_size g0 (g_utf8_strlen text length))
                (k + 1)).2.glyphs k).geometry.width
              - (font.ink_rect
                  ((shape_logical u font text length level g0).glyphs k).glyph).width)
            = true →
          ((shape_logical u font text length level g0).glyphs k).geometry.x_offset
            = Int.tdiv
                (((shape_loop u font text level
                      (pango_glyph_string_set_size g0 (g_utf8_strlen text length))
                      (k + 1)).2.glyphs k).geometry.width
                  - (font.ink_rect
                      ((shape_logical u font text length level g0).glyphs k).glyph).width) 2)
      ∧ ((shape_loop u font text level
            (pango_glyph_string_set_size g0 (g_utf8_strlen text length))
            (k + 1)).2.glyphs k).geometry.width
        = max (int_wrap (((shape_loop u font text level
                  (pango_glyph_string_set_size g0 (g_utf8_strlen text length))
                  k).2.glyphs (k - 1)).geometry.width
                + font.kerning
                    ((shape_logical u font text length level g0).glyphs (k - 1)).glyph
                    ((shape_logical u font text length level g0).glyphs k).glyph))
              (natural_width font ((shape_logical u font text length level g0).glyphs k).glyph)
      ∧ (fits_int (((shape_loop u font text level
                  (pango_glyph_string_set_size g0 (g_utf8_strlen text length))
                  k).2.glyphs (k - 1)).geometry.width
                + font.kerning
                    ((shape_logical u font text length level g0).glyphs (k - 1)).glyph
                    ((shape_logical u font text length level g0).glyphs k).glyph) = true →
          ((shape_loop u font text level
              (pango_glyph_string_set_size g0 (g_utf8_strlen text length))
              (k + 1)).2.glyphs k).geometry.width
            = max (((shape_loop u font text level
                      (pango_glyph_string_set_size g0 (g_utf8_strlen text length))
                      k).2.glyphs (k - 1)).geometry.width
                    + font.kerning
                        ((shape_logical u font text length level g0).glyphs (k - 1)).glyph
                        ((shape_logical u font text length level g0).glyphs k).glyph)
                  (natural_width font
                    ((shape_logical u font text length level g0).glyphs k).glyph))
      ∧ (∀ a : Int, 0 ≤ a → Int.tdiv a 2 = a / 2)
      ∧ (∀ a : Int, a < 0 → Int.tdiv a 2 = -((-a) / 2)) := by
  have hle := g_utf8_strlen_le_length text length
  have hpos : k > 0 := is_merged_pos _ _ _ _ _ hm
  obtain ⟨j, rfl⟩ : ∃ j, k = j + 1 := ⟨k - 1, by omega⟩
  have hg := shape_logical_glyph u font text length level g0 (j + 1) hk
  have hgp := shape_logical_glyph u font text length level g0 j (by omega)
  have hW := shape_loop_width u font text level
    (pango_glyph_string_set_size g0 (g_utf8_strlen text length)) (j + 1 + 1) (j + 1)
    (by omega) (by omega)
  rw [if_neg (by omega)] at hW
  have hWp := shape_loop_width u font text level
    (pango_glyph_string_set_size g0 (g_utf8_strlen text length)) (j + 1) j
    (by omega) (by omega)
  rw [if_neg (by omega)] at hWp
  have hx : ((shape_logical u font text length level g0).glyphs (j + 1)).geometry.x_offset
      = (if (font.logical_rect
              ((shape_logical u font text length level g0).glyphs (j + 1)).glyph).width = 0
            ∧ (font.ink_rect
              ((shape_logical u font text length level g0).glyphs (j + 1)).glyph).x = 0 then
          Int.tdiv
            (int_wrap (((shape_loop u font text level
                  (pango_glyph_string_set_size g0 (g_utf8_strlen text length))
                  (j + 1 + 1)).2.glyphs (j + 1)).geometry.width
              - (font.ink_rect
                  ((shape_logical u font text length level g0).glyphs (j + 1)).glyph).width)) 2
        else 0) := by
    rw [(shape_logical_offsets u font text length level g0 (j + 1) hk).2, hg, hW]
    simp [hm]
  have hmax : ((shape_loop u font text level
        (pango_glyph_string_set_size g0 (g_utf8_strlen text length))
        (j + 1 + 1)).2.glyphs (j + 1)).geometry.width
      = max (int_wrap (((shape_loop u font text level
                (pango_glyph_string_set_size g0 (g_utf8_strlen text length))
                (j + 1)).2.glyphs (j + 1 - 1)).geometry.width
              + font.kerning
                  ((shape_logical u font text length level g0).glyphs (j + 1 - 1)).glyph
                  ((shape_logical u font text length level g0).glyphs (j + 1)).glyph))
            (natural_width font
              ((shape_logical u font text length level g0).glyphs (j + 1)).glyph) := by
    rw [hW, Nat.add_sub_cancel, hWp, hg, hgp]
    simp [cluster_width, hm, natural_width]
  refine ⟨hx, ?_, hmax, ?_, ?_, ?_⟩
  · intro h1 h2 hfit
    rw [hx, if_pos ⟨h1, h2⟩, int_wrap_of_fits _ hfit]
  · intro hfit
    rw [hmax, int_wrap_of_fits _ hfit]
  · intro a ha
    obtain ⟨n, rfl⟩ := Int.eq_ofNat_of_zero_le ha
    rfl
  · intro a ha
    obtain ⟨n, hn⟩ := Int.exists_eq_neg_ofNat (le_of_lt ha)
    subst hn
    cases n with
    | zero => simp at ha
    | succ n =>
      simp only [neg_neg]
      rfl

/-- Witness of C19: `a`, U+0301 in the plain font: the mark's glyph 3 is 0 wide with
ink from x = 0, 30 wide; the merged width is `max (10 + 3) 0 = 13` and the x offset is
`(13 - 30) / 2 = -8` (truncated toward zero). -/
theorem overstrike_offset_witness :
    ((shape_logical mark_tables plain_font [0x61, 0x301] 3 0 demo_glyphs).glyphs
        1).geometry.x_offset
        = (if (plain_font.logical_rect
                ((shape_logical mark_tables plain_font [0x61, 0x301] 3 0 demo_glyphs).glyphs
                  1).glyph).width = 0
              ∧ (plain_font.ink_rect
                ((shape_logical mark_tables plain_font [0x61, 0x301] 3 0 demo_glyphs).glyphs
                  1).glyph).x = 0 then
            Int.tdiv
              (int_wrap (((shape_loop mark_tables plain_font [0x61, 0x301] 0
                    (pango_glyph_string_set_size demo_glyphs
                      (g_utf8_strlen [0x61, 0x301] 3)) (1 + 1)).2.glyphs 1).geometry.width
                - (plain_font.ink_rect
                    ((shape_logical mark_tables plain_font [0x61, 0x301] 3 0
                      demo_glyphs).glyphs 1).glyph).width)) 2
          else 0)
      ∧ ((shape_logical mark_tables plain_font [0x61, 0x301] 3 0 demo_glyphs).glyphs
          1).geometry.x_offset = -8
      ∧ ((shape_loop mark_tables plain_font [0x61, 0x301] 0
            (pango_glyph_string_set_size demo_glyphs 2) 2).2.glyphs 1).geometry.width = 13 :=
  ⟨(overstrike_offset mark_tables plain_font [0x61, 0x301] 3 0 demo_glyphs 1
      (by decide) (by decide)).1, by decide, by decide⟩

/-- C20: a character in U+200B..U+200F or U+202A..U+202E (none of which has a mirrored
counterpart) gets glyph id 0 in its slot whatever the font's glyph lookup would return
for it: for such a character the loop body is just `set_glyph (..., 0)`, which does
not look at the font's character map. -/
theorem zero_width_glyph (u : UnicodeTables) (font : PangoFont) (text : List Nat)
    (length : Int) (level : Nat) (g0 : PangoGlyphString) (k : Nat)
    (hk : k < g_utf8_strlen text length)
    (hzw : (0x200B ≤ char_at text k ∧ char_at text k ≤ 0x200F)
      ∨ (0x202A ≤ char_at text k ∧ char_at text k ≤ 0x202E))
    (hmir : level % 2 = 0 ∨ u.pango_get_mirror_char (char_at text k) = none) :
    ((shape_logical u font text length level g0).glyphs k).glyph = 0
      ∧ (∀ (g : PangoGlyphString) (i p : Nat), g_utf8_get_char text p = char_at text k →
          shape_char u font text level i p g = set_glyph font g i p 0)
      ∧ (∀ (char_index : Nat → Nat) (num_glyphs : Nat) (g : PangoGlyphString)
            (i : Nat) (offset : Int),
          set_glyph { font with char_index := char_index, num_glyphs := num_glyphs }
              g i offset 0
            = set_glyph font g i offset 0) := by
  have hnb : char_at text k ≠ 0xa0 := by omega
  have hw := lookup_wc_self u level (char_at text k) hmir hnb
  have hz : ZERO_WIDTH_CHAR (char_at text k) = true := (ZERO_WIDTH_CHAR_iff _).mpr hzw
  refine ⟨?_, ?_, ?_⟩
  · rw [shape_logical_glyph _ _ _ _ _ _ k hk]
    simp [logical_glyph, char_glyph, hw, hz]
  · intro g i p hp
    rw [shape_char_eq, hp]
    simp [is_merged, char_glyph, hw, hz]
  · intro ci ng g i offset
    rfl

/-- Witness of C20: the plain font maps U+200B to the visible glyph 4, yet the slot of
U+200B in `a`, U+200B holds glyph id 0. -/
theorem zero_width_glyph_witness :
    find_char plain_font 0x200B = 4
      ∧ ((shape_logical mark_tables plain_font [0x61, 0x200B] 4 1 demo_glyphs).glyphs 1).glyph
        = 0 :=
  ⟨by decide, (zero_width_glyph mark_tables plain_font [0x61, 0x200B] 4 1 demo_glyphs 1
    (by decide) (by decide) (by decide)).1⟩

/-! ## The first character, swap_range, the reorder as a permutation -/

/-- C22: `swap_range (glyphs, start, end)` with `start <= end` reverses the slice
`[start, end)` of the glyph array and of the `log_clusters` array in the same way:
position `start + k` receives what position `end - 1 - k` held, in both arrays;
every position outside `[start, end)` keeps its content in both arrays, the size is
unchanged, and the call changes nothing when `end - start <= 1`. -/
theorem swap_range_reverses (g : PangoGlyphString) (start e : Nat) (hse : start ≤ e) :
    (∀ k, k < e - start →
        (swap_range g start e).glyphs (start + k) = g.glyphs (e - 1 - k)
          ∧ (swap_range g start e).log_clusters (start + k) = g.log_clusters (e - 1 - k))
      ∧ (∀ k, k < start ∨ e ≤ k →
          (swap_range g start e).glyphs k = g.glyphs k
            ∧ (swap_range g start e).log_clusters k = g.log_clusters k)
      ∧ (swap_range g start e).num_glyphs = g.num_glyphs
      ∧ (e - start ≤ 1 → swap_range g start e = g) := by
  refine ⟨?_, ?_, swap_range_num_glyphs g start e, swap_range_noop g start e⟩
  · intro k hk
    have h := swap_range_spec g start e (start + k)
    have c : start ≤ start + k ∧ start + k < e := by omega
    have e1 : start + e - 1 - (start + k) = e - 1 - k := by omega
    rw [if_pos c, if_pos c, e1] at h
    exact h
  · intro k hk
    have h := swap_range_spec g start e k
    have c : ¬ (start ≤ k ∧ k < e) := by omega
    rw [if_neg c, if_neg c] at h
    exact h

/-- Witness of C22: `swap_range (glyphs, 0, 3)` on the used glyph string, whose slots
0, 1, 2 hold glyphs 1, 2, 3 and offsets 0, 2, 4: slot 0 receives glyph 3 with its
offset 4. -/
theorem swap_range_reverses_witness :
    ((swap_range used_glyphs 0 3).glyphs 0).glyph = 3
      ∧ (swap_range used_glyphs 0 3).log_clusters 0 = 4
      ∧ (swap_range used_glyphs 0 3).glyphs (0 + 0) = used_glyphs.glyphs (3 - 1 - 0) :=
  ⟨by decide, by decide,
    ((swap_range_reverses used_glyphs 0 3 (by decide)).1 0 (by decide)).1⟩

/-- C26, as the code has it: every non-zero glyph id returned by `find_char` is the
index that the face reports for the character and is at most the face's glyph count
(the test is `index <= face->num_glyphs`): it is strictly below the glyph count exactly
when the reported index is, and a reported index equal to the glyph count is returned
as it is. -/
theorem find_char_bound (font : PangoFont) (wc : Nat) (h : find_char font wc ≠ 0) :
    find_char font wc = font.char_index wc
      ∧ find_char font wc ≤ font.num_glyphs
      ∧ (find_char font wc < font.num_glyphs ↔ font.char_index wc < font.num_glyphs)
      ∧ (font.char_index wc = font.num_glyphs → find_char font wc = font.num_glyphs) := by
  have he : find_char font wc = font.char_index wc := by
    unfold find_char at h ⊢
    simp only [] at h ⊢
    by_cases hc : font.char_index wc ≠ 0 ∧ font.char_index wc ≤ font.num_glyphs
    · rw [if_pos hc]
    · rw [if_neg hc] at h
      exact absurd rfl h
  refine ⟨he, find_char_le font wc, ?_, ?_⟩
  · rw [he]
  · intro hc
    rw [he, hc]

/-- Witness of C26 as amended: in the sample font (10 glyphs) `a` has index 1, which
`find_char` returns and which is below the glyph count. -/
theorem find_char_bound_witness :
    find_char demo_font 0x61 = demo_font.char_index 0x61
      ∧ find_char demo_font 0x61 < demo_font.num_glyphs :=
  ⟨(find_char_bound demo_font 0x61 (by decide)).1,
    (find_char_bound demo_font 0x61 (by decide)).2.2.1.mpr (by decide)⟩

/-- Counterexample to C26 as stated: the face of `edge_font` has 5 glyphs and reports
index 5 for `a`; `find_char` returns 5, a non-zero glyph id that is not strictly below
the glyph count. -/
theorem find_char_bound_counterexample :
    edge_font.num_glyphs = 5 ∧ edge_font.char_index 0x61 = 5
      ∧ find_char edge_font 0x61 = 5
      ∧ find_char edge_font 0x61 ≠ 0
      ∧ ¬ (find_char edge_font 0x61 < edge_font.num_glyphs) := by
  decide

/-- C21, as the code has it: the first character of a run, in particular a
non-spacing mark, is not merged: in logical order its slot has `log_clusters` value 0
and x offset 0, and its width is the natural width of its glyph, plus the kerning with
the following glyph when there is one, except that the width is 0 when the following
character is merged into it as a non-spacing mark.  The sum is the one of `set_glyph`,
in `int` arithmetic: it is the exact sum whenever that fits an `int`. -/
theorem first_character (u : UnicodeTables) (font : PangoFont) (text : List Nat)
    (length : Int) (level : Nat) (g0 : PangoGlyphString)
    (hn : 0 < g_utf8_strlen text length) :
    merged_at u font level text 0 = false
      ∧ (shape_logical u font text length level g0).log_clusters 0 = 0
      ∧ ((shape_logical u font text length level g0).glyphs 0).geometry.x_offset = 0
      ∧ ((shape_logical u font text length level g0).glyphs 0).geometry.width
        = (if 1 < g_utf8_strlen text length then
            (if merged_at u font level text 1 then 0
             else int_wrap
               (natural_width font ((shape_logical u font text length level g0).glyphs 0).glyph
                 + font.kerning ((shape_logical u font text length level g0).glyphs 0).glyph
                     ((shape_logical u font text length level g0).glyphs 1).glyph))
           else natural_width font ((shape_logical u font text length level g0).glyphs 0).glyph)
      ∧ (1 < g_utf8_strlen text length → merged_at u font level text 1 = false →
          fits_int
            (natural_width font ((shape_logical u font text length level g0).glyphs 0).glyph
              + font.kerning ((shape_logical u font text length level g0).glyphs 0).glyph
                  ((shape_logical u font text length level g0).glyphs 1).glyph) = true →
          ((shape_logical u font text length level g0).glyphs 0).geometry.width
            = natural_width font ((shape_logical u font text length level g0).glyphs 0).glyph
              + font.kerning ((shape_logical u font text length level g0).glyphs 0).glyph
                  ((shape_logical u font text length level g0).glyphs 1).glyph) := by
  have hm : merged_at u font level text 0 = false := by simp [merged_at, is_merged]
  have hwidth : ((shape_logical u font text length level g0).glyphs 0).geometry.width
      = (if 1 < g_utf8_strlen text length then
          (if merged_at u font level text 1 then 0
           else int_wrap
             (natural_width font ((shape_logical u font text length level g0).glyphs 0).glyph
               + font.kerning ((shape_logical u font text length level g0).glyphs 0).glyph
                   ((shape_logical u font text length level g0).glyphs 1).glyph))
         else
          natural_width font ((shape_logical u font text length level g0).glyphs 0).glyph) := by
    rw [shape_logical_width _ _ _ _ _ _ 0 hn, shape_logical_glyph _ _ _ _ _ _ 0 hn]
    by_cases h1 : 1 < g_utf8_strlen text length
    · rw [shape_logical_glyph _ _ _ _ _ _ 1 h1]
      simp [h1, cluster_width, natural_width]
    · simp [h1, cluster_width, natural_width]
  refine ⟨hm, ?_, ?_, hwidth, ?_⟩
  · rw [shape_logical_log_clusters _ _ _ _ _ _ 0 hn]
    simp [logical_cluster, char_offset_zero]
  · rw [(shape_logical_offsets _ _ _ _ _ _ 0 hn).2]
    simp [hm]
  · intro h1 hm1 hfit
    rw [hwidth, if_pos h1, hm1, int_wrap_of_fits _ hfit]
    rfl

/-- Witness of C21 as amended: U+0301, `a` in the mark font: the mark's slot has
offset 0, x offset 0 and width `8 + 2`. -/
theorem first_character_witness :
    mark_tables.is_non_spacing_mark 0x301 = true
      ∧ (shape_logical mark_tables mark_font [0x301, 0x61] 3 0 demo_glyphs).log_clusters 0 = 0
      ∧ ((shape_logical mark_tables mark_font [0x301, 0x61] 3 0 demo_glyphs).glyphs
          0).geometry.x_offset = 0
      ∧ ((shape_logical mark_tables mark_font [0x301, 0x61] 3 0 demo_glyphs).glyphs
          0).geometry.width = 10 := by
  have h := first_character mark_tables mark_font [0x301, 0x61] 3 0 demo_glyphs (by decide)
  exact ⟨by decide, h.2.1, h.2.2.1, by decide⟩

/-- Counterexample to C21 as stated: in U+0301, U+0301 with the mark font the first
mark is not merged and keeps offset 0, but the second mark is merged into it and
zeroes its width: the width is 0, not the natural width 8 plus the kerning 2. -/
theorem first_character_counterexample :
    mark_tables.is_non_spacing_mark 0x301 = true
      ∧ (shape_run mark_tables mark_font [0x301, 0x301] 0 demo_glyphs).num_glyphs = 2
      ∧ ((shape_run mark_tables mark_font [0x301, 0x301] 0 demo_glyphs).glyphs 0).glyph = 1
      ∧ ((shape_run mark_tables mark_font [0x301, 0x301] 0 demo_glyphs).glyphs 1).glyph = 1
      ∧ natural_width mark_font 1 + mark_font.kerning 1 1 = 10
      ∧ ((shape_run mark_tables mark_font [0x301, 0x301] 0 demo_glyphs).glyphs
          0).geometry.width = 0
      ∧ ((shape_run mark_tables mark_font [0x301, 0x301] 0 demo_glyphs).glyphs
          0).geometry.width ≠ natural_width mark_font 1 + mark_font.kerning 1 1
      ∧ ((shape_run mark_tables mark_font [0x301, 0x301] 0 demo_glyphs).glyphs
          0).geometry.width ≠ natural_width mark_font 1 := by
  decide

/-! ## Cluster values of the output -/

/-- C24: for an odd-level run the `log_clusters` sequence that `basic_engine_shape`
outputs is the logical one reversed; it is non-increasing from the first to the last
slot, and the slots with equal `log_clusters` values are contiguous. -/
theorem rtl_clusters_nonincreasing (u : UnicodeTables) (font : PangoFont) (text : List Nat)
    (length : Int) (level : Nat) (g0 : PangoGlyphString) (hlen : 0 ≤ length)
    (hodd : level % 2 = 1) :
    (∀ i j, i ≤ j → j < g_utf8_strlen text length →
        (basic_engine_shape u (some font) (some text) length (some ⟨level⟩) g0).log_clusters j
          ≤ (basic_engine_shape u (some font) (some text) length (some ⟨level⟩)
              g0).log_clusters i)
      ∧ (∀ i j k, i ≤ j → j ≤ k → k < g_utf8_strlen text length →
          (basic_engine_shape u (some font) (some text) length (some ⟨level⟩) g0).log_clusters i
            = (basic_engine_shape u (some font) (some text) length (some ⟨level⟩)
                g0).log_clusters k →
          (basic_engine_shape u (some font) (some text) length (some ⟨level⟩) g0).log_clusters j
            = (basic_engine_shape u (some font) (some text) length (some ⟨level⟩)
                g0).log_clusters i)
      ∧ (∀ k, k < g_utf8_strlen text length →
          (basic_engine_shape u (some font) (some text) length (some ⟨level⟩) g0).log_clusters k
            = (shape_logical u font text length level g0).log_clusters
                (g_utf8_strlen text length - 1 - k)) := by
  have key : ∀ k, k < g_utf8_strlen text length →
      (basic_engine_shape u (some font) (some text) length (some ⟨level⟩) g0).log_clusters k
        = logical_cluster u font level text (g_utf8_strlen text length - 1 - k) := by
    intro k hk
    rw [basic_engine_shape_log_clusters u font text length level g0 hlen k hk, if_pos hodd]
  refine ⟨?_, ?_, ?_⟩
  · intro i j hij hj
    rw [key i (by omega), key j hj]
    exact logical_cluster_mono u font level text _ _ (by omega)
  · intro i j k hij hjk hk h
    rw [key i (by omega), key k hk] at h
    rw [key i (by omega), key j (by omega)]
    have h1 := logical_cluster_mono u font level text
      (g_utf8_strlen text length - 1 - k) (g_utf8_strlen text length - 1 - j) (by omega)
    have h2 := logical_cluster_mono u font level text
      (g_utf8_strlen text length - 1 - j) (g_utf8_strlen text length - 1 - i) (by omega)
    omega
  · intro k hk
    rw [key k hk, shape_logical_log_clusters _ _ _ _ _ _ _ (by omega)]

/-- Witness of C24: `a`, `b`, U+0301, `c` at level 1 gives the `log_clusters` values
4, 1, 1, 0. -/
theorem rtl_clusters_nonincreasing_witness :
    (basic_engine_shape demo_tables (some demo_font) (some [0x61, 0x62, 0x301, 0x63]) 5
        (some ⟨1⟩) demo_glyphs).log_clusters 3
      ≤ (basic_engine_shape demo_tables (some demo_font) (some [0x61, 0x62, 0x301, 0x63]) 5
        (some ⟨1⟩) demo_glyphs).log_clusters 0
    ∧ (slots (basic_engine_shape demo_tables (some demo_font) (some [0x61, 0x62, 0x301, 0x63])
          5 (some ⟨1⟩) demo_glyphs) 4).map (fun s => s.2) = [4, 1, 1, 0] :=
  ⟨(rtl_clusters_nonincreasing demo_tables demo_font [0x61, 0x62, 0x301, 0x63] 5 1 demo_glyphs
    (by decide) (by decide)).1 0 3 (by decide) (by decide), by decide⟩

/-- C25: every `log_clusters` value in the output of `basic_engine_shape` is the byte
offset at which a character of `text[0:length)` starts, so it is at least 0 and below
`length`; and in logical order the value of the slot of character `i` is the start of
a character `j <= i`, so it is never greater than the byte offset of character `i`. -/
theorem cluster_is_char_offset (u : UnicodeTables) (font : PangoFont) (text : List Nat)
    (length : Int) (level : Nat) (g0 : PangoGlyphString) (hlen : 0 ≤ length) :
    (∀ k, k < g_utf8_strlen text length →
        (∃ j, j < g_utf8_strlen text length
          ∧ (basic_engine_shape u (some font) (some text) length (some ⟨level⟩)
              g0).log_clusters k = (char_offset text j : Nat))
        ∧ 0 ≤ (basic_engine_shape u (some font) (some text) length (some ⟨level⟩)
              g0).log_clusters k
        ∧ (basic_engine_shape u (some font) (some text) length (some ⟨level⟩)
              g0).log_clusters k < length)
      ∧ (∀ i, i < g_utf8_strlen text length →
          (shape_logical u font text length level g0).log_clusters i
              ≤ (char_offset text i : Nat)
            ∧ ∃ j, j ≤ i ∧ (shape_logical u font text length level g0).log_clusters i
                = (char_offset text j : Nat)) := by
  have hle := g_utf8_strlen_le_length text length
  have hend := char_offset_strlen_le text length hlen
  refine ⟨?_, ?_⟩
  · intro k hk
    rw [basic_engine_shape_log_clusters u font text length level g0 hlen k hk]
    have hidx : (if level % 2 = 1 then g_utf8_strlen text length - 1 - k else k)
        < g_utf8_strlen text length := by
      split_ifs <;> omega
    obtain ⟨j, hj, e⟩ := logical_cluster_is_offset u font level text
      (if level % 2 = 1 then g_utf8_strlen text length - 1 - k else k)
    have hjn : j < g_utf8_strlen text length := by omega
    have hs := char_offset_strict text j (g_utf8_strlen text length) hjn hle
    rw [e]
    refine ⟨⟨j, hjn, rfl⟩, Int.ofNat_zero_le _, ?_⟩
    omega
  · intro i hi
    rw [shape_logical_log_clusters _ _ _ _ _ _ i hi]
    exact ⟨logical_cluster_le u font level text i,
      logical_cluster_is_offset u font level text i⟩

/-- Witness of C25: in `a`, `b`, U+0301, `c` (5 bytes) at level 1 the second output slot
has `log_clusters` value 1, the start of `b`. -/
theorem cluster_is_char_offset_witness :
    (basic_engine_shape demo_tables (some demo_font) (some [0x61, 0x62, 0x301, 0x63]) 5
        (some ⟨1⟩) demo_glyphs).log_clusters 1 < 5
      ∧ (basic_engine_shape demo_tables (some demo_font) (some [0x61, 0x62, 0x301, 0x63]) 5
        (some ⟨1⟩) demo_glyphs).log_clusters 1 = (char_offset [0x61, 0x62, 0x301, 0x63] 1 : Nat) :=
  ⟨((cluster_is_char_offset demo_tables demo_font [0x61, 0x62, 0x301, 0x63] 5 1 demo_glyphs
    (by decide)).1 1 (by decide)).2.2, by decide⟩

/-! ## The reorder pass as a permutation and an involution -/

/-- C23: the right-to-left reorder pass only permutes slots: for every glyph string and
every `n_chars` the slots after the pass are a permutation of the slots before it, so
the multiset of (glyph id, width, x offset, y offset, `log_clusters` value) tuples is
the same; the size and the memory past `n_chars` are untouched. -/
theorem reorder_permutes (g : PangoGlyphString) (n : Nat) :
    List.Perm (slots (bidi_reorder g n) n) (slots g n)
      ∧ Multiset.ofList ((slots (bidi_reorder g n) n).map slot_tuple)
        = Multiset.ofList ((slots g n).map slot_tuple)
      ∧ (bidi_reorder g n).num_glyphs = g.num_glyphs
      ∧ (∀ k, n ≤ k → (bidi_reorder g n).glyphs k = g.glyphs k
          ∧ (bidi_reorder g n).log_clusters k = g.log_clusters k) := by
  have hp : List.Perm (slots (bidi_reorder g n) n) (slots g n) := by
    rw [bidi_reorder_slots]
    exact reorder_by_clusters_perm _
  refine ⟨hp, ?_, bidi_reorder_num_glyphs g n, fun k hk => bidi_reorder_outside g n k hk⟩
  exact Multiset.coe_eq_coe.mpr (hp.map slot_tuple)

/-- Witness of C23: the pass over the 3 slots of the used glyph string, whose offsets
0, 2, 4 are all different, gives the slots in reverse order and leaves slot 3 alone. -/
theorem reorder_permutes_witness :
    (slots (bidi_reorder used_glyphs 3) 3).map slot_tuple
        = [(3, 5, 1, 1, 4), (2, 5, 1, 1, 2), (1, 5, 1, 1, 0)]
      ∧ (slots used_glyphs 3).map slot_tuple
        = [(1, 5, 1, 1, 0), (2, 5, 1, 1, 2), (3, 5, 1, 1, 4)]
      ∧ (bidi_reorder used_glyphs 3).glyphs 3 = used_glyphs.glyphs 3 :=
  ⟨by decide, by decide, ((reorder_permutes used_glyphs 3).2.2.2 3 (by decide)).1⟩

/-- C29: the right-to-left reorder pass is an involution: applied twice to a glyph
string, whatever its `log_clusters` values, it gives back the glyph string, with the
same glyph array and the same `log_clusters` array. -/
theorem reorder_involution (g : PangoGlyphString) (n : Nat) :
    bidi_reorder (bidi_reorder g n) n = g
      ∧ (∀ k, (bidi_reorder (bidi_reorder g n) n).glyphs k = g.glyphs k
          ∧ (bidi_reorder (bidi_reorder g n) n).log_clusters k = g.log_clusters k) := by
  have h := bidi_reorder_involutive g n
  refine ⟨h, ?_⟩
  intro k
  rw [h]
  exact ⟨rfl, rfl⟩

/-! ## Termination and array bounds -/

/-- C28: the loops of the bidi pass terminate for every glyph string and every
`n_chars`: from `start < n_chars` the inner loop ends with `start < end <= n_chars`, so
the loop over the clusters ends within `n_chars - start` iterations; the loop of
`swap_range` ends within `j - i` iterations, `j - i` getting smaller in each one; more
iterations allowed give the same result, and the whole pass ends with the result of
`bidi_reorder`. -/
theorem reorder_terminates (g : PangoGlyphString) (n : Nat) :
    (∀ start, start < n →
        ∃ e, cluster_end_run n g n start start = some e ∧ start < e ∧ e ≤ n)
      ∧ (∀ fuel start, n - start ≤ fuel →
          cluster_loop_run fuel g n start = some (cluster_loop (n - start) g n start))
      ∧ (∀ fuel i j, j - i ≤ fuel →
          swap_range_loop_run fuel g i j = some (swap_range_loop (j - i) g i j))
      ∧ (∀ i j : Nat, i < j → (j - 1) - (i + 1) < j - i)
      ∧ bidi_reorder_run g n = some (bidi_reorder g n) := by
  refine ⟨?_, ?_, ?_, ?_, bidi_reorder_run_eq g n⟩
  · intro start hs
    refine ⟨cluster_end n g n start start, cluster_end_run_eq n g n start start (by omega),
      cluster_end_gt g n start hs, cluster_end_le n g n start start (by omega)⟩
  · intro fuel start h
    rw [cluster_loop_run_eq fuel g n start h,
      cluster_loop_fuel fuel (n - start) g n start h (le_refl _)]
  · intro fuel i j h
    rw [swap_range_loop_run_eq fuel g i j h,
      swap_range_loop_fuel fuel (j - i) g i j h (le_refl _)]
  · intro i j h
    omega

/-- Witness of C28: on the used glyph string with `n_chars = 3` the inner loop from
`start = 0` ends with `end = 1`, and the pass ends. -/
theorem reorder_terminates_witness :
    (∃ e, cluster_end_run 3 used_glyphs 3 0 0 = some e ∧ 0 < e ∧ e ≤ 3)
      ∧ cluster_end_run 3 used_glyphs 3 0 0 = some 1
      ∧ (bidi_reorder_run used_glyphs 3).isSome = true :=
  ⟨(reorder_terminates used_glyphs 3).1 0 (by decide), by decide, by decide⟩

/-- C27: for arguments that meet the preconditions, every access of
`basic_engine_shape`, `set_glyph` and `swap_range` to `glyphs[k]` and `log_clusters[k]`
has `0 <= k < n`, `n` being the number of characters and the size of the glyph string:
the engine with checked accesses never fails and gives the result of
`basic_engine_shape`.  Slot `i - 1` is used only under `i > 0` (index -1 is out of
bounds and `set_glyph` at `i = 0` passes the checks), and `swap_range` is called with
`(0, n)` and then with `start < end <= n`. -/
theorem accesses_in_bounds (u : UnicodeTables) (font : PangoFont) (text : List Nat)
    (length : Int) (level : Nat) (g0 : PangoGlyphString) (hlen : 0 ≤ length) :
    basic_engine_shape_checked u font text length level g0
        = some (basic_engine_shape u (some font) (some text) length (some ⟨level⟩) g0)
      ∧ (∀ g : PangoGlyphString, in_bounds g ((0 : Nat) - 1 : Int) = false)
      ∧ (∀ (g : PangoGlyphString) (offset : Int) (glyph : Nat), 0 < g.num_glyphs →
          set_glyph_checked font g 0 offset glyph = some (set_glyph font g 0 offset glyph))
      ∧ (∀ (g : PangoGlyphString) (start : Nat), start < g_utf8_strlen text length →
          start < cluster_end (g_utf8_strlen text length) g (g_utf8_strlen text length)
              start start
            ∧ cluster_end (g_utf8_strlen text length) g (g_utf8_strlen text length)
                start start ≤ g_utf8_strlen text length) := by
  refine ⟨basic_engine_shape_checked_eq u font text length level g0 hlen,
    in_bounds_neg_one, ?_, ?_⟩
  · intro g offset glyph h
    exact set_glyph_checked_eq font g 0 offset glyph h
  · intro g start hs
    exact ⟨cluster_end_gt g _ start hs, cluster_end_le _ g _ start start (by omega)⟩

/-- Witness of C27: `a`, `b`, U+0301, `c` at level 1 passes all the checks, while
`swap_range` over 4 slots of a glyph string of size 3 does not. -/
theorem accesses_in_bounds_witness :
    (basic_engine_shape_checked demo_tables demo_font [0x61, 0x62, 0x301, 0x63] 5 1
        demo_glyphs).isSome = true
      ∧ swap_range_checked used_glyphs 0 4 = none := by
  have h := (accesses_in_bounds demo_tables demo_font [0x61, 0x62, 0x301, 0x63] 5 1
    demo_glyphs (by decide)).1
  exact ⟨by rw [h]; rfl, rfl⟩

end BasicFT2

/-! # Theorems about the layout deserializer -/

namespace Serializer

/-- C15: for a context that passes `PANGO_IS_CONTEXT`, `pango_layout_deserialize`
returns `NULL` and sets an error exactly when the JSON parser holds an error after
`json_parser_fill_layout`; the error code is `INVALID_VALUE` for a parser value error,
`MISSING_VALUE` for a parser schema error and `INVALID` for every other parser error;
when the parser holds no error the filled layout is returned and no error is set. -/
theorem deserialize_rejects {Context Layout : Type} (env : Environment Context Layout)
    (context : Context) (bytes : List Nat) (flags : Nat)
    (hctx : env.PANGO_IS_CONTEXT context = true)
    (hcodes : env.GTK_JSON_ERROR_VALUE ≠ env.GTK_JSON_ERROR_SCHEMA) :
    (((pango_layout_deserialize env context bytes flags).1 = none
          ∧ (pango_layout_deserialize env context bytes flags).2.isSome = true)
        ↔ (env.fill_layout bytes (env.pango_layout_new context) flags).2.error.isSome = true)
      ∧ (∀ e, (env.fill_layout bytes (env.pango_layout_new context) flags).2.error = some e →
          ∃ d, pango_layout_deserialize env context bytes flags = (none, some d)
            ∧ (e.domain = env.GTK_JSON_ERROR ∧ e.code = env.GTK_JSON_ERROR_VALUE →
                d.code = PangoLayoutDeserializeError.PANGO_LAYOUT_DESERIALIZE_INVALID_VALUE)
            ∧ (e.domain = env.GTK_JSON_ERROR ∧ e.code = env.GTK_JSON_ERROR_SCHEMA →
                d.code = PangoLayoutDeserializeError.PANGO_LAYOUT_DESERIALIZE_MISSING_VALUE)
            ∧ (¬ (e.domain = env.GTK_JSON_ERROR ∧ e.code = env.GTK_JSON_ERROR_VALUE) →
                ¬ (e.domain = env.GTK_JSON_ERROR ∧ e.code = env.GTK_JSON_ERROR_SCHEMA) →
                d.code = PangoLayoutDeserializeError.PANGO_LAYOUT_DESERIALIZE_INVALID))
      ∧ ((env.fill_layout bytes (env.pango_layout_new context) flags).2.error = none →
          pango_layout_deserialize env context bytes flags
            = (some (env.fill_layout bytes (env.pango_layout_new context) flags).1, none)) := by
  unfold pango_layout_deserialize
  simp only [hctx, not_true_eq_false, if_false]
  cases herr : (env.fill_layout bytes (env.pango_layout_new context) flags).2.error with
  | none => simp
  | some e =>
    refine ⟨by simp, ?_, by simp⟩
    intro e' he'
    cases he'
    refine ⟨_, rfl, ?_, ?_, ?_⟩
    · intro h
      simp [g_error_matches, h.1, h.2]
    · intro h
      have hne : ¬ (env.GTK_JSON_ERROR_SCHEMA = env.GTK_JSON_ERROR_VALUE) :=
        fun h' => hcodes h'.symm
      simp [g_error_matches, h.1, h.2, hne]
    · intro h1 h2
      have c1 : (decide (e.domain = env.GTK_JSON_ERROR)
          && decide (e.code = env.GTK_JSON_ERROR_VALUE)) = false := by
        simpa using h1
      have c2 : (decide (e.domain = env.GTK_JSON_ERROR)
          && decide (e.code = env.GTK_JSON_ERROR_SCHEMA)) = false := by
        simpa using h2
      simp [g_error_matches, c1, c2]

/-- Witness of C15: in the sample environment an input that starts with byte 0 makes
the parser record a schema error, and the call returns `NULL` with the error
`MISSING_VALUE`; the input `[5]` is parsed and the layout is returned. -/
theorem deserialize_rejects_witness :
    pango_layout_deserialize demo_env 1 [0, 2] 0
        = (none, some ⟨.PANGO_LAYOUT_DESERIALIZE_MISSING_VALUE, "0:1: missing"⟩)
      ∧ pango_layout_deserialize demo_env 1 [5] 0 = (some "parsed", none) := by
  have h := deserialize_rejects demo_env 1 [5] 0 (by decide) (by decide)
  exact ⟨by decide, h.2.2 (by decide)⟩

theorem get_weight_name_loop_none (w : Int) (count i : Nat)
    (h : i + count ≤ weight_names.length) :
    get_weight_name_loop w count i = none
      ↔ ∀ j, i ≤ j → j < i + count → named_weights[j]? ≠ some w := by
  induction count generalizing i with
  | zero =>
    simp only [get_weight_name_loop, true_iff]
    intro j h1 h2
    omega
  | succ count ih =>
    rw [get_weight_name_loop]
    by_cases hm : named_weights[i]? = some w
    · rw [if_pos hm]
      constructor
      · intro hn
        rw [List.getElem?_eq_none_iff] at hn
        omega
      · intro hall
        exact absurd hm (hall i (le_refl i) (by omega))
    · rw [if_neg hm, ih (i + 1) (by omega)]
      constructor
      · intro hall j h1 h2
        by_cases hj : j = i
        · rw [hj]; exact hm
        · exact hall j (by omega) (by omega)
      · intro hall j h1 h2
        exact hall j (by omega) (by omega)

theorem get_weight_name_none_iff (w : Int) :
    get_weight_name w = none ↔ w ∉ named_weights := by
  unfold get_weight_name
  rw [get_weight_name_loop_none w _ 0 (by decide), List.mem_iff_getElem?]
  constructor
  · intro hall hex
    obtain ⟨j, hj⟩ := hex
    have hlt : j < named_weights.length := by
      by_contra hge
      rw [List.getElem?_eq_none_iff.mpr (by omega)] at hj
      exact Option.noConfusion hj
    exact hall j (Nat.zero_le j) (by omega) hj
  · intro hnex j _ _ hj
    exact hnex ⟨j, hj⟩

theorem get_weight_name_of_named (p : Nat) (hp : p < 12) :
    ∃ w name, get_weight (p : Int) = some w ∧ weight_names[p]? = some name
      ∧ get_weight_name w = some name := by
  interval_cases p <;> exact ⟨_, _, rfl, rfl, rfl⟩

theorem to_int_of_int (w : Int) (h1 : -(2 ^ 31) ≤ w) (h2 : w < 2 ^ 31) : to_int w = w := by
  unfold to_int
  omega

theorem weight_round_trip_named {Parser : Type} (json : GtkJson Parser) (parser : Parser)
    (p : Nat) (w : Int)
    (hw : get_weight (p : Int) = some w)
    (hnode : json.gtk_json_parser_get_node parser = json.GTK_JSON_STRING)
    (hsel : json.gtk_json_parser_select_string parser weight_names = (p : Int)) :
    attr_for_type_weight json parser = (some w, false) := by
  unfold attr_for_type_weight parser_select_string
  rw [if_pos hnode, hsel]
  simp only []
  rw [if_neg (by omega)]
  simp only [hw]

theorem get_weight_name_loop_some (w : Int) (name : String) (count i : Nat)
    (h : get_weight_name_loop w count i = some name) :
    ∃ p, i ≤ p ∧ p < i + count ∧ named_weights[p]? = some w
      ∧ weight_names[p]? = some name := by
  induction count generalizing i with
  | zero => exact Option.noConfusion h
  | succ count ih =>
    rw [get_weight_name_loop] at h
    by_cases hm : named_weights[i]? = some w
    · rw [if_pos hm] at h
      exact ⟨i, le_refl i, by omega, hm, h⟩
    · rw [if_neg hm] at h
      obtain ⟨p, h1, h2, h3, h4⟩ := ih (i + 1) h
      exact ⟨p, by omega, by omega, h3, h4⟩

theorem position_of_weight_name (p : Nat) (name : String) (hp : p < 12)
    (h : weight_names[p]? = some name) : position_of name weight_names = (p : Int) := by
  interval_cases p <;> (cases h; decide)

/-- C30: font weights round-trip through the name table.  For every position `p` in
0..11, `get_weight_name (get_weight (p))` is `weight_names[p]`; `get_weight_name (w)`
is `NULL` exactly when `w` is not one of the 12 named weights; `add_attribute` writes
the name when there is one and the integer otherwise; and when the parser stands on
the value written (a string node on which `gtk_json_parser_select_string` gives the
position of the string among the options, or another node on which
`gtk_json_parser_get_int` gives the integer), `attr_for_type` reads back the same
`int` weight and records no error. -/
theorem weights_round_trip {Parser : Type} (json : GtkJson Parser) (parser : Parser)
    (w : Int) (hmin : -(2 ^ 31) ≤ w) (hmax : w < 2 ^ 31)
    (hstr : ∀ s, add_attribute_weight w = JsonValue.string s →
      json.gtk_json_parser_get_node parser = json.GTK_JSON_STRING
        ∧ json.gtk_json_parser_select_string parser weight_names
            = position_of s weight_names)
    (hint : ∀ n, add_attribute_weight w = JsonValue.integer n →
      json.gtk_json_parser_get_node parser ≠ json.GTK_JSON_STRING
        ∧ json.gtk_json_parser_get_int parser = n) :
    (∀ p : Nat, p < 12 → ∃ v name, get_weight (p : Int) = some v
        ∧ weight_names[p]? = some name ∧ get_weight_name v = some name)
      ∧ (∀ v : Int, get_weight_name v = none ↔ v ∉ named_weights)
      ∧ named_weights.length = 12
      ∧ (∀ name, get_weight_name w = some name →
          add_attribute_weight w = JsonValue.string name)
      ∧ (get_weight_name w = none → add_attribute_weight w = JsonValue.integer w)
      ∧ attr_for_type_weight json parser = (some w, false) := by
  refine ⟨get_weight_name_of_named, get_weight_name_none_iff, rfl, ?_, ?_, ?_⟩
  · intro name h
    simp only [add_attribute_weight, h]
  · intro h
    simp only [add_attribute_weight, h]
  · cases hname : get_weight_name w with
    | none =>
      have hv : add_attribute_weight w = JsonValue.integer w := by
        simp only [add_attribute_weight, hname]
      obtain ⟨hnode, hget⟩ := hint w hv
      unfold attr_for_type_weight
      rw [if_neg hnode, hget, to_int_of_int w hmin hmax]
    | some name =>
      have hv : add_attribute_weight w = JsonValue.string name := by
        simp only [add_attribute_weight, hname]
      obtain ⟨hnode, hsel⟩ := hstr name hv
      obtain ⟨p, _, hp, hw, hn⟩ := get_weight_name_loop_some w name _ 0 hname
      have hp12 : p < 12 := by
        have hlen : named_weights.length = 12 := rfl
        omega
      rw [position_of_weight_name p name hp12 hn] at hsel
      refine weight_round_trip_named json parser p w ?_ hnode hsel
      unfold get_weight
      rw [if_pos (by omega)]
      simpa using hw

/-- Witness of C30: the weight 700 is written as the name `bold` and read back as 700
by the sample parser. -/
theorem weights_round_trip_witness :
    add_attribute_weight 700 = JsonValue.string "bold"
      ∧ attr_for_type_weight demo_json (add_attribute_weight 700) = (some 700, false) := by
  have h := weights_round_trip demo_json (add_attribute_weight 700) 700 (by decide)
    (by decide)
    (fun s hs => by
      have hb : add_attribute_weight 700 = JsonValue.string "bold" := by decide
      rw [hb] at hs ⊢
      cases hs
      exact ⟨rfl, rfl⟩)
    (fun n hn => by
      have hb : add_attribute_weight 700 = JsonValue.string "bold" := by decide
      rw [hb] at hn
      exact JsonValue.noConfusion hn)
  exact ⟨h.2.2.2.1 "bold" (by decide), h.2.2.2.2.2⟩

end Serializer

/-! # Theorems about the items -/

namespace Itemize

theorem itemize_loop_covers (analysis_of : Nat → PangoAnalysis) (cs : List Nat) (i : Nat)
    (cur : PangoItem) (hcur : 0 < cur.length) :
    covers (itemize_loop analysis_of cs i cur) cur.offset
      (cur.offset + cur.length + BasicFT2.utf8_byte_length cs) := by
  induction cs generalizing i cur with
  | nil =>
    simp only [itemize_loop, covers, BasicFT2.utf8_byte_length]
    refine ⟨trivial, hcur, ?_⟩
    push_cast
    omega
  | cons c cs ih =>
    have hc := BasicFT2.utf8_length_pos c
    simp only [itemize_loop, BasicFT2.utf8_byte_length]
    split_ifs
    · have h := ih (i + 1) { cur with length := cur.length + BasicFT2.utf8_length c,
                                      num_chars := cur.num_chars + 1 } (by simp; omega)
      simp only at h
      have e : cur.offset + (cur.length + (BasicFT2.utf8_length c : Int))
            + (BasicFT2.utf8_byte_length cs : Int)
          = cur.offset + cur.length
            + ((BasicFT2.utf8_length c + BasicFT2.utf8_byte_length cs : Nat) : Int) := by
        push_cast; omega
      rw [e] at h
      exact h
    · refine ⟨rfl, hcur, ?_⟩
      have h := ih (i + 1) { offset := cur.offset + cur.length,
                             length := BasicFT2.utf8_length c,
                             num_chars := 1,
                             char_offset := cur.char_offset + cur.num_chars,
                             analysis := analysis_of i } (by simp; omega)
      simp only at h
      have e : cur.offset + cur.length + (BasicFT2.utf8_length c : Int)
            + (BasicFT2.utf8_byte_length cs : Int)
          = cur.offset + cur.length
            + ((BasicFT2.utf8_length c + BasicFT2.utf8_byte_length cs : Nat) : Int) := by
        push_cast; omega
      rw [e] at h
      exact h

theorem covers_head (items : List PangoItem) (lo hi : Int) (h : covers items lo hi)
    (item : PangoItem) (hi1 : items.head? = some item) : item.offset = lo := by
  cases items with
  | nil => simp at hi1
  | cons a rest =>
    simp only [List.head?_cons, Option.some.injEq] at hi1
    subst hi1
    exact h.1

theorem covers_chain (items : List PangoItem) (lo hi : Int) (h : covers items lo hi) :
    List.Chain' (fun a b : PangoItem => b.offset = a.offset + a.length) items := by
  induction items generalizing lo with
  | nil => exact List.chain'_nil
  | cons a rest ih =>
    cases rest with
    | nil => exact List.chain'_singleton a
    | cons b rest =>
      obtain ⟨h1, _, h3⟩ := h
      refine List.chain'_cons.mpr ⟨?_, ih _ h3⟩
      rw [h3.1, h1]

theorem covers_last (items : List PangoItem) (lo hi : Int) (h : covers items lo hi)
    (item : PangoItem) (hl : items.getLast? = some item) :
    item.offset + item.length = hi := by
  induction items generalizing lo with
  | nil => simp at hl
  | cons a rest ih =>
    cases rest with
    | nil =>
      simp only [List.getLast?_singleton, Option.some.injEq] at hl
      subst hl
      obtain ⟨h1, _, h3⟩ := h
      simp only [covers] at h3
      rw [h1]; exact h3
    | cons b rest =>
      rw [List.getLast?_cons_cons] at hl
      exact ih _ h.2.2 hl

theorem covers_pos (items : List PangoItem) (lo hi : Int) (h : covers items lo hi)
    (item : PangoItem) (hm : item ∈ items) : 0 < item.length := by
  induction items generalizing lo with
  | nil => simp at hm
  | cons a rest ih =>
    rcases List.mem_cons.mp hm with e | e
    · rw [e]; exact h.2.1
    · exact ih _ h.2.2 e

theorem itemize_loop_ne_nil (analysis_of : Nat → PangoAnalysis) (cs : List Nat) (i : Nat)
    (cur : PangoItem) : itemize_loop analysis_of cs i cur ≠ [] := by
  induction cs generalizing i cur with
  | nil => simp [itemize_loop]
  | cons d ds ih =>
    simp only [itemize_loop]
    split_ifs
    · exact ih _ _
    · simp

/-- C16: the items that the itemizer returns, taken in order, cover the requested byte
range exactly: the first starts at the range start, each next item starts where the
previous one ends, the last ends at the range end, and no item is empty; a zero-length
range gives no item. -/
theorem items_contiguous (analysis_of : Nat → PangoAnalysis) (chars : List Nat)
    (start_index start_char : Int) :
    covers (pango_itemize_with_font analysis_of chars start_index start_char)
        start_index (start_index + BasicFT2.utf8_byte_length chars)
      ∧ (pango_itemize_with_font analysis_of chars start_index start_char = [] ↔ chars = [])
      ∧ (∀ item,
          (pango_itemize_with_font analysis_of chars start_index start_char).head? = some item →
          item.offset = start_index)
      ∧ List.Chain' (fun a b : PangoItem => b.offset = a.offset + a.length)
          (pango_itemize_with_font analysis_of chars start_index start_char)
      ∧ (∀ item,
          (pango_itemize_with_font analysis_of chars start_index start_char).getLast?
            = some item →
          item.offset + item.length = start_index + BasicFT2.utf8_byte_length chars)
      ∧ (∀ item, item ∈ pango_itemize_with_font analysis_of chars start_index start_char →
          0 < item.length) := by
  have hc : covers (pango_itemize_with_font analysis_of chars start_index start_char)
      start_index (start_index + BasicFT2.utf8_byte_length chars) := by
    cases chars with
    | nil => simp [pango_itemize_with_font, covers, BasicFT2.utf8_byte_length]
    | cons c cs =>
      have hpos := BasicFT2.utf8_length_pos c
      have h := itemize_loop_covers analysis_of cs 1
        { offset := start_index, length := BasicFT2.utf8_length c, num_chars := 1,
          char_offset := start_char, analysis := analysis_of 0 } (by simp; omega)
      simp only at h
      have e : start_index + (BasicFT2.utf8_length c : Int)
            + (BasicFT2.utf8_byte_length cs : Int)
          = start_index + ((BasicFT2.utf8_byte_length (c :: cs) : Nat) : Int) := by
        simp only [BasicFT2.utf8_byte_length]
        push_cast; omega
      rw [e] at h
      exact h
  refine ⟨hc, ?_, covers_head _ _ _ hc, covers_chain _ _ _ hc, covers_last _ _ _ hc,
    covers_pos _ _ _ hc⟩
  cases chars with
  | nil => simp [pango_itemize_with_font]
  | cons c cs =>
    simp only [pango_itemize_with_font, List.cons_ne_nil, iff_false]
    exact itemize_loop_ne_nil analysis_of cs 1 _

/-- Witness of C16: `a`, `b`, two Hebrew letters and `c`, from byte 10 and character 4
on: three items, of bytes 10..12, 12..16 and 16..17. -/
theorem items_contiguous_witness :
    (pango_itemize_with_font (demo_analysis [0x61, 0x62, 0x5d0, 0x5d1, 0x63])
        [0x61, 0x62, 0x5d0, 0x5d1, 0x63] 10 4).map (fun item => (item.offset, item.length))
        = [(10, 2), (12, 4), (16, 1)]
      ∧ covers (pango_itemize_with_font (demo_analysis [0x61, 0x62, 0x5d0, 0x5d1, 0x63])
          [0x61, 0x62, 0x5d0, 0x5d1, 0x63] 10 4) 10
          (10 + BasicFT2.utf8_byte_length [0x61, 0x62, 0x5d0, 0x5d1, 0x63]) :=
  ⟨by decide, (items_contiguous (demo_analysis [0x61, 0x62, 0x5d0, 0x5d1, 0x63])
    [0x61, 0x62, 0x5d0, 0x5d1, 0x63] 10 4).1⟩

end Itemize
